import Mathlib

/-!
# OsmAnd core: `ObfReaderUtilities`

A shallow embedding of `src/src/Data/ObfReaderUtilities.cpp` together with the
part of the protobuf `CodedInputStream` / `WireFormatLite` interface it drives,
and machine-checked statements about the identifier codec, the zigzag and
big-endian readers, field skipping, end-of-message checks and the string table
reader.  The catalog query `ObfDataInterface::loadMapObjects`, of which only the
declaration is among the sources, is modelled from its specification.  The last
part embeds the state changes of `MapMarker_P`, `MapAnimator_P` and
`FavoriteLocationsPresenter_P` (`src/src/Map`).

Conventions.
* A byte is a natural number below 256, a 16-bit code unit one below 65536.
  Machine integers are naturals (unsigned) or integers (signed) with explicit
  reduction modulo the width.
* A `QString` is its list of UTF-16 code units.
* A reader that leaves its result variable uninitialised when the underlying
  read fails returns `none` for the value.
-/

namespace OsmAnd

/-! ## Machine integers -/

/-- Conversion of a mathematical integer to `uint32_t`: reduction modulo `2^32`. -/
def toUInt32 (i : Int) : Nat := (i % 2 ^ 32).toNat

/-- Conversion of a mathematical integer to `uint64_t`: reduction modulo `2^64`. -/
def toUInt64 (i : Int) : Nat := (i % 2 ^ 64).toNat

/-- Conversion of a natural number to `int32_t` (two's complement wrap). -/
def toInt32 (n : Nat) : Int :=
  if n % 2 ^ 32 < 2 ^ 31 then ((n % 2 ^ 32 : Nat) : Int) else ((n % 2 ^ 32 : Nat) : Int) - 2 ^ 32

/-- Conversion of a natural number to `int64_t` (two's complement wrap). -/
def toInt64 (n : Nat) : Int :=
  if n % 2 ^ 64 < 2 ^ 63 then ((n % 2 ^ 64 : Nat) : Int) else ((n % 2 ^ 64 : Nat) : Int) - 2 ^ 64

/-- The value `INT_MAX` of a 32-bit `int`. -/
def INT_MAX : Nat := 2 ^ 31 - 1

/-! ## Identifier codec (`encodeIntegerToString` / `decodeIntegerFromString`) -/

/-- A `QString`, as the list of its UTF-16 code units (`QChar::unicode()`). -/
abbrev QString := List Nat

/-- A `QStringList`. -/
abbrev QStringList := List QString

/-- The function `ObfReaderUtilities::decodeIntegerFromString`.  `container.at(i)` requires
`i < container.size()`; a container with fewer than two units gives `none`.
Each `(value & 0xffff) << 16 * k` is computed in `int` (integral promotion of
`ushort`) and converted to `uint32_t` by `res |= ...`. -/
def decodeIntegerFromString (container : QString) : Option Nat :=
  match container[0]?, container[1]? with
  | some value0, some value1 =>
    let res : Nat := 0
    let res := res ||| toUInt32 (toInt32 ((value0 &&& 0xffff) <<< (16 * 0)))
    let res := res ||| toUInt32 (toInt32 ((value1 &&& 0xffff) <<< (16 * 1)))
    some res
  | _, _ => none

/-- The function `ObfReaderUtilities::encodeIntegerToString`, for a `uint32_t` argument.  The
two-unit string is filled by `static_cast<ushort>((value >> 16 * k) & 0xffff)`;
the `assert` is kept: the result is `none` when it fails. -/
def encodeIntegerToString (value : Nat) : Option QString :=
  let fakeQString : QString :=
    [((value >>> (16 * 0)) &&& 0xffff) % 2 ^ 16, ((value >>> (16 * 1)) &&& 0xffff) % 2 ^ 16]
  if decodeIntegerFromString fakeQString = some value then some fakeQString else none

/-! ## The protobuf input stream

The cursor that every reader of `ObfReaderUtilities` drives is a protobuf
`CodedInputStream`.  Its state is kept as the bytes not yet consumed, the number
of bytes consumed, the current limit and the flags the library keeps.  The
operations follow the library's byte-at-a-time (refreshing) code paths; the
stream-wide total byte limit is taken to be `INT_MAX`. -/

/-- State of a `google::protobuf::io::CodedInputStream`. -/
structure CodedInputStream where
  /-- Bytes of the underlying stream that have not been consumed yet. -/
  input : List Nat
  /-- The value of `CurrentPosition()`: the number of bytes consumed so far. -/
  pos : Nat
  /-- The field `current_limit_`: absolute position of the limit, `INT_MAX` when none is set. -/
  limit : Nat
  /-- The field `legitimate_message_end_`. -/
  legitimateMessageEnd : Bool
  /-- The field `last_tag_`. -/
  lastTag : Nat
  /-- The field `recursion_depth_`. -/
  recursionDepth : Nat
  /-- The field `recursion_limit_`. -/
  recursionLimit : Nat
deriving DecidableEq

namespace CodedInputStream

/-- The constant `kMaxVarintBytes`. -/
def kMaxVarintBytes : Nat := 10

/-- The function `BufferSize()`: the number of bytes that can still be read before the limit
or the end of the underlying data. -/
def BufferSize (cis : CodedInputStream) : Nat :=
  min cis.input.length (cis.limit - cis.pos)

/-- The function `Advance(amount)`: consume `amount` bytes. -/
def Advance (cis : CodedInputStream) (amount : Nat) : CodedInputStream :=
  { cis with input := cis.input.drop amount, pos := cis.pos + amount }

/-- The function `CurrentPosition()`. -/
def CurrentPosition (cis : CodedInputStream) : Nat := cis.pos

/-- The function `BytesUntilLimit()`: `-1` when no limit is set, else the distance to it. -/
def BytesUntilLimit (cis : CodedInputStream) : Int :=
  if cis.limit = INT_MAX then -1 else (cis.limit : Int) - (cis.pos : Int)

/-- The function `ConsumedEntireMessage()`: returns `legitimate_message_end_`, the flag
that `ReadTag()` sets when it returns 0 because the limit or the end of the data
was reached. -/
def ConsumedEntireMessage (cis : CodedInputStream) : Bool := cis.legitimateMessageEnd

/-- Read one byte, if one is available before the limit. -/
def readByte (cis : CodedInputStream) : Option (Nat × CodedInputStream) :=
  if cis.pos < cis.limit then
    match cis.input with
    | [] => none
    | b :: rest => some (b % 256, { cis with input := rest, pos := cis.pos + 1 })
  else none

/-- The loop of `ReadVarint64`: `fuel` is `kMaxVarintBytes - count`; every byte
contributes `(b & 0x7F) << (7 * count)` to the 64-bit `result`, and the loop goes
on while `b & 0x80`.  It fails when the bytes run out or after ten bytes. -/
def readVarint64Loop : Nat → Nat → Nat → CodedInputStream → Option Nat × CodedInputStream
  | 0, _, _, cis => (none, cis)
  | fuel + 1, count, result, cis =>
    match cis.readByte with
    | none => (none, cis)
    | some (b, cis1) =>
      let result := result ||| (((b &&& 0x7F) <<< (7 * count)) % 2 ^ 64)
      if b &&& 0x80 ≠ 0 then readVarint64Loop fuel (count + 1) result cis1
      else (some result, cis1)

/-- The function `ReadVarint64(&value)`; the value is `none` when the read fails. -/
def ReadVarint64 (cis : CodedInputStream) : Option Nat × CodedInputStream :=
  readVarint64Loop kMaxVarintBytes 0 0 cis

/-- The function `ReadVarint32(&value)`: a varint of up to ten bytes, truncated to 32 bits. -/
def ReadVarint32 (cis : CodedInputStream) : Option Nat × CodedInputStream :=
  match cis.ReadVarint64 with
  | (some v, cis1) => (some (v % 2 ^ 32), cis1)
  | (none, cis1) => (none, cis1)

/-- The function `ReadTag()`: returns 0 and sets `legitimate_message_end_` when the limit or
the end of the data is reached; returns 0 as well when the varint is malformed;
otherwise returns the varint truncated to 32 bits. The result is kept in `last_tag_`. -/
def ReadTag (cis : CodedInputStream) : Nat × CodedInputStream :=
  if cis.BufferSize = 0 then
    (0, { cis with legitimateMessageEnd := true, lastTag := 0 })
  else
    match cis.ReadVarint64 with
    | (some v, cis1) => (v % 2 ^ 32, { cis1 with lastTag := v % 2 ^ 32 })
    | (none, cis1) => (0, { cis1 with lastTag := 0 })

/-- The function `ReadRaw(buffer, size)`: copies `size` bytes; when fewer are available it
consumes what is there and fails. -/
def ReadRaw (cis : CodedInputStream) (size : Nat) : Option (List Nat) × CodedInputStream :=
  if size ≤ cis.BufferSize then
    (some ((cis.input.take size).map (· % 256)), cis.Advance size)
  else (none, cis.Advance cis.BufferSize)

/-- The function `Skip(count)` with an `int` count: a negative count fails at once; a count
beyond what is available moves to the limit and fails. -/
def Skip (cis : CodedInputStream) (count : Int) : Bool × CodedInputStream :=
  if count < 0 then (false, cis)
  else if count.toNat ≤ cis.BufferSize then (true, cis.Advance count.toNat)
  else (false, cis.Advance cis.BufferSize)

/-- The function `ReadString(buffer, size)` with an `int` size. -/
def ReadString (cis : CodedInputStream) (size : Int) : Option (List Nat) × CodedInputStream :=
  if size < 0 then (none, cis)
  else if size.toNat ≤ cis.BufferSize then
    (some ((cis.input.take size.toNat).map (· % 256)), cis.Advance size.toNat)
  else (none, cis.Advance cis.BufferSize)

/-- Value of a little-endian byte sequence. -/
def littleEndianValue : List Nat → Nat
  | [] => 0
  | b :: bs => b + 256 * littleEndianValue bs

/-- The function `ReadLittleEndian32(&value)`. -/
def ReadLittleEndian32 (cis : CodedInputStream) : Option Nat × CodedInputStream :=
  match cis.ReadRaw 4 with
  | (some bytes, cis1) => (some (littleEndianValue bytes), cis1)
  | (none, cis1) => (none, cis1)

/-- The function `ReadLittleEndian64(&value)`. -/
def ReadLittleEndian64 (cis : CodedInputStream) : Option Nat × CodedInputStream :=
  match cis.ReadRaw 8 with
  | (some bytes, cis1) => (some (littleEndianValue bytes), cis1)
  | (none, cis1) => (none, cis1)

/-- The function `IncrementRecursionDepth()`. -/
def IncrementRecursionDepth (cis : CodedInputStream) : Bool × CodedInputStream :=
  (decide (cis.recursionDepth + 1 ≤ cis.recursionLimit),
    { cis with recursionDepth := cis.recursionDepth + 1 })

/-- The function `DecrementRecursionDepth()`. -/
def DecrementRecursionDepth (cis : CodedInputStream) : CodedInputStream :=
  if 0 < cis.recursionDepth then { cis with recursionDepth := cis.recursionDepth - 1 } else cis

/-- The function `LastTagWas(expected)`. -/
def LastTagWas (cis : CodedInputStream) (expected : Nat) : Bool := cis.lastTag == expected

end CodedInputStream

/-! ## `WireFormatLite` -/

namespace WireFormatLite

/-- Wire type `WIRETYPE_VARINT`. -/
def WIRETYPE_VARINT : Nat := 0
/-- Wire type `WIRETYPE_FIXED64`. -/
def WIRETYPE_FIXED64 : Nat := 1
/-- Wire type `WIRETYPE_LENGTH_DELIMITED`. -/
def WIRETYPE_LENGTH_DELIMITED : Nat := 2
/-- Wire type `WIRETYPE_START_GROUP`. -/
def WIRETYPE_START_GROUP : Nat := 3
/-- Wire type `WIRETYPE_END_GROUP`. -/
def WIRETYPE_END_GROUP : Nat := 4
/-- Wire type `WIRETYPE_FIXED32`. -/
def WIRETYPE_FIXED32 : Nat := 5
/-- Wire type `WIRETYPE_FIXED32_LENGTH_DELIMITED`, the OsmAnd extension. -/
def WIRETYPE_FIXED32_LENGTH_DELIMITED : Nat := 6

/-- The function `GetTagWireType(tag)`: the low three bits. -/
def GetTagWireType (tag : Nat) : Nat := tag &&& 7

/-- The function `GetTagFieldNumber(tag)`: the tag shifted right by three bits. -/
def GetTagFieldNumber (tag : Nat) : Nat := tag >>> 3

/-- The function `MakeTag(fieldNumber, wireType)`. -/
def MakeTag (fieldNumber wireType : Nat) : Nat := ((fieldNumber <<< 3) ||| wireType) % 2 ^ 32

/-- The function `ZigZagDecode32(n)`: `(n >> 1) ^ -(n & 1)` on `uint32`, returned as `int32`. -/
def ZigZagDecode32 (n : Nat) : Int :=
  toInt32 ((n >>> 1) ^^^ toUInt32 (-((n &&& 1 : Nat) : Int)))

/-- The function `ZigZagDecode64(n)`: `(n >> 1) ^ -(n & 1)` on `uint64`, returned as `int64`. -/
def ZigZagDecode64 (n : Nat) : Int :=
  toInt64 ((n >>> 1) ^^^ toUInt64 (-((n &&& 1 : Nat) : Int)))

/-- The function `ReadString(input, &value)`: a varint length, then that many bytes. -/
def ReadString (cis : CodedInputStream) : Option (List Nat) × CodedInputStream :=
  match cis.ReadVarint32 with
  | (none, cis1) => (none, cis1)
  | (some length, cis1) => cis1.ReadString (toInt32 length)

mutual

/-- The function `SkipField(input, tag)`, with a bound on the number of nested calls; `none`
means that the bound was too small. -/
def SkipFieldFuel : Nat → CodedInputStream → Nat → Option (Bool × CodedInputStream)
  | 0, _, _ => none
  | fuel + 1, cis, tag =>
    match GetTagWireType tag with
    | 0 =>
      match cis.ReadVarint64 with
      | (none, cis1) => some (false, cis1)
      | (some _, cis1) => some (true, cis1)
    | 1 =>
      match cis.ReadLittleEndian64 with
      | (none, cis1) => some (false, cis1)
      | (some _, cis1) => some (true, cis1)
    | 2 =>
      match cis.ReadVarint32 with
      | (none, cis1) => some (false, cis1)
      | (some length, cis1) => some (cis1.Skip (toInt32 length))
    | 3 =>
      match cis.IncrementRecursionDepth with
      | (false, cis1) => some (false, cis1)
      | (true, cis1) =>
        match SkipMessageFuel fuel cis1 with
        | none => none
        | some (false, cis2) => some (false, cis2)
        | some (true, cis2) =>
          let cis3 := cis2.DecrementRecursionDepth
          some (cis3.LastTagWas (MakeTag (GetTagFieldNumber tag) WIRETYPE_END_GROUP), cis3)
    | 4 => some (false, cis)
    | 5 =>
      match cis.ReadLittleEndian32 with
      | (none, cis1) => some (false, cis1)
      | (some _, cis1) => some (true, cis1)
    | _ => some (false, cis)

/-- The function `SkipMessage(input)`, with a bound on the number of nested calls and loop
iterations; `none` means that the bound was too small. -/
def SkipMessageFuel : Nat → CodedInputStream → Option (Bool × CodedInputStream)
  | 0, _ => none
  | fuel + 1, cis =>
    match cis.ReadTag with
    | (tag, cis1) =>
      if tag = 0 then some (true, cis1)
      else if GetTagWireType tag = WIRETYPE_END_GROUP then some (true, cis1)
      else
        match SkipFieldFuel fuel cis1 tag with
        | none => none
        | some (false, cis2) => some (false, cis2)
        | some (true, cis2) => SkipMessageFuel fuel cis2

end

/-- The function `SkipField(input, tag)`.  Every nested call or loop iteration but the first
follows the consumption of at least one byte, or a nested call that itself
precedes one, so twice the remaining bytes plus two bounds their number. -/
def SkipField (cis : CodedInputStream) (tag : Nat) : Option (Bool × CodedInputStream) :=
  SkipFieldFuel (2 * cis.input.length + 2) cis tag

end WireFormatLite

/-! ## What the readers take from their environment -/

/-- The parts of the build that the readers depend on and that lie outside
`ObfReaderUtilities.cpp`. -/
structure Externals where
  /-- Whether the host is little-endian (decides what `qFromBigEndian` does). -/
  littleEndianHost : Bool
  /-- The function `QString::fromUtf8(data, size)`. -/
  fromUtf8 : List Nat → QString
  /-- The constant `OBF::StringTable::kSFieldNumber` of the generated `OBF.pb.h`. -/
  kSFieldNumber : Nat

/-- The `uint32` whose object representation is the given four bytes. -/
def uint32OfBytes (littleEndianHost : Bool) (bytes : List Nat) : Nat :=
  if littleEndianHost then CodedInputStream.littleEndianValue bytes
  else CodedInputStream.littleEndianValue bytes.reverse

/-- The function `qbswap` on a 32-bit value. -/
def qbswap32 (x : Nat) : Nat :=
  ((x &&& 0x000000ff) <<< 24) ||| ((x &&& 0x0000ff00) <<< 8) |||
  ((x &&& 0x00ff0000) >>> 8) ||| ((x &&& 0xff000000) >>> 24)

/-- The function `qFromBigEndian` on a 32-bit value: a byte swap on a little-endian host, the
identity on a big-endian one. -/
def qFromBigEndian (littleEndianHost : Bool) (x : Nat) : Nat :=
  if littleEndianHost then qbswap32 x else x

/-! ## `ObfReaderUtilities` -/

namespace ObfReaderUtilities

open CodedInputStream WireFormatLite

/-- The function `readQString(cis, output)`: the returned string is the new content of `output`. -/
def readQString (ext : Externals) (cis : CodedInputStream) (output : QString) :
    Bool × CodedInputStream × QString :=
  match WireFormatLite.ReadString cis with
  | (none, cis1) => (false, cis1, output)
  | (some value, cis1) => (true, cis1, ext.fromUtf8 value)

/-- The function `readSInt32(cis)`. -/
def readSInt32 (cis : CodedInputStream) : Option Int × CodedInputStream :=
  match cis.ReadVarint32 with
  | (none, cis1) => (none, cis1)
  | (some value, cis1) => (some (ZigZagDecode32 value), cis1)

/-- The function `readSInt64(cis)`. -/
def readSInt64 (cis : CodedInputStream) : Option Int × CodedInputStream :=
  match cis.ReadVarint64 with
  | (none, cis1) => (none, cis1)
  | (some value, cis1) => (some (ZigZagDecode64 value), cis1)

/-- The function `readBigEndianInt(cis)`. -/
def readBigEndianInt (ext : Externals) (cis : CodedInputStream) :
    Option Nat × CodedInputStream :=
  match cis.ReadRaw 4 with
  | (none, cis1) => (none, cis1)
  | (some bytes, cis1) =>
    (some (qFromBigEndian ext.littleEndianHost (uint32OfBytes ext.littleEndianHost bytes)), cis1)

/-- The function `readLength(cis)`. -/
def readLength (cis : CodedInputStream) : Option Nat × CodedInputStream :=
  cis.ReadVarint32

/-- The function `reachedDataEnd(cis)`; the warning that is logged reads the stream only. -/
def reachedDataEnd (cis : CodedInputStream) : Bool × CodedInputStream :=
  if cis.ConsumedEntireMessage then (true, cis) else (false, cis)

/-- The function `ensureAllDataWasRead(cis)`. -/
def ensureAllDataWasRead (cis : CodedInputStream) : CodedInputStream :=
  let bytesUntilLimit := cis.BytesUntilLimit
  if bytesUntilLimit = 0 then cis
  else (cis.Skip cis.BytesUntilLimit).2

/-- The function `skipUnknownField(cis, tag)`; the `int` parameter is converted back to
`uint32` by the callee.  When `readBigEndianInt` fails the stream is at its limit
or end and `Skip` leaves it there whatever its argument. -/
def skipUnknownField (ext : Externals) (cis : CodedInputStream) (tag : Int) :
    Option CodedInputStream :=
  let wireType := GetTagWireType (toUInt32 tag)
  if wireType = WIRETYPE_FIXED32_LENGTH_DELIMITED then
    match readBigEndianInt ext cis with
    | (none, cis1) => some cis1
    | (some length, cis1) => some (cis1.Skip (toInt32 length)).2
  else
    (SkipField cis (toUInt32 tag)).map (·.2)

/-- The function `skipBlockWithLength(cis)`. -/
def skipBlockWithLength (cis : CodedInputStream) : CodedInputStream :=
  match readLength cis with
  | (none, cis1) => cis1
  | (some length, cis1) => (cis1.Skip (toInt32 length)).2

/-- The loop of `readStringTable(cis, stringTableOut)`, with a bound on the
number of iterations; `none` means that the bound was too small. -/
def readStringTableFuel (ext : Externals) :
    Nat → CodedInputStream → QStringList → Option (CodedInputStream × QStringList)
  | 0, _, _ => none
  | fuel + 1, cis, stringTableOut =>
    match cis.ReadTag with
    | (tag, cis1) =>
      if GetTagFieldNumber tag = 0 then
        if !(reachedDataEnd cis1).1 then some ((reachedDataEnd cis1).2, stringTableOut)
        else some ((reachedDataEnd cis1).2, stringTableOut)
      else if GetTagFieldNumber tag = ext.kSFieldNumber then
        match readQString ext cis1 [] with
        | (true, cis2, value) => readStringTableFuel ext fuel cis2 (stringTableOut ++ [value])
        | (false, cis2, _) => readStringTableFuel ext fuel cis2 stringTableOut
      else
        match skipUnknownField ext cis1 (toInt32 tag) with
        | none => none
        | some cis2 => readStringTableFuel ext fuel cis2 stringTableOut

/-- The function `readStringTable(cis, stringTableOut)`.  Every iteration that does not
return has read a non-zero tag, at least one byte, so one more iteration than
there are bytes is enough. -/
def readStringTable (ext : Externals) (cis : CodedInputStream) (stringTableOut : QStringList) :
    Option (CodedInputStream × QStringList) :=
  readStringTableFuel ext (cis.input.length + 1) cis stringTableOut

end ObfReaderUtilities

/-! ## Wire encodings, for stating properties of the readers -/

/-- The base-128 varint encoding of `n`, least significant group first. -/
def encodeVarint (n : Nat) : List Nat :=
  if h : n < 128 then [n] else (n % 128 + 128) :: encodeVarint (n / 128)
termination_by n
decreasing_by omega

/-- The 32-bit zigzag code `(v << 1) ^ (v >> 31)` of a signed value. -/
def zigZagEncode32 (v : Int) : Nat :=
  ((toUInt32 v <<< 1) % 2 ^ 32) ^^^ toUInt32 (v >>> (31 : Nat))

/-- The 64-bit zigzag code `(v << 1) ^ (v >> 63)` of a signed value. -/
def zigZagEncode64 (v : Int) : Nat :=
  ((toUInt64 v <<< 1) % 2 ^ 64) ^^^ toUInt64 (v >>> (63 : Nat))

/-- The bytes of a length-delimited field: tag, varint length, payload. -/
def encodeLengthDelimited (fieldNumber : Nat) (payload : List Nat) : List Nat :=
  encodeVarint (WireFormatLite.MakeTag fieldNumber WireFormatLite.WIRETYPE_LENGTH_DELIMITED)
    ++ encodeVarint payload.length ++ payload

/-- The bytes of a string table: one length-delimited field per payload, in order. -/
def encodeStringTableEntries (fieldNumber : Nat) : List (List Nat) → List Nat
  | [] => []
  | payload :: payloads =>
    encodeLengthDelimited fieldNumber payload ++ encodeStringTableEntries fieldNumber payloads

/-- The four bytes of a 32-bit value in big-endian order. -/
def encodeBigEndian32 (n : Nat) : List Nat :=
  [n / 2 ^ 24 % 256, n / 2 ^ 16 % 256, n / 2 ^ 8 % 256, n % 256]

/-- What follows the tag of a field on the wire, for the wire types that carry a
self-contained payload. -/
inductive FieldPayload where
  /-- Wire type 0: a varint. -/
  | varint (value : Nat)
  /-- Wire type 1: eight bytes. -/
  | fixed64 (bytes : List Nat)
  /-- Wire type 2: a varint byte count, then that many bytes. -/
  | lengthDelimited (payload : List Nat)
  /-- Wire type 5: four bytes. -/
  | fixed32 (bytes : List Nat)
  /-- Wire type 6: a four-byte big-endian byte count, then that many bytes. -/
  | fixed32LengthDelimited (payload : List Nat)
deriving DecidableEq

namespace FieldPayload

/-- The wire type that introduces the payload. -/
def wireType : FieldPayload → Nat
  | varint _ => WireFormatLite.WIRETYPE_VARINT
  | fixed64 _ => WireFormatLite.WIRETYPE_FIXED64
  | lengthDelimited _ => WireFormatLite.WIRETYPE_LENGTH_DELIMITED
  | fixed32 _ => WireFormatLite.WIRETYPE_FIXED32
  | fixed32LengthDelimited _ => WireFormatLite.WIRETYPE_FIXED32_LENGTH_DELIMITED

/-- The bytes of the payload. -/
def encode : FieldPayload → List Nat
  | varint value => encodeVarint value
  | fixed64 bytes => bytes
  | lengthDelimited payload => encodeVarint payload.length ++ payload
  | fixed32 bytes => bytes
  | fixed32LengthDelimited payload => encodeBigEndian32 payload.length ++ payload

/-- The number of bytes the payload occupies: a varint, 8 bytes, a varint byte
count `n` plus `n` bytes, 4 bytes, or 4 bytes plus the big-endian byte count. -/
def size : FieldPayload → Nat
  | varint value => (encodeVarint value).length
  | fixed64 _ => 8
  | lengthDelimited payload => (encodeVarint payload.length).length + payload.length
  | fixed32 _ => 4
  | fixed32LengthDelimited payload => 4 + payload.length

/-- A varint holds a 64-bit value; the fixed-width payloads have their width. -/
def wellFormed : FieldPayload → Bool
  | varint value => decide (value < 2 ^ 64)
  | fixed64 bytes => decide (bytes.length = 8)
  | lengthDelimited _ => true
  | fixed32 bytes => decide (bytes.length = 4)
  | fixed32LengthDelimited _ => true

end FieldPayload

/-- A field of a string-table message: an entry, or a field with another number. -/
inductive TableField where
  /-- An entry: the entry tag (wire type 2), a varint byte count and the string bytes. -/
  | entry (payload : List Nat)
  /-- A field that is not an entry: its field number and what follows its tag. -/
  | unknown (fieldNumber : Nat) (payload : FieldPayload)
deriving DecidableEq

namespace TableField

/-- The bytes of the field, tag included; `kS` is the field number of entries. -/
def encode (kS : Nat) : TableField → List Nat
  | entry payload => encodeLengthDelimited kS payload
  | unknown fieldNumber payload =>
    encodeVarint (WireFormatLite.MakeTag fieldNumber payload.wireType) ++ payload.encode

/-- A field that is not an entry has a field number that is neither 0 nor that of
entries and fits a 32-bit tag, and a well-formed payload. -/
def wellFormed (kS : Nat) : TableField → Bool
  | entry _ => true
  | unknown fieldNumber payload =>
    decide (fieldNumber ≠ 0) && decide (fieldNumber ≠ kS) && decide (fieldNumber < 2 ^ 29)
      && payload.wellFormed

/-- Whether the field is an entry. -/
def isEntry : TableField → Bool
  | entry _ => true
  | unknown _ _ => false

end TableField

/-- The bytes of a sequence of fields. -/
def encodeTableFields (kS : Nat) : List TableField → List Nat
  | [] => []
  | field :: fields => field.encode kS ++ encodeTableFields kS fields

/-- The payloads of the entries among the fields, in order. -/
def entryPayloads : List TableField → List (List Nat)
  | [] => []
  | TableField.entry payload :: fields => payload :: entryPayloads fields
  | TableField.unknown _ _ :: fields => entryPayloads fields

/-- The fields that remain when every field that is not an entry is deleted. -/
def deleteUnknownFields (fields : List TableField) : List TableField :=
  fields.filter TableField.isEntry

/-! ## `ObfDataInterface::loadMapObjects`

Only the declaration of `loadMapObjects` (`ObfDataInterface.h`) is among the
sources; its body is modelled from the specification of the catalog query. -/

/-- Modelled from the spec: a vector feature (`BinaryMapObject`, declared outside the
sources) as the catalog sees it: an identifier and content it does not inspect. -/
structure BinaryMapObject where
  /-- The identifier the identity filter is consulted with. -/
  id : Nat
  /-- The rest of the object, opaque to the catalog. -/
  content : List Nat
deriving DecidableEq

/-- Modelled from the spec: what the section reader (`ObfMapSectionReader`, outside
the sources) hands back for one archive: the candidate objects in the order it
produced them, the archive's foundation signal, and whether the archive could be
read. -/
structure SectionResult (Foundation : Type) where
  /-- The candidate objects, in production order. -/
  objects : List BinaryMapObject
  /-- The foundation signal of the archive. -/
  foundation : Foundation
  /-- False when the archive was malformed. -/
  readable : Bool

/-- Modelled from the spec: the objects of one archive's result that the identity
filter (`filterById`) accepts; every object when no filter is supplied. -/
def acceptedObjects {Foundation : Type} (filterById : Option (Nat → Bool))
    (result : SectionResult Foundation) : List BinaryMapObject :=
  match filterById with
  | none => result.objects
  | some accept => result.objects.filter (fun object => accept object.id)

/-- Modelled from the spec: whether the controller (`IQueryController`, outside the
sources) reports cancellation at its poll number `poll`; no controller never
cancels. -/
def isCancelled (controller : Option (Nat → Bool)) (poll : Nat) : Bool :=
  match controller with
  | none => false
  | some answers => answers poll

/-- Modelled from the spec: the loop of `ObfDataInterface::loadMapObjects`, whose body
(`ObfDataInterface.cpp`) is not among the sources.  For each archive reader in
list order: poll the controller and, if cancelled, stop and return what has been
accumulated with `success = false`; else delegate to the section reader, keep the
objects the identity filter accepts, append them to the accumulated objects and
merge the archive's foundation signal.  `success` is true only if every archive
was processed without cancellation or malformation.  The section reader and the
foundation merge are parameters; `processed` counts the archives done, which is
also the number of the next controller poll; the cache and the metric, which do
not enter the result, are left out. -/
def loadMapObjectsLoop {Reader Area Zoom Foundation : Type}
    (sectionReader : Reader → Area → Zoom → SectionResult Foundation)
    (mergeFoundation : Foundation → Foundation → Foundation)
    (area : Area) (zoom : Zoom) (filterById : Option (Nat → Bool))
    (controller : Option (Nat → Bool)) :
    Nat → List Reader → List BinaryMapObject → Foundation → Bool →
      List BinaryMapObject × Foundation × Bool
  | _, [], resultOut, foundationOut, success => (resultOut, foundationOut, success)
  | processed, obfReader :: obfReaders, resultOut, foundationOut, success =>
    if isCancelled controller processed then (resultOut, foundationOut, false)
    else
      let result := sectionReader obfReader area zoom
      loadMapObjectsLoop sectionReader mergeFoundation area zoom filterById controller
        (processed + 1) obfReaders (resultOut ++ acceptedObjects filterById result)
        (mergeFoundation foundationOut result.foundation) (success && result.readable)

/-- Modelled from the spec: the query `ObfDataInterface::loadMapObjects` (its body,
in `ObfDataInterface.cpp`, is not among the sources): the loop over the readers
the catalog was built with, started with no object, the initial foundation and
`success = true`.  Returns the objects, the foundation and `success`. -/
def loadMapObjects {Reader Area Zoom Foundation : Type}
    (sectionReader : Reader → Area → Zoom → SectionResult Foundation)
    (mergeFoundation : Foundation → Foundation → Foundation) (initialFoundation : Foundation)
    (obfReaders : List Reader) (area : Area) (zoom : Zoom)
    (filterById : Option (Nat → Bool)) (controller : Option (Nat → Bool)) :
    List BinaryMapObject × Foundation × Bool :=
  loadMapObjectsLoop sectionReader mergeFoundation area zoom filterById controller
    0 obfReaders [] initialFoundation true

/-! ## `MapMarker_P`

The private part of a map marker (`src/src/Map/MapMarker_P.cpp`).  The fields are
those the member functions read and write; the locks are left out (one call at
a time).  A `double` or `float` property is kept as the value that was stored,
identified by its bit pattern.  The symbols of the owner's group, which
`applyChanges` updates, are part of the state. -/

/-- A point with integer coordinates (`PointI`). -/
structure PointI where
  /-- The first coordinate. -/
  x : Int
  /-- The second coordinate. -/
  y : Int
deriving DecidableEq

/-- A symbol of a map symbols group: either a `BoundToPointMapSymbol` (or a symbol
derived from it), which has the field `location31`, or a symbol of another kind.
The rest of the symbol is kept as opaque content. -/
inductive MapSymbol where
  /-- A symbol to which `dynamic_pointer_cast<BoundToPointMapSymbol>` applies. -/
  | boundToPoint (location31 : PointI) (content : Nat)
  /-- Any other symbol. -/
  | other (content : Nat)
deriving DecidableEq

/-- The state of a `MapMarker_P` together with `owner->mapSymbolsGroup->symbols`. -/
structure MapMarker_P where
  /-- The field `_isHidden`. -/
  _isHidden : Bool
  /-- The field `_isPrecisionCircleEnabled`. -/
  _isPrecisionCircleEnabled : Bool
  /-- The field `_precisionCircleRadius` (a `double`, as its bit pattern). -/
  _precisionCircleRadius : Nat
  /-- The field `_precisionCircleBaseColor` (an `SkColor`). -/
  _precisionCircleBaseColor : Nat
  /-- The field `_position`. -/
  _position : PointI
  /-- The field `_direction` (a `float`, as its bit pattern). -/
  _direction : Nat
  /-- The field `_hasUnappliedChanges`. -/
  _hasUnappliedChanges : Bool
  /-- The symbols of the owner's group, `owner->mapSymbolsGroup->symbols`. -/
  symbols : List MapSymbol
deriving DecidableEq

namespace MapMarker_P

/-- The function `isHidden()`. -/
def isHidden (self : MapMarker_P) : Bool := self._isHidden

/-- The function `setIsHidden(hidden)`. -/
def setIsHidden (self : MapMarker_P) (hidden : Bool) : MapMarker_P :=
  { self with _isHidden := hidden, _hasUnappliedChanges := true }

/-- The function `isPrecisionCircleEnabled()`. -/
def isPrecisionCircleEnabled (self : MapMarker_P) : Bool := self._isPrecisionCircleEnabled

/-- The function `setIsPrecisionCircleEnabled(enabled)`. -/
def setIsPrecisionCircleEnabled (self : MapMarker_P) (enabled : Bool) : MapMarker_P :=
  { self with _isPrecisionCircleEnabled := enabled, _hasUnappliedChanges := true }

/-- The function `getPrecisionCircleRadius()`. -/
def getPrecisionCircleRadius (self : MapMarker_P) : Nat := self._precisionCircleRadius

/-- The function `setPrecisionCircleRadius(radius)`. -/
def setPrecisionCircleRadius (self : MapMarker_P) (radius : Nat) : MapMarker_P :=
  { self with _precisionCircleRadius := radius, _hasUnappliedChanges := true }

/-- The function `getPrecisionCircleBaseColor()`. -/
def getPrecisionCircleBaseColor (self : MapMarker_P) : Nat := self._precisionCircleBaseColor

/-- The function `setPrecisionCircleBaseColor(baseColor)`. -/
def setPrecisionCircleBaseColor (self : MapMarker_P) (baseColor : Nat) : MapMarker_P :=
  { self with _precisionCircleBaseColor := baseColor, _hasUnappliedChanges := true }

/-- The function `getPosition()`. -/
def getPosition (self : MapMarker_P) : PointI := self._position

/-- The function `setPosition(position)`. -/
def setPosition (self : MapMarker_P) (position : PointI) : MapMarker_P :=
  { self with _position := position, _hasUnappliedChanges := true }

/-- The function `getDirection()`. -/
def getDirection (self : MapMarker_P) : Nat := self._direction

/-- The function `setDirection(direction)`. -/
def setDirection (self : MapMarker_P) (direction : Nat) : MapMarker_P :=
  { self with _direction := direction, _hasUnappliedChanges := true }

/-- The function `hasUnappliedChanges()`. -/
def hasUnappliedChanges (self : MapMarker_P) : Bool := self._hasUnappliedChanges

/-- The body of the loop of `applyChanges()` for one symbol: a symbol bound to a
point gets `location31 = _position`; the other updates are commented out in the
source. -/
def applyChangesToSymbol (position : PointI) : MapSymbol → MapSymbol
  | MapSymbol.boundToPoint _ content => MapSymbol.boundToPoint position content
  | MapSymbol.other content => MapSymbol.other content

/-- The function `applyChanges()`: nothing when no change is pending; else every symbol of
the owner's group is visited and the flag is cleared. -/
def applyChanges (self : MapMarker_P) : MapMarker_P :=
  if !self._hasUnappliedChanges then self
  else
    { self with
      symbols := self.symbols.map (applyChangesToSymbol self._position)
      _hasUnappliedChanges := false }

end MapMarker_P

/-! ## `MapAnimator_P`

The animator (`src/src/Map/MapAnimator_P.cpp`): the pause flag, the collection of
animations in its iteration order, and the renderer the animations act on.
`Animation::process` is defined outside the sources; it is a parameter that maps
an animation, the time passed and the renderer to whether the animation has
finished, the animation's new state and the renderer's new state. -/

/-- The state of a `MapAnimator_P`. -/
structure MapAnimator_P (Animation Renderer : Type) where
  /-- The field `_isAnimationPaused`. -/
  _isAnimationPaused : Bool
  /-- The field `_animations`, in iteration order. -/
  _animations : List Animation
  /-- The field `_renderer`; `none` is the null pointer. -/
  _renderer : Option Renderer

namespace MapAnimator_P

variable {Animation Renderer Time : Type}

/-- The constructor `MapAnimator_P(owner)`: paused, no animation, no renderer. -/
def construct : MapAnimator_P Animation Renderer :=
  { _isAnimationPaused := true, _animations := [], _renderer := none }

/-- The function `isAnimationPaused()`. -/
def isAnimationPaused (self : MapAnimator_P Animation Renderer) : Bool :=
  self._isAnimationPaused

/-- The function `isAnimationRunning()`. -/
def isAnimationRunning (self : MapAnimator_P Animation Renderer) : Bool :=
  !self._isAnimationPaused && !self._animations.isEmpty

/-- The function `pauseAnimation()`. -/
def pauseAnimation (self : MapAnimator_P Animation Renderer) : MapAnimator_P Animation Renderer :=
  { self with _isAnimationPaused := true }

/-- The function `resumeAnimation()`. -/
def resumeAnimation (self : MapAnimator_P Animation Renderer) :
    MapAnimator_P Animation Renderer :=
  { self with _isAnimationPaused := false }

/-- The function `cancelAnimation()`. -/
def cancelAnimation (self : MapAnimator_P Animation Renderer) :
    MapAnimator_P Animation Renderer :=
  { self with _isAnimationPaused := true, _animations := [] }

/-- The function `setMapRenderer(mapRenderer)`. -/
def setMapRenderer (self : MapAnimator_P Animation Renderer) (mapRenderer : Option Renderer) :
    MapAnimator_P Animation Renderer :=
  { self.cancelAnimation with _renderer := mapRenderer }

/-- The loop of `update(timePassed)`: every animation is processed in turn and
removed when `process` returns true. -/
def updateLoop (process : Animation → Time → Option Renderer → Bool × Animation × Option Renderer)
    (timePassed : Time) : List Animation → Option Renderer → List Animation × Option Renderer
  | [], renderer => ([], renderer)
  | animation :: animations, renderer =>
    match process animation timePassed renderer with
    | (finished, animation1, renderer1) =>
      match updateLoop process timePassed animations renderer1 with
      | (remaining, renderer2) =>
        (if finished then remaining else animation1 :: remaining, renderer2)

/-- The function `update(timePassed)`: nothing while the animation is paused. -/
def update (process : Animation → Time → Option Renderer → Bool × Animation × Option Renderer)
    (self : MapAnimator_P Animation Renderer) (timePassed : Time) :
    MapAnimator_P Animation Renderer :=
  if self._isAnimationPaused then self
  else
    match updateLoop process timePassed self._animations self._renderer with
    | (remaining, renderer) => { self with _animations := remaining, _renderer := renderer }

end MapAnimator_P

/-! ## `FavoriteLocationsPresenter_P`

The presenter (`src/src/Map/FavoriteLocationsPresenter_P.cpp`).  A favorite
location is identified by its pointer, a value of a type with decidable equality.
The markers collection and the marker builder are defined outside the sources:
`removeMarker` and `buildAndAddToCollection` are parameters, and so are the
accessors of a favorite location and the pin icon bitmaps. -/

/-- The settings of the `MapMarkerBuilder` that `syncFavoriteLocationMarkers` sets. -/
structure MapMarkerBuilder (Bitmap : Type) where
  /-- Set by `setBaseOrder`. -/
  baseOrder : Int
  /-- Set by `setIsAccuracyCircleSupported`. -/
  isAccuracyCircleSupported : Bool
  /-- Set by `setPinIcon`. -/
  pinIcon : Bitmap
  /-- Set by `setPosition`; `none` until it is set. -/
  position : Option PointI
  /-- Set by `setPinIconModulationColor`; `none` until it is set. -/
  pinIconModulationColor : Option Nat
  /-- Set by `setIsHidden`; `none` until it is set. -/
  isHidden : Option Bool

/-- What `syncFavoriteLocationMarkers` uses from outside its source file. -/
structure PresenterExternals (Location Marker Collection Bitmap : Type) where
  /-- The function `IFavoriteLocation::getPosition31()`. -/
  getPosition31 : Location → PointI
  /-- The function `IFavoriteLocation::getColor()`. -/
  getColor : Location → Nat
  /-- The function `IFavoriteLocation::isHidden()`. -/
  isHidden : Location → Bool
  /-- The field `owner->favoriteLocationPinIconBitmap`; `none` is the null pointer. -/
  favoriteLocationPinIconBitmap : Option Bitmap
  /-- The result of `FavoriteLocationsPresenter::getDefaultFavoriteLocationPinIconBitmap()`. -/
  defaultFavoriteLocationPinIconBitmap : Bitmap
  /-- The function `MapMarkersCollection::removeMarker(marker)`, as its effect on the collection. -/
  removeMarker : Collection → Marker → Collection
  /-- The function `MapMarkerBuilder::buildAndAddToCollection(collection)`: the marker it
  returns and the collection afterwards. -/
  buildAndAddToCollection : MapMarkerBuilder Bitmap → Collection → Marker × Collection

/-- The state of a `FavoriteLocationsPresenter_P`. -/
structure FavoriteLocationsPresenter_P (Location Marker Collection : Type) where
  /-- The field `_favoriteLocationToMarkerMap`, as its entries in iteration order. -/
  _favoriteLocationToMarkerMap : List (Location × Marker)
  /-- The field `_markersCollection`. -/
  _markersCollection : Collection

namespace FavoriteLocationsPresenter_P

variable {Location Marker Collection Bitmap : Type} [DecidableEq Location]

/-- The first loop of `syncFavoriteLocationMarkers`: an entry whose key is not among
the favorite locations has its marker removed from the collection and is removed
from the map. -/
def removeObsoleteMarkers (ext : PresenterExternals Location Marker Collection Bitmap)
    (favoriteLocations : List Location) :
    List (Location × Marker) → Collection → List (Location × Marker) × Collection
  | [], collection => ([], collection)
  | obsoleteEntry :: entries, collection =>
    if obsoleteEntry.1 ∈ favoriteLocations then
      match removeObsoleteMarkers ext favoriteLocations entries collection with
      | (remaining, collection1) => (obsoleteEntry :: remaining, collection1)
    else
      removeObsoleteMarkers ext favoriteLocations entries
        (ext.removeMarker collection obsoleteEntry.2)

/-- The second loop of `syncFavoriteLocationMarkers`: for a favorite location that is
not a key of the map, the builder gets its position, colour and hidden flag, a
marker is built and added to the collection, and the entry is inserted. -/
def createNewMarkers (ext : PresenterExternals Location Marker Collection Bitmap) :
    List Location → MapMarkerBuilder Bitmap → List (Location × Marker) → Collection →
      List (Location × Marker) × Collection
  | [], _, map, collection => (map, collection)
  | favoriteLocation :: favoriteLocations, markerBuilder, map, collection =>
    if favoriteLocation ∈ map.map Prod.fst then
      createNewMarkers ext favoriteLocations markerBuilder map collection
    else
      let markerBuilder1 : MapMarkerBuilder Bitmap :=
        { markerBuilder with
          position := some (ext.getPosition31 favoriteLocation)
          pinIconModulationColor := some (ext.getColor favoriteLocation)
          isHidden := some (ext.isHidden favoriteLocation) }
      match ext.buildAndAddToCollection markerBuilder1 collection with
      | (marker, collection1) =>
        createNewMarkers ext favoriteLocations markerBuilder1
          (map ++ [(favoriteLocation, marker)]) collection1

/-- The builder as `syncFavoriteLocationMarkers` sets it up before the second loop. -/
def initialMarkerBuilder (ext : PresenterExternals Location Marker Collection Bitmap) :
    MapMarkerBuilder Bitmap :=
  { baseOrder := (INT_MAX : Int) - 1
    isAccuracyCircleSupported := false
    pinIcon :=
      match ext.favoriteLocationPinIconBitmap with
      | some bitmap => bitmap
      | none => ext.defaultFavoriteLocationPinIconBitmap
    position := none
    pinIconModulationColor := none
    isHidden := none }

/-- The function `syncFavoriteLocationMarkers()`; `favoriteLocations` is the copy of
`owner->collection->getFavoriteLocations()` it starts with. -/
def syncFavoriteLocationMarkers (ext : PresenterExternals Location Marker Collection Bitmap)
    (favoriteLocations : List Location)
    (self : FavoriteLocationsPresenter_P Location Marker Collection) :
    FavoriteLocationsPresenter_P Location Marker Collection :=
  match removeObsoleteMarkers ext favoriteLocations self._favoriteLocationToMarkerMap
      self._markersCollection with
  | (map1, collection1) =>
    match createNewMarkers ext favoriteLocations (initialMarkerBuilder ext) map1 collection1 with
    | (map2, collection2) =>
      { _favoriteLocationToMarkerMap := map2, _markersCollection := collection2 }

end FavoriteLocationsPresenter_P

/-! ### What `syncFavoriteLocationMarkers` computes, piece by piece

The two loops are described here by what they do to the map and to the markers
collection: which entries stay, which go, the calls made on the collection.  These
are compared with the functions above. -/

namespace FavoriteLocationsPresenter_P

variable {Location Marker Collection Bitmap : Type} [DecidableEq Location]

/-- The entries of the map whose key is among the favorite locations, in order. -/
def keptEntries (favoriteLocations : List Location) (map : List (Location × Marker)) :
    List (Location × Marker) :=
  map.filter (fun (entry : Location × Marker) => decide (entry.1 ∈ favoriteLocations))

/-- The entries of the map whose key is not among the favorite locations, in order. -/
def obsoleteEntries (favoriteLocations : List Location) (map : List (Location × Marker)) :
    List (Location × Marker) :=
  map.filter (fun (entry : Location × Marker) => !decide (entry.1 ∈ favoriteLocations))

/-- One `removeMarker` call for the marker of each of the given entries, in order. -/
def removeMarkers (ext : PresenterExternals Location Marker Collection Bitmap)
    (entries : List (Location × Marker)) (collection : Collection) : Collection :=
  entries.foldl
    (fun (c : Collection) (entry : Location × Marker) => ext.removeMarker c entry.2) collection

/-- The builder as it stands when a marker is built for `favoriteLocation`: the
initial set-up with the position, colour and hidden flag of that location. -/
def markerBuilderFor (ext : PresenterExternals Location Marker Collection Bitmap)
    (favoriteLocation : Location) : MapMarkerBuilder Bitmap :=
  { initialMarkerBuilder ext with
    position := some (ext.getPosition31 favoriteLocation)
    pinIconModulationColor := some (ext.getColor favoriteLocation)
    isHidden := some (ext.isHidden favoriteLocation) }

/-- The favorite locations that are not among `known`, each once, in the order of
their first occurrence. -/
def newFavoriteLocations : List Location → List Location → List Location
  | [], _ => []
  | favoriteLocation :: favoriteLocations, known =>
    if favoriteLocation ∈ known then newFavoriteLocations favoriteLocations known
    else favoriteLocation :: newFavoriteLocations favoriteLocations (known ++ [favoriteLocation])

/-- One `buildAndAddToCollection` call for each of the given locations, in order:
the entries made of each location and the marker built for it, and the collection
after the calls. -/
def buildMarkers (ext : PresenterExternals Location Marker Collection Bitmap) :
    List Location → Collection → List (Location × Marker) × Collection
  | [], collection => ([], collection)
  | favoriteLocation :: favoriteLocations, collection =>
    match ext.buildAndAddToCollection (markerBuilderFor ext favoriteLocation) collection with
    | (marker, collection1) =>
      match buildMarkers ext favoriteLocations collection1 with
      | (entries, collection2) => ((favoriteLocation, marker) :: entries, collection2)

end FavoriteLocationsPresenter_P

/-- An instance of what the presenter uses from outside, for trying it out:
favorite locations and markers are numbers, the collection is the list of the
markers it holds together with the number of the next marker to build, a built
marker is appended, and a removed one is filtered out. -/
def listPresenterExternals : PresenterExternals Nat Nat (List Nat × Nat) Unit :=
  { getPosition31 := fun location => ⟨(location : Int), (location : Int)⟩
    getColor := fun location => location
    isHidden := fun _ => false
    favoriteLocationPinIconBitmap := none
    defaultFavoriteLocationPinIconBitmap := ()
    removeMarker := fun collection marker =>
      (collection.1.filter (fun held => decide (held ≠ marker)), collection.2)
    buildAndAddToCollection := fun _ collection =>
      (collection.2, (collection.1 ++ [collection.2], collection.2 + 1)) }

/-! ## Lemmas on machine integers -/

theorem toUInt32_toInt32 (n : Nat) : toUInt32 (toInt32 n) = n % 2 ^ 32 := by
  unfold toUInt32 toInt32
  have h : n % 2 ^ 32 < 2 ^ 32 := Nat.mod_lt _ (by norm_num)
  split <;> omega

theorem toUInt64_toInt64 (n : Nat) : toUInt64 (toInt64 n) = n % 2 ^ 64 := by
  unfold toUInt64 toInt64
  have h : n % 2 ^ 64 < 2 ^ 64 := Nat.mod_lt _ (by norm_num)
  split <;> omega

theorem and_ffff (x : Nat) : x &&& 0xffff = x % 2 ^ 16 :=
  Nat.and_pow_two_sub_one_eq_mod x 16

theorem or_shift16 (a b : Nat) (ha : a < 2 ^ 16) : a ||| (b <<< 16) = a + 2 ^ 16 * b := by
  rw [Nat.shiftLeft_eq, Nat.or_comm, Nat.mul_comm b, ← Nat.mul_add_lt_is_or ha b, Nat.add_comm]

theorem decodeIntegerFromString_units (u0 u1 : Nat) (rest : List Nat)
    (h0 : u0 < 2 ^ 16) (h1 : u1 < 2 ^ 16) :
    decodeIntegerFromString (u0 :: u1 :: rest) = some (u0 + 65536 * u1) := by
  simp only [decodeIntegerFromString, List.getElem?_cons_zero, List.getElem?_cons_succ,
    toUInt32_toInt32, and_ffff, Nat.zero_or, Nat.mul_zero, Nat.shiftLeft_zero, Nat.mul_one]
  rw [Nat.mod_eq_of_lt h0, Nat.mod_eq_of_lt h1, Nat.shiftLeft_eq]
  have e0 : u0 % 2 ^ 32 = u0 := Nat.mod_eq_of_lt (by omega)
  have e1 : (u1 * 2 ^ 16) % 2 ^ 32 = u1 * 2 ^ 16 := Nat.mod_eq_of_lt (by omega)
  rw [e0, e1, ← Nat.shiftLeft_eq, or_shift16 u0 u1 h0]
  norm_num

theorem encode_units (x : Nat) :
    ((x >>> (16 * 0)) &&& 0xffff) % 2 ^ 16 = x % 65536 ∧
    ((x >>> (16 * 1)) &&& 0xffff) % 2 ^ 16 = x / 65536 % 65536 := by
  simp only [and_ffff, Nat.mul_zero, Nat.shiftRight_zero, Nat.mul_one, Nat.mod_mod,
    Nat.shiftRight_eq_div_pow]
  norm_num

theorem encodeIntegerToString_eq (x : Nat) (hx : x < 2 ^ 32) :
    encodeIntegerToString x = some [x % 65536, x / 65536] := by
  have hu := encode_units x
  have hq : x / 65536 % 65536 = x / 65536 := Nat.mod_eq_of_lt (by omega)
  unfold encodeIntegerToString
  simp only [hu.1, hu.2, hq]
  rw [decodeIntegerFromString_units (x % 65536) (x / 65536) [] (by omega) (by omega)]
  have : x % 65536 + 65536 * (x / 65536) = x := Nat.mod_add_div x 65536
  simp [this]

/-! ## Lemmas on zigzag coding -/

open CodedInputStream WireFormatLite ObfReaderUtilities

theorem xor_allOnes (w x : Nat) (h : x < 2 ^ w) : x ^^^ (2 ^ w - 1) = 2 ^ w - 1 - x := by
  have e : 2 ^ w - 1 - x = 2 ^ w - (x + 1) := by omega
  rw [e]
  apply Nat.eq_of_testBit_eq
  intro i
  rw [Nat.testBit_xor, Nat.testBit_two_pow_sub_one, Nat.testBit_two_pow_sub_succ h]
  by_cases hi : i < w
  · simp [hi]
  · have hx : x < 2 ^ i := lt_of_lt_of_le h (Nat.pow_le_pow_right (by norm_num) (by omega))
    simp [hi, Nat.testBit_lt_two_pow hx]

theorem and_one (n : Nat) : n &&& 1 = n % 2 := Nat.and_pow_two_sub_one_eq_mod n 1

theorem zigZagDecode32_even (m : Nat) (h : m < 2 ^ 31) : ZigZagDecode32 (2 * m) = m := by
  unfold ZigZagDecode32
  have h1 : (2 * m) &&& 1 = 0 := by rw [and_one]; omega
  have h2 : (2 * m) >>> 1 = m := by rw [Nat.shiftRight_eq_div_pow]; omega
  rw [h1, h2]
  simp only [toUInt32, toInt32]
  norm_num
  omega

theorem zigZagDecode32_odd (m : Nat) (h : m < 2 ^ 31) :
    ZigZagDecode32 (2 * m + 1) = -(m : Int) - 1 := by
  unfold ZigZagDecode32
  have h1 : (2 * m + 1) &&& 1 = 1 := by rw [and_one]; omega
  have h2 : (2 * m + 1) >>> 1 = m := by rw [Nat.shiftRight_eq_div_pow]; omega
  have h3 : toUInt32 (-((1 : Nat) : Int)) = 2 ^ 32 - 1 := by decide
  rw [h1, h2, h3, xor_allOnes 32 m (by omega)]
  unfold toInt32
  have : (2 ^ 32 - 1 - m) % 2 ^ 32 = 2 ^ 32 - 1 - m := Nat.mod_eq_of_lt (by omega)
  rw [this]
  split <;> omega

theorem zigZagEncode32_nonneg (v : Int) (h0 : 0 ≤ v) (h1 : v < 2 ^ 31) :
    zigZagEncode32 v = 2 * v.toNat := by
  unfold zigZagEncode32
  have e1 : toUInt32 v = v.toNat := by unfold toUInt32; omega
  have e2 : v >>> (31 : Nat) = 0 := by
    rw [Int.shiftRight_eq_div_pow]; omega
  rw [e1, e2, Nat.shiftLeft_eq]
  have e3 : toUInt32 0 = 0 := by decide
  rw [e3, Nat.xor_zero]
  omega

theorem zigZagEncode32_neg (v : Int) (h0 : v < 0) (h1 : -2 ^ 31 ≤ v) :
    zigZagEncode32 v = 2 * (-v - 1).toNat + 1 := by
  unfold zigZagEncode32
  have e1 : toUInt32 v = (2 ^ 32 + v).toNat := by unfold toUInt32; omega
  have e2 : v >>> (31 : Nat) = -1 := by
    rw [Int.shiftRight_eq_div_pow]; omega
  have e3 : toUInt32 (-1) = 2 ^ 32 - 1 := by decide
  rw [e1, e2, e3, Nat.shiftLeft_eq, xor_allOnes 32 _ (Nat.mod_lt _ (by norm_num))]
  omega

theorem zigZagDecode64_even (m : Nat) (h : m < 2 ^ 63) : ZigZagDecode64 (2 * m) = m := by
  unfold ZigZagDecode64
  have h1 : (2 * m) &&& 1 = 0 := by rw [and_one]; omega
  have h2 : (2 * m) >>> 1 = m := by rw [Nat.shiftRight_eq_div_pow]; omega
  rw [h1, h2]
  simp only [toUInt64, toInt64]
  norm_num
  omega

theorem zigZagDecode64_odd (m : Nat) (h : m < 2 ^ 63) :
    ZigZagDecode64 (2 * m + 1) = -(m : Int) - 1 := by
  unfold ZigZagDecode64
  have h1 : (2 * m + 1) &&& 1 = 1 := by rw [and_one]; omega
  have h2 : (2 * m + 1) >>> 1 = m := by rw [Nat.shiftRight_eq_div_pow]; omega
  have h3 : toUInt64 (-((1 : Nat) : Int)) = 2 ^ 64 - 1 := by decide
  rw [h1, h2, h3, xor_allOnes 64 m (by omega)]
  unfold toInt64
  have : (2 ^ 64 - 1 - m) % 2 ^ 64 = 2 ^ 64 - 1 - m := Nat.mod_eq_of_lt (by omega)
  rw [this]
  split <;> omega

theorem zigZagEncode64_nonneg (v : Int) (h0 : 0 ≤ v) (h1 : v < 2 ^ 63) :
    zigZagEncode64 v = 2 * v.toNat := by
  unfold zigZagEncode64
  have e1 : toUInt64 v = v.toNat := by unfold toUInt64; omega
  have e2 : v >>> (63 : Nat) = 0 := by
    rw [Int.shiftRight_eq_div_pow]; omega
  rw [e1, e2, Nat.shiftLeft_eq]
  have e3 : toUInt64 0 = 0 := by decide
  rw [e3, Nat.xor_zero]
  omega

theorem zigZagEncode64_neg (v : Int) (h0 : v < 0) (h1 : -2 ^ 63 ≤ v) :
    zigZagEncode64 v = 2 * (-v - 1).toNat + 1 := by
  unfold zigZagEncode64
  have e1 : toUInt64 v = (2 ^ 64 + v).toNat := by unfold toUInt64; omega
  have e2 : v >>> (63 : Nat) = -1 := by
    rw [Int.shiftRight_eq_div_pow]; omega
  have e3 : toUInt64 (-1) = 2 ^ 64 - 1 := by decide
  rw [e1, e2, e3, Nat.shiftLeft_eq, xor_allOnes 64 _ (Nat.mod_lt _ (by norm_num))]
  omega

theorem zigZag32_roundtrip (v : Int) (h0 : -2 ^ 31 ≤ v) (h1 : v < 2 ^ 31) :
    zigZagEncode32 v < 2 ^ 32 ∧ ZigZagDecode32 (zigZagEncode32 v) = v := by
  by_cases hv : 0 ≤ v
  · rw [zigZagEncode32_nonneg v hv h1]
    refine ⟨by omega, ?_⟩
    rw [zigZagDecode32_even _ (by omega)]
    omega
  · rw [zigZagEncode32_neg v (by omega) h0]
    refine ⟨by omega, ?_⟩
    rw [zigZagDecode32_odd _ (by omega)]
    omega

theorem zigZag64_roundtrip (v : Int) (h0 : -2 ^ 63 ≤ v) (h1 : v < 2 ^ 63) :
    zigZagEncode64 v < 2 ^ 64 ∧ ZigZagDecode64 (zigZagEncode64 v) = v := by
  by_cases hv : 0 ≤ v
  · rw [zigZagEncode64_nonneg v hv h1]
    refine ⟨by omega, ?_⟩
    rw [zigZagDecode64_even _ (by omega)]
    omega
  · rw [zigZagEncode64_neg v (by omega) h0]
    refine ⟨by omega, ?_⟩
    rw [zigZagDecode64_odd _ (by omega)]
    omega

/-! ## Lemmas on varints -/

theorem encodeVarint_lt (n : Nat) (h : n < 128) : encodeVarint n = [n] := by
  rw [encodeVarint]; simp [h]

theorem encodeVarint_ge (n : Nat) (h : 128 ≤ n) :
    encodeVarint n = (n % 128 + 128) :: encodeVarint (n / 128) := by
  rw [encodeVarint]; simp [Nat.not_lt.mpr h]

theorem encodeVarint_length_pos (n : Nat) : 1 ≤ (encodeVarint n).length := by
  by_cases h : n < 128
  · rw [encodeVarint_lt n h]; simp
  · rw [encodeVarint_ge n (by omega)]; simp

theorem encodeVarint_length_le (k : Nat) : ∀ n, n < 2 ^ (7 * (k + 1)) →
    (encodeVarint n).length ≤ k + 1 := by
  induction k with
  | zero =>
    intro n hn
    rw [encodeVarint_lt n (by simpa using hn)]; simp
  | succ k ih =>
    intro n hn
    by_cases h : n < 128
    · rw [encodeVarint_lt n h]; simp
    · rw [encodeVarint_ge n (by omega)]
      have : n / 128 < 2 ^ (7 * (k + 1)) := by
        rw [Nat.div_lt_iff_lt_mul (by norm_num)]
        calc n < 2 ^ (7 * (k + 1 + 1)) := hn
          _ = 2 ^ (7 * (k + 1)) * 128 := by rw [show 7 * (k + 1 + 1) = 7 * (k + 1) + 7 by ring, pow_add]; norm_num
      have := ih _ this
      simp only [List.length_cons]
      omega

theorem byte_bits : ∀ m, m < 128 →
    (m % 256 = m ∧ m &&& 0x7F = m ∧ m &&& 0x80 = 0) ∧
    ((m + 128) % 256 = m + 128 ∧ (m + 128) &&& 0x7F = m ∧ (m + 128) &&& 0x80 = 128) := by
  decide

theorem readByte_cons (b : Nat) (rest : List Nat) (pos limit : Nat) (l : Bool) (t d r : Nat)
    (h : pos < limit) :
    readByte ⟨b :: rest, pos, limit, l, t, d, r⟩ = some (b % 256, ⟨rest, pos + 1, limit, l, t, d, r⟩) := by
  simp [readByte, h]

theorem or_shift_add (result m c : Nat) (hr : result < 2 ^ (7 * c)) (hm : m * 2 ^ (7 * c) < 2 ^ 64) :
    result ||| ((m <<< (7 * c)) % 2 ^ 64) = result + m * 2 ^ (7 * c) := by
  rw [Nat.shiftLeft_eq, Nat.mod_eq_of_lt hm, Nat.or_comm, Nat.mul_comm m,
    ← Nat.mul_add_lt_is_or hr m, Nat.add_comm]

theorem readVarint64Loop_encodeVarint (n : Nat) :
    ∀ (fuel count result : Nat) (rest : List Nat) (pos limit : Nat) (l : Bool) (t d r : Nat),
      (encodeVarint n).length ≤ fuel → pos + (encodeVarint n).length ≤ limit →
      result < 2 ^ (7 * count) → result + n * 2 ^ (7 * count) < 2 ^ 64 →
      readVarint64Loop fuel count result ⟨encodeVarint n ++ rest, pos, limit, l, t, d, r⟩ =
        (some (result + n * 2 ^ (7 * count)),
          ⟨rest, pos + (encodeVarint n).length, limit, l, t, d, r⟩) := by
  induction n using Nat.strong_induction_on with
  | _ n ih =>
    intro fuel count result rest pos limit l t d r hf hl hr hn
    have hpos := encodeVarint_length_pos n
    obtain ⟨fuel, rfl⟩ : ∃ f, fuel = f + 1 := ⟨fuel - 1, by omega⟩
    by_cases h : n < 128
    · rw [encodeVarint_lt n h] at hl ⊢
      obtain ⟨⟨e1, e2, e3⟩, -⟩ := byte_bits n h
      simp only [List.length_cons, List.length_nil] at hl
      simp only [readVarint64Loop, List.cons_append, List.nil_append,
        readByte_cons n rest pos limit l t d r (by omega), e1, e2, e3]
      rw [or_shift_add result n count hr (by omega)]
      simp
    · have hge : 128 ≤ n := by omega
      rw [encodeVarint_ge n hge] at hf hl ⊢
      have hm : n % 128 < 128 := Nat.mod_lt _ (by norm_num)
      obtain ⟨-, e1, e2, e3⟩ := byte_bits (n % 128) hm
      simp only [List.length_cons] at hf hl
      have hpow : 2 ^ (7 * (count + 1)) = 128 * 2 ^ (7 * count) := by
        rw [show 7 * (count + 1) = 7 + 7 * count by ring, pow_add]; norm_num
      have hsplit : n * 2 ^ (7 * count) =
          (n % 128) * 2 ^ (7 * count) + (n / 128) * (128 * 2 ^ (7 * count)) := by
        have := Nat.mod_add_div n 128
        calc n * 2 ^ (7 * count) = (n % 128 + 128 * (n / 128)) * 2 ^ (7 * count) := by rw [this]
          _ = _ := by ring
      have hlt : (n % 128) * 2 ^ (7 * count) < 2 ^ 64 := by
        have : 0 ≤ (n / 128) * (128 * 2 ^ (7 * count)) := Nat.zero_le _
        omega
      simp only [readVarint64Loop, List.cons_append,
        readByte_cons (n % 128 + 128) _ pos limit l t d r (by omega), e1, e2, e3]
      rw [or_shift_add result (n % 128) count hr hlt]
      have hih := ih (n / 128) (Nat.div_lt_self (by omega) (by norm_num)) fuel (count + 1)
        (result + n % 128 * 2 ^ (7 * count)) rest (pos + 1) limit l t d r (by omega) (by omega)
        (by
          rw [hpow]
          have : n % 128 * 2 ^ (7 * count) ≤ 127 * 2 ^ (7 * count) :=
            Nat.mul_le_mul_right _ (by omega)
          omega)
        (by rw [hpow]; omega)
      simp only [ne_eq, OfNat.ofNat_ne_zero, not_false_eq_true, if_true]
      rw [hih, hpow]
      have : pos + 1 + (encodeVarint (n / 128)).length = pos + ((encodeVarint (n / 128)).length + 1) := by
        omega
      rw [this, hsplit, Nat.add_assoc, List.length_cons]

theorem ReadVarint64_encodeVarint (n : Nat) (hn : n < 2 ^ 64) (rest : List Nat) (pos limit : Nat)
    (l : Bool) (t d r : Nat) (hl : pos + (encodeVarint n).length ≤ limit) :
    ReadVarint64 ⟨encodeVarint n ++ rest, pos, limit, l, t, d, r⟩ =
      (some n, ⟨rest, pos + (encodeVarint n).length, limit, l, t, d, r⟩) := by
  have h := readVarint64Loop_encodeVarint n kMaxVarintBytes 0 0 rest pos limit l t d r
    (encodeVarint_length_le 9 n (by norm_num; omega)) hl (by norm_num) (by simpa using hn)
  simpa [ReadVarint64] using h

theorem ReadVarint32_encodeVarint (n : Nat) (hn : n < 2 ^ 32) (rest : List Nat) (pos limit : Nat)
    (l : Bool) (t d r : Nat) (hl : pos + (encodeVarint n).length ≤ limit) :
    ReadVarint32 ⟨encodeVarint n ++ rest, pos, limit, l, t, d, r⟩ =
      (some n, ⟨rest, pos + (encodeVarint n).length, limit, l, t, d, r⟩) := by
  unfold ReadVarint32
  rw [ReadVarint64_encodeVarint n (by omega) rest pos limit l t d r hl]
  simp only [Nat.mod_eq_of_lt hn]

/-! ## Claims -/

/-- C1: for every unsigned 32-bit `x` the assertion inside `encodeIntegerToString`
holds, so a token is produced, and `decodeIntegerFromString` maps that token back
to `x`. -/
theorem C1_decode_encode_roundtrip (x : Nat) (hx : x < 2 ^ 32) :
    ∃ t, encodeIntegerToString x = some t ∧ decodeIntegerFromString t = some x := by
  refine ⟨[x % 65536, x / 65536], encodeIntegerToString_eq x hx, ?_⟩
  rw [decodeIntegerFromString_units (x % 65536) (x / 65536) [] (by omega) (by omega)]
  exact congrArg some (Nat.mod_add_div x 65536)

theorem C1_decode_encode_roundtrip_witness :
    ∃ t, encodeIntegerToString 4294967295 = some t ∧
      decodeIntegerFromString t = some 4294967295 :=
  C1_decode_encode_roundtrip 4294967295 (by decide)

/-- C2: for every unsigned 32-bit `x`, `encodeIntegerToString x` is a token of
exactly two code units: unit 0 is `x mod 2^16`, unit 1 is `x / 2^16`; its length
is 2 whatever the halves are. -/
theorem C2_encode_two_units (x : Nat) (hx : x < 2 ^ 32) :
    encodeIntegerToString x = some [x % 2 ^ 16, x / 2 ^ 16] ∧
    ∀ t, encodeIntegerToString x = some t → t.length = 2 := by
  have h := encodeIntegerToString_eq x hx
  refine ⟨by simpa using h, ?_⟩
  intro t ht
  rw [h] at ht
  cases ht
  rfl

theorem C2_encode_two_units_witness :
    encodeIntegerToString 65536 = some [65536 % 2 ^ 16, 65536 / 2 ^ 16] ∧
    ∀ t, encodeIntegerToString 65536 = some t → t.length = 2 :=
  C2_encode_two_units 65536 (by decide)

/-- C3: for a token whose first two code units are `u0`, `u1` (each below 65536),
`decodeIntegerFromString` returns `u0 + 65536 * u1`, an unsigned 32-bit value,
also when `u1 ≥ 0x8000`. -/
theorem C3_decode_value (u0 u1 : Nat) (rest : List Nat) (h0 : u0 < 65536) (h1 : u1 < 65536) :
    decodeIntegerFromString (u0 :: u1 :: rest) = some (u0 + 65536 * u1) ∧
    u0 + 65536 * u1 < 2 ^ 32 :=
  ⟨decodeIntegerFromString_units u0 u1 rest h0 h1, by omega⟩

theorem C3_decode_value_witness :
    decodeIntegerFromString (65535 :: 32768 :: []) = some (65535 + 65536 * 32768) ∧
    65535 + 65536 * 32768 < 2 ^ 32 :=
  C3_decode_value 65535 32768 [] (by decide) (by decide)

theorem readSInt32_encodeVarint (n : Nat) (hn : n < 2 ^ 32) (cis : CodedInputStream)
    (rest : List Nat) (hin : cis.input = encodeVarint n ++ rest)
    (hl : cis.pos + (encodeVarint n).length ≤ cis.limit) :
    readSInt32 cis = (some (ZigZagDecode32 n),
      { cis with input := rest, pos := cis.pos + (encodeVarint n).length }) := by
  obtain ⟨input, pos, limit, l, t, d, r⟩ := cis
  simp only at hin hl
  subst hin
  simp only [readSInt32, ReadVarint32_encodeVarint n hn rest pos limit l t d r hl]

theorem readSInt64_encodeVarint (n : Nat) (hn : n < 2 ^ 64) (cis : CodedInputStream)
    (rest : List Nat) (hin : cis.input = encodeVarint n ++ rest)
    (hl : cis.pos + (encodeVarint n).length ≤ cis.limit) :
    readSInt64 cis = (some (ZigZagDecode64 n),
      { cis with input := rest, pos := cis.pos + (encodeVarint n).length }) := by
  obtain ⟨input, pos, limit, l, t, d, r⟩ := cis
  simp only at hin hl
  subst hin
  simp only [readSInt64, ReadVarint64_encodeVarint n hn rest pos limit l t d r hl]

/-- C4: for every signed 32-bit `v`, `readSInt32` at a cursor positioned at the
varint of the zigzag code `(v << 1) ^ (v >> 31)` returns `v` and leaves the cursor
right after that varint; on any unsigned 32-bit varint `n` it returns
`(n >> 1) ^ -(n & 1)`. -/
theorem C4_readSInt32_zigzag (v : Int) (cis : CodedInputStream) (rest : List Nat)
    (hmin : -2 ^ 31 ≤ v) (hmax : v < 2 ^ 31)
    (hin : cis.input = encodeVarint (zigZagEncode32 v) ++ rest)
    (hl : cis.pos + (encodeVarint (zigZagEncode32 v)).length ≤ cis.limit) :
    readSInt32 cis = (some v,
      { cis with input := rest, pos := cis.pos + (encodeVarint (zigZagEncode32 v)).length }) ∧
    (∀ (n : Nat) (c : CodedInputStream) (tail : List Nat), n < 2 ^ 32 →
      c.input = encodeVarint n ++ tail → c.pos + (encodeVarint n).length ≤ c.limit →
      readSInt32 c = (some (toInt32 ((n >>> 1) ^^^ toUInt32 (-((n &&& 1 : Nat) : Int)))),
        { c with input := tail, pos := c.pos + (encodeVarint n).length })) := by
  have h := zigZag32_roundtrip v hmin hmax
  have hr := readSInt32_encodeVarint _ h.1 cis rest hin hl
  refine ⟨by rw [hr, h.2], ?_⟩
  intro n c tail hn hc hlim
  exact readSInt32_encodeVarint n hn c tail hc hlim

/-- C5: for every signed 64-bit `v`, `readSInt64` at a cursor positioned at the
varint of the 64-bit zigzag code `(v << 1) ^ (v >> 63)` returns `v` and leaves the
cursor right after that varint. -/
theorem C5_readSInt64_zigzag (v : Int) (cis : CodedInputStream) (rest : List Nat)
    (hmin : -2 ^ 63 ≤ v) (hmax : v < 2 ^ 63)
    (hin : cis.input = encodeVarint (zigZagEncode64 v) ++ rest)
    (hl : cis.pos + (encodeVarint (zigZagEncode64 v)).length ≤ cis.limit) :
    readSInt64 cis = (some v,
      { cis with input := rest, pos := cis.pos + (encodeVarint (zigZagEncode64 v)).length }) := by
  have h := zigZag64_roundtrip v hmin hmax
  rw [readSInt64_encodeVarint _ h.1 cis rest hin hl, h.2]


theorem C4_readSInt32_zigzag_witness :
    readSInt32 ⟨[255, 255, 255, 255, 15, 7], 3, 20, false, 0, 0, 64⟩ =
      (some (-2147483648), ⟨[7], 8, 20, false, 0, 0, 64⟩) := by
  have h : zigZagEncode32 (-2147483648) = 4294967295 := by decide
  have e : encodeVarint 4294967295 = [255, 255, 255, 255, 15] := by simp [encodeVarint]
  have := (C4_readSInt32_zigzag (-2147483648)
    ⟨[255, 255, 255, 255, 15, 7], 3, 20, false, 0, 0, 64⟩ [7] (by decide) (by decide)
    (by rw [h, e]; rfl) (by rw [h, e]; decide)).1
  rw [h, e] at this
  exact this

theorem C5_readSInt64_zigzag_witness :
    readSInt64 ⟨[255, 255, 255, 255, 255, 255, 255, 255, 255, 1], 0, 10, false, 0, 0, 64⟩ =
      (some (-9223372036854775808), ⟨[], 10, 10, false, 0, 0, 64⟩) := by
  have h : zigZagEncode64 (-9223372036854775808) = 18446744073709551615 := by decide
  have e : encodeVarint 18446744073709551615 =
      [255, 255, 255, 255, 255, 255, 255, 255, 255, 1] := by simp [encodeVarint]
  have := C5_readSInt64_zigzag (-9223372036854775808)
    ⟨[255, 255, 255, 255, 255, 255, 255, 255, 255, 1], 0, 10, false, 0, 0, 64⟩ [] (by decide)
    (by decide) (by rw [h, e]; rfl) (by rw [h, e]; decide)
  rw [h, e] at this
  exact this

theorem and_shifted_mask (x m k : Nat) : x &&& (m <<< k) = ((x >>> k) &&& m) <<< k := by
  apply Nat.eq_of_testBit_eq
  intro i
  simp only [Nat.testBit_and, Nat.testBit_shiftLeft, Nat.testBit_shiftRight]
  by_cases h : k ≤ i
  · simp [h, Nat.add_sub_cancel' h]
  · simp [h]

theorem and_ff (x : Nat) : x &&& 0xff = x % 256 := Nat.and_pow_two_sub_one_eq_mod x 8

theorem qbswap32_bytes (b0 b1 b2 b3 : Nat) (h0 : b0 < 256) (h1 : b1 < 256) (h2 : b2 < 256)
    (h3 : b3 < 256) :
    qbswap32 (b0 + 256 * (b1 + 256 * (b2 + 256 * (b3 + 256 * 0)))) =
      b0 * 2 ^ 24 + b1 * 2 ^ 16 + b2 * 2 ^ 8 + b3 := by
  unfold qbswap32
  have m1 : (0x0000ff00 : Nat) = 0xff <<< 8 := by decide
  have m2 : (0x00ff0000 : Nat) = 0xff <<< 16 := by decide
  have m3 : (0xff000000 : Nat) = 0xff <<< 24 := by decide
  rw [m1, m2, m3, and_shifted_mask, and_shifted_mask, and_shifted_mask]
  simp only [and_ff, Nat.shiftLeft_eq, Nat.shiftRight_eq_div_pow]
  have e0 : (b0 + 256 * (b1 + 256 * (b2 + 256 * (b3 + 256 * 0)))) % 256 = b0 := by omega
  have e1 : (b0 + 256 * (b1 + 256 * (b2 + 256 * (b3 + 256 * 0)))) / 2 ^ 8 % 256 = b1 := by omega
  have e2 : (b0 + 256 * (b1 + 256 * (b2 + 256 * (b3 + 256 * 0)))) / 2 ^ 16 % 256 = b2 := by omega
  have e3 : (b0 + 256 * (b1 + 256 * (b2 + 256 * (b3 + 256 * 0)))) / 2 ^ 24 % 256 = b3 := by omega
  rw [e0, e1, e2, e3]
  have d2 : b2 * 2 ^ 16 / 2 ^ 8 = b2 * 2 ^ 8 := by omega
  have d3 : b3 * 2 ^ 24 / 2 ^ 24 = b3 := by omega
  rw [d2, d3]
  have o1 : b0 * 2 ^ 24 ||| b1 * 2 ^ 8 * 2 ^ 8 = 2 ^ 16 * (b0 * 2 ^ 8 + b1) := by
    have := Nat.mul_add_lt_is_or (show b1 * 2 ^ 8 * 2 ^ 8 < 2 ^ 24 by omega) b0
    rw [show b0 * 2 ^ 24 = 2 ^ 24 * b0 by ring, ← this]
    ring
  have o2 : 2 ^ 16 * (b0 * 2 ^ 8 + b1) ||| b2 * 2 ^ 8 = 2 ^ 8 * (b0 * 2 ^ 16 + b1 * 2 ^ 8 + b2) := by
    have := Nat.mul_add_lt_is_or (show b2 * 2 ^ 8 < 2 ^ 16 by omega) (b0 * 2 ^ 8 + b1)
    rw [← this]
    ring
  have o3 : 2 ^ 8 * (b0 * 2 ^ 16 + b1 * 2 ^ 8 + b2) ||| b3 =
      b0 * 2 ^ 24 + b1 * 2 ^ 16 + b2 * 2 ^ 8 + b3 := by
    have := Nat.mul_add_lt_is_or (show b3 < 2 ^ 8 by omega) (b0 * 2 ^ 16 + b1 * 2 ^ 8 + b2)
    rw [← this]
    ring
  rw [o1, o2, o3]

theorem qFromBigEndian_uint32OfBytes (le : Bool) (b0 b1 b2 b3 : Nat) (h0 : b0 < 256)
    (h1 : b1 < 256) (h2 : b2 < 256) (h3 : b3 < 256) :
    qFromBigEndian le (uint32OfBytes le [b0, b1, b2, b3]) =
      b0 * 2 ^ 24 + b1 * 2 ^ 16 + b2 * 2 ^ 8 + b3 := by
  cases le
  · simp only [qFromBigEndian, uint32OfBytes, littleEndianValue, List.reverse_cons,
      List.reverse_nil, List.nil_append, List.cons_append, Bool.false_eq_true, if_false]
    ring
  · simp only [qFromBigEndian, uint32OfBytes, littleEndianValue, if_true]
    exact qbswap32_bytes b0 b1 b2 b3 h0 h1 h2 h3

theorem readBigEndianInt_bytes (ext : Externals) (b0 b1 b2 b3 : Nat) (rest : List Nat)
    (pos limit : Nat) (l : Bool) (t d r : Nat)
    (h0 : b0 < 256) (h1 : b1 < 256) (h2 : b2 < 256) (h3 : b3 < 256) (hl : pos + 4 ≤ limit) :
    readBigEndianInt ext ⟨b0 :: b1 :: b2 :: b3 :: rest, pos, limit, l, t, d, r⟩ =
      (some (b0 * 2 ^ 24 + b1 * 2 ^ 16 + b2 * 2 ^ 8 + b3), ⟨rest, pos + 4, limit, l, t, d, r⟩) := by
  have hb : 4 ≤ BufferSize ⟨b0 :: b1 :: b2 :: b3 :: rest, pos, limit, l, t, d, r⟩ := by
    simp only [BufferSize, List.length_cons]
    omega
  simp only [readBigEndianInt, ReadRaw, hb, if_true, List.take, List.map, Advance, List.drop,
    Nat.mod_eq_of_lt h0, Nat.mod_eq_of_lt h1, Nat.mod_eq_of_lt h2, Nat.mod_eq_of_lt h3,
    qFromBigEndian_uint32OfBytes ext.littleEndianHost b0 b1 b2 b3 h0 h1 h2 h3]

/-- C6: when at least four bytes `b0 b1 b2 b3` remain before the limit,
`readBigEndianInt` returns `b0*2^24 + b1*2^16 + b2*2^8 + b3`, on a little-endian
and on a big-endian host alike, and advances the cursor by exactly four bytes. -/
theorem C6_readBigEndianInt (ext : Externals) (cis : CodedInputStream) (b0 b1 b2 b3 : Nat)
    (rest : List Nat) (h0 : b0 < 256) (h1 : b1 < 256) (h2 : b2 < 256) (h3 : b3 < 256)
    (hin : cis.input = b0 :: b1 :: b2 :: b3 :: rest) (hl : cis.pos + 4 ≤ cis.limit) :
    readBigEndianInt ext cis =
      (some (b0 * 2 ^ 24 + b1 * 2 ^ 16 + b2 * 2 ^ 8 + b3),
        { cis with input := rest, pos := cis.pos + 4 }) := by
  obtain ⟨input, pos, limit, l, t, d, r⟩ := cis
  simp only at hin hl
  subst hin
  exact readBigEndianInt_bytes ext b0 b1 b2 b3 rest pos limit l t d r h0 h1 h2 h3 hl

theorem C6_readBigEndianInt_witness :
    readBigEndianInt ⟨true, fun b => b, 1⟩ ⟨[128, 0, 1, 255, 9], 5, 9, false, 0, 0, 64⟩ =
      (some (128 * 2 ^ 24 + 0 * 2 ^ 16 + 1 * 2 ^ 8 + 255), ⟨[9], 9, 9, false, 0, 0, 64⟩) :=
  C6_readBigEndianInt ⟨true, fun b => b, 1⟩ ⟨[128, 0, 1, 255, 9], 5, 9, false, 0, 0, 64⟩
    128 0 1 255 [9] (by decide) (by decide) (by decide) (by decide) rfl (by decide)

theorem toInt32_of_lt (n : Nat) (h : n < 2 ^ 31) : toInt32 n = (n : Int) := by
  unfold toInt32
  have : n % 2 ^ 32 = n := Nat.mod_eq_of_lt (by omega)
  rw [this, if_pos h]

theorem BufferSize_append (a rest : List Nat) (pos limit : Nat) (l : Bool) (t d r : Nat)
    (hl : pos + a.length ≤ limit) :
    a.length ≤ BufferSize ⟨a ++ rest, pos, limit, l, t, d, r⟩ := by
  simp only [BufferSize, List.length_append]
  omega

theorem Advance_append (a rest : List Nat) (pos limit : Nat) (l : Bool) (t d r : Nat) :
    Advance ⟨a ++ rest, pos, limit, l, t, d, r⟩ a.length = ⟨rest, pos + a.length, limit, l, t, d, r⟩ := by
  simp [Advance]

theorem ReadRaw_append (a rest : List Nat) (pos limit : Nat) (l : Bool) (t d r : Nat)
    (hl : pos + a.length ≤ limit) :
    ReadRaw ⟨a ++ rest, pos, limit, l, t, d, r⟩ a.length =
      (some (a.map (· % 256)), ⟨rest, pos + a.length, limit, l, t, d, r⟩) := by
  simp only [ReadRaw, BufferSize_append a rest pos limit l t d r hl, if_true, Advance_append]
  simp

theorem Skip_append (a rest : List Nat) (pos limit : Nat) (l : Bool) (t d r : Nat)
    (hl : pos + a.length ≤ limit) :
    Skip ⟨a ++ rest, pos, limit, l, t, d, r⟩ (a.length : Int) =
      (true, ⟨rest, pos + a.length, limit, l, t, d, r⟩) := by
  have h0 : ¬ ((a.length : Int) < 0) := by omega
  simp only [Skip, h0, if_false, Int.toNat_ofNat, BufferSize_append a rest pos limit l t d r hl,
    if_true, Advance_append]

theorem ReadString_append (a rest : List Nat) (pos limit : Nat) (l : Bool) (t d r : Nat)
    (hl : pos + a.length ≤ limit) :
    CodedInputStream.ReadString ⟨a ++ rest, pos, limit, l, t, d, r⟩ (a.length : Int) =
      (some (a.map (· % 256)), ⟨rest, pos + a.length, limit, l, t, d, r⟩) := by
  have h0 : ¬ ((a.length : Int) < 0) := by omega
  simp only [CodedInputStream.ReadString, h0, if_false, Int.toNat_ofNat,
    BufferSize_append a rest pos limit l t d r hl, if_true, Advance_append]
  simp

theorem encodeBigEndian32_value (n : Nat) (h : n < 2 ^ 32) :
    (n / 2 ^ 24 % 256) * 2 ^ 24 + (n / 2 ^ 16 % 256) * 2 ^ 16 + (n / 2 ^ 8 % 256) * 2 ^ 8
      + n % 256 = n := by
  omega

theorem skipUnknownField_payload (ext : Externals) (tag : Int) (f : FieldPayload)
    (rest : List Nat) (pos limit : Nat) (l : Bool) (t d r : Nat)
    (hwf : f.wellFormed = true) (hwt : GetTagWireType (toUInt32 tag) = f.wireType)
    (hl : pos + f.size ≤ limit) (hmax : limit ≤ INT_MAX) :
    skipUnknownField ext ⟨f.encode ++ rest, pos, limit, l, t, d, r⟩ tag =
      some ⟨rest, pos + f.size, limit, l, t, d, r⟩ := by
  have hM : INT_MAX = 2 ^ 31 - 1 := rfl
  cases f with
  | varint value =>
    simp only [FieldPayload.wellFormed, decide_eq_true_eq] at hwf
    simp only [FieldPayload.size] at hl
    simp only [skipUnknownField, hwt, FieldPayload.wireType, WIRETYPE_VARINT,
      WIRETYPE_FIXED32_LENGTH_DELIMITED, SkipField, SkipFieldFuel, FieldPayload.encode,
      ReadVarint64_encodeVarint value hwf rest pos limit l t d r hl, FieldPayload.size]
    simp
  | fixed64 bytes =>
    simp only [FieldPayload.wellFormed, decide_eq_true_eq] at hwf
    simp only [FieldPayload.size, ← hwf] at hl ⊢
    have h := ReadRaw_append bytes rest pos limit l t d r hl
    rw [hwf] at h
    simp only [skipUnknownField, hwt, FieldPayload.wireType, WIRETYPE_FIXED64,
      WIRETYPE_FIXED32_LENGTH_DELIMITED, SkipField, SkipFieldFuel, FieldPayload.encode,
      ReadLittleEndian64, h]
    simp [hwf]
  | lengthDelimited payload =>
    simp only [FieldPayload.size] at hl
    have hlen : payload.length < 2 ^ 31 := by omega
    simp only [skipUnknownField, hwt, FieldPayload.wireType, WIRETYPE_LENGTH_DELIMITED,
      WIRETYPE_FIXED32_LENGTH_DELIMITED, SkipField, SkipFieldFuel, FieldPayload.encode,
      List.append_assoc,
      ReadVarint32_encodeVarint payload.length (by omega) (payload ++ rest) pos limit l t d r
        (by omega),
      toInt32_of_lt _ hlen,
      Skip_append payload rest (pos + (encodeVarint payload.length).length) limit l t d r
        (by omega), FieldPayload.size]
    simp [Nat.add_assoc]
  | fixed32 bytes =>
    simp only [FieldPayload.wellFormed, decide_eq_true_eq] at hwf
    simp only [FieldPayload.size, ← hwf] at hl ⊢
    have h := ReadRaw_append bytes rest pos limit l t d r hl
    rw [hwf] at h
    simp only [skipUnknownField, hwt, FieldPayload.wireType, WIRETYPE_FIXED32,
      WIRETYPE_FIXED32_LENGTH_DELIMITED, SkipField, SkipFieldFuel, FieldPayload.encode,
      ReadLittleEndian32, h]
    simp [hwf]
  | fixed32LengthDelimited payload =>
    simp only [FieldPayload.size] at hl
    have hlen : payload.length < 2 ^ 31 := by omega
    have hv := encodeBigEndian32_value payload.length (by omega)
    have hb := readBigEndianInt_bytes ext (payload.length / 2 ^ 24 % 256)
      (payload.length / 2 ^ 16 % 256) (payload.length / 2 ^ 8 % 256) (payload.length % 256)
      (payload ++ rest) pos limit l t d r (Nat.mod_lt _ (by norm_num))
      (Nat.mod_lt _ (by norm_num)) (Nat.mod_lt _ (by norm_num)) (Nat.mod_lt _ (by norm_num))
      (by omega)
    rw [hv] at hb
    simp only [skipUnknownField, hwt, FieldPayload.wireType, if_true, FieldPayload.encode,
      encodeBigEndian32, List.cons_append, List.nil_append, hb, toInt32_of_lt _ hlen,
      Skip_append payload rest (pos + 4) limit l t d r (by omega), FieldPayload.size]
    simp [Nat.add_assoc]

theorem skipUnknownField_other (ext : Externals) (cis : CodedInputStream) (tag : Int)
    (h : GetTagWireType (toUInt32 tag) ≠ WIRETYPE_FIXED32_LENGTH_DELIMITED) :
    skipUnknownField ext cis tag = (SkipField cis (toUInt32 tag)).map (·.2) := by
  simp only [skipUnknownField, h, if_false]

/-- A four-byte length of `2^31` or more reaches `Skip` as a negative `int`:
only the four length bytes are consumed. -/
theorem skipUnknownField_fixed32_length_negative (ext : Externals) (tag : Int)
    (b0 b1 b2 b3 : Nat) (rest : List Nat) (pos limit : Nat) (l : Bool) (t d r : Nat)
    (hwt : GetTagWireType (toUInt32 tag) = WIRETYPE_FIXED32_LENGTH_DELIMITED)
    (h0 : 128 ≤ b0) (h0' : b0 < 256) (h1 : b1 < 256) (h2 : b2 < 256) (h3 : b3 < 256)
    (hl : pos + 4 ≤ limit) :
    skipUnknownField ext ⟨b0 :: b1 :: b2 :: b3 :: rest, pos, limit, l, t, d, r⟩ tag =
      some ⟨rest, pos + 4, limit, l, t, d, r⟩ := by
  have hneg : toInt32 (b0 * 2 ^ 24 + b1 * 2 ^ 16 + b2 * 2 ^ 8 + b3) < 0 := by
    unfold toInt32
    have : (b0 * 2 ^ 24 + b1 * 2 ^ 16 + b2 * 2 ^ 8 + b3) % 2 ^ 32 =
        b0 * 2 ^ 24 + b1 * 2 ^ 16 + b2 * 2 ^ 8 + b3 := Nat.mod_eq_of_lt (by omega)
    rw [this]
    split <;> omega
  simp only [skipUnknownField, hwt, if_true,
    readBigEndianInt_bytes ext b0 b1 b2 b3 rest pos limit l t d r h0' h1 h2 h3 hl, Skip, hneg]

/-- C7: `skipUnknownField(tag)` moves the cursor exactly past the field the tag
introduces.  For the fixed32-length-delimited wire type it consumes the four
big-endian length bytes and the `L` bytes they announce; for the varint, fixed64,
length-delimited and fixed32 wire types it consumes a varint, 8 bytes, a varint
byte count `n` plus `n` bytes, or 4 bytes; and for every wire type other than
fixed32-length-delimited its effect is that of the generic `SkipField`. -/
theorem C7_skipUnknownField_exact (ext : Externals) (cis : CodedInputStream) (tag : Int)
    (f : FieldPayload) (rest : List Nat)
    (hwf : f.wellFormed = true) (hwt : GetTagWireType (toUInt32 tag) = f.wireType)
    (hin : cis.input = f.encode ++ rest) (hl : cis.pos + f.size ≤ cis.limit)
    (hmax : cis.limit ≤ INT_MAX) :
    skipUnknownField ext cis tag = some { cis with input := rest, pos := cis.pos + f.size } ∧
    (∀ (c : CodedInputStream) (tag' : Int),
      GetTagWireType (toUInt32 tag') ≠ WIRETYPE_FIXED32_LENGTH_DELIMITED →
      skipUnknownField ext c tag' = (SkipField c (toUInt32 tag')).map (·.2)) := by
  refine ⟨?_, fun c tag' h => skipUnknownField_other ext c tag' h⟩
  obtain ⟨input, pos, limit, l, t, d, r⟩ := cis
  simp only at hin hl hmax
  subst hin
  exact skipUnknownField_payload ext tag f rest pos limit l t d r hwf hwt hl hmax

theorem C7_skipUnknownField_exact_witness :
    skipUnknownField ⟨true, fun b => b, 1⟩ ⟨[0, 0, 0, 3, 1, 2, 3, 9], 0, 7, false, 0, 0, 64⟩ 14 =
      some ⟨[9], 7, 7, false, 0, 0, 64⟩ :=
  (C7_skipUnknownField_exact ⟨true, fun b => b, 1⟩
    ⟨[0, 0, 0, 3, 1, 2, 3, 9], 0, 7, false, 0, 0, 64⟩ 14
    (FieldPayload.fixed32LengthDelimited [1, 2, 3]) [9] rfl (by decide) (by decide)
    (by decide) (by decide)).1

theorem readVarint64Loop_frame (fuel : Nat) : ∀ (count result : Nat) (cis : CodedInputStream),
    (readVarint64Loop fuel count result cis).2.limit = cis.limit ∧
    (readVarint64Loop fuel count result cis).2.legitimateMessageEnd = cis.legitimateMessageEnd := by
  induction fuel with
  | zero => intro count result cis; simp [readVarint64Loop]
  | succ fuel ih =>
    intro count result cis
    simp only [readVarint64Loop]
    cases hb : cis.readByte with
    | none => simp
    | some p =>
      obtain ⟨b, cis1⟩ := p
      have h1 : cis1.limit = cis.limit ∧ cis1.legitimateMessageEnd = cis.legitimateMessageEnd := by
        unfold readByte at hb
        split at hb
        · split at hb
          · cases hb
          · cases hb; simp
        · cases hb
      simp only
      split
      · rw [(ih _ _ cis1).1, (ih _ _ cis1).2]; exact h1
      · exact h1

/-- C8 (as amended): `reachedDataEnd` returns the stream's legitimate-message-end
flag and leaves the stream as it was.  Right after a `ReadTag` issued with the
flag clear inside a bounded message whose bytes are present, it returns true
exactly when no byte was left before the limit, and then `ReadTag` returned 0 and
zero bytes remain until the limit. -/
theorem C8_reachedDataEnd_flag (cis : CodedInputStream) :
    (reachedDataEnd cis).1 = cis.legitimateMessageEnd ∧ (reachedDataEnd cis).2 = cis ∧
    (cis.legitimateMessageEnd = false → cis.limit < INT_MAX → cis.pos ≤ cis.limit →
      cis.limit ≤ cis.pos + cis.input.length →
      ((reachedDataEnd cis.ReadTag.2).1 = true ↔ cis.BytesUntilLimit = 0) ∧
      ((reachedDataEnd cis.ReadTag.2).1 = true →
        cis.ReadTag.1 = 0 ∧ cis.ReadTag.2.BytesUntilLimit = 0 ∧ cis.ReadTag.2.pos = cis.pos)) := by
  have hgen : ∀ c : CodedInputStream, (reachedDataEnd c).1 = c.legitimateMessageEnd := by
    intro c
    unfold reachedDataEnd ConsumedEntireMessage
    cases c.legitimateMessageEnd <;> simp
  refine ⟨hgen cis, ?_, ?_⟩
  · unfold reachedDataEnd
    split <;> rfl
  · intro hflag hlim hpos hdata
    have hne : cis.limit ≠ INT_MAX := by omega
    have hbuf : cis.BufferSize = 0 ↔ cis.BytesUntilLimit = 0 := by
      simp only [BufferSize, BytesUntilLimit, hne, if_false]
      omega
    rw [hgen]
    by_cases hb : cis.BufferSize = 0
    · have hz := hbuf.mp hb
      simp only [ReadTag, hb, if_true, true_iff, hz, BytesUntilLimit, hne, if_false, true_and,
        forall_const]
      simp only [BytesUntilLimit, hne, if_false] at hz
      exact ⟨hz, hz, trivial⟩
    · have hfr := readVarint64Loop_frame kMaxVarintBytes 0 0 cis
      have hnz : ¬ cis.BytesUntilLimit = 0 := fun h => hb (hbuf.mpr h)
      have hfalse : cis.ReadTag.2.legitimateMessageEnd = false := by
        simp only [ReadTag, hb, if_false]
        cases hr : cis.ReadVarint64 with
        | mk v c1 =>
          have : c1.legitimateMessageEnd = cis.legitimateMessageEnd := by
            have := hfr.2
            unfold ReadVarint64 at hr
            rw [hr] at this
            exact this
          cases v <;> simp [this, hflag]
      simp [hfalse, hnz]

theorem C8_reachedDataEnd_flag_witness :
    (reachedDataEnd (ReadTag ⟨[10, 0], 2, 2, false, 0, 0, 64⟩).2).1 = true ∧
    (reachedDataEnd (ReadTag ⟨[10, 0], 1, 2, false, 0, 0, 64⟩).2).1 = false :=
  ⟨((C8_reachedDataEnd_flag ⟨[10, 0], 2, 2, false, 0, 0, 64⟩).2.2 rfl (by decide) (by decide)
      (by decide)).1.mpr (by decide),
    by decide⟩

/-- C8 (as stated) fails: after `ReadTag` has read a zero tag byte that was the
last byte before the limit, zero bytes remain until the limit, yet
`reachedDataEnd` returns false. -/
theorem C8_reachedDataEnd_counterexample :
    (ReadTag ⟨[0], 0, 1, false, 0, 0, 64⟩).1 = 0 ∧
    (ReadTag ⟨[0], 0, 1, false, 0, 0, 64⟩).2.BytesUntilLimit = 0 ∧
    (ReadTag ⟨[0], 0, 1, false, 0, 0, 64⟩).2.pos = (ReadTag ⟨[0], 0, 1, false, 0, 0, 64⟩).2.limit ∧
    (reachedDataEnd (ReadTag ⟨[0], 0, 1, false, 0, 0, 64⟩).2).1 = false := by
  decide

theorem ensureAllDataWasRead_eq (cis : CodedInputStream) (hlim : cis.limit < INT_MAX)
    (hpos : cis.pos ≤ cis.limit) (hdata : cis.limit ≤ cis.pos + cis.input.length) :
    ensureAllDataWasRead cis =
      { cis with input := cis.input.drop (cis.limit - cis.pos), pos := cis.limit } := by
  obtain ⟨input, pos, limit, l, t, d, r⟩ := cis
  simp only at hlim hpos hdata
  have hne : limit ≠ INT_MAX := by omega
  simp only [ensureAllDataWasRead, BytesUntilLimit, hne, if_false]
  by_cases h0 : limit = pos
  · subst h0
    simp
  · have h1 : ¬ ((limit : Int) - (pos : Int) = 0) := by omega
    have h2 : ¬ ((limit : Int) - (pos : Int) < 0) := by omega
    have h3 : ((limit : Int) - (pos : Int)).toNat = limit - pos := by omega
    have h4 : limit - pos ≤ BufferSize ⟨input, pos, limit, l, t, d, r⟩ := by
      simp only [BufferSize]
      omega
    simp only [h1, if_false, Skip, h2, h3, h4, if_true, Advance]
    have : pos + (limit - pos) = limit := by omega
    rw [this]

/-- C9: for a cursor inside a bounded sub-message with `r ≥ 0` unread bytes before
its limit, `ensureAllDataWasRead` leaves the cursor exactly at the boundary: the
position has grown by `r`, zero bytes remain until the limit, nothing else
changes; with `r = 0` the stream is unchanged, and a second call changes nothing. -/
theorem C9_ensureAllDataWasRead_boundary (cis : CodedInputStream) (r : Nat)
    (hlim : cis.limit < INT_MAX) (hr : cis.pos + r = cis.limit)
    (hdata : r ≤ cis.input.length) :
    ensureAllDataWasRead cis = { cis with input := cis.input.drop r, pos := cis.pos + r } ∧
    (ensureAllDataWasRead cis).pos = cis.limit ∧
    (ensureAllDataWasRead cis).BytesUntilLimit = 0 ∧
    (r = 0 → ensureAllDataWasRead cis = cis) ∧
    ensureAllDataWasRead (ensureAllDataWasRead cis) = ensureAllDataWasRead cis := by
  obtain ⟨input, pos, limit, l, t, d, r'⟩ := cis
  simp only at hlim hr hdata
  subst hr
  have hne : pos + r ≠ INT_MAX := by omega
  have he := ensureAllDataWasRead_eq ⟨input, pos, pos + r, l, t, d, r'⟩ hlim (by simp)
    (by simp only; omega)
  have he2 := ensureAllDataWasRead_eq ⟨input.drop r, pos + r, pos + r, l, t, d, r'⟩ hlim
    (by simp) (by simp)
  simp only [Nat.add_sub_cancel_left] at he
  simp only [Nat.sub_self, List.drop_zero] at he2
  refine ⟨he, by rw [he], ?_, ?_, ?_⟩
  · rw [he]
    simp only [BytesUntilLimit, hne, if_false]
    omega
  · intro h0
    rw [he]
    subst h0
    simp
  · rw [he, he2]

theorem C9_ensureAllDataWasRead_boundary_witness :
    ensureAllDataWasRead ⟨[1, 2, 3, 4, 5], 10, 13, false, 0, 0, 64⟩ =
      ⟨[4, 5], 13, 13, false, 0, 0, 64⟩ :=
  (C9_ensureAllDataWasRead_boundary ⟨[1, 2, 3, 4, 5], 10, 13, false, 0, 0, 64⟩ 3 (by decide)
    (by decide) (by decide)).1

theorem MakeTag_lengthDelimited (k : Nat) (hk : k < 2 ^ 29) :
    MakeTag k WIRETYPE_LENGTH_DELIMITED = 8 * k + 2 := by
  unfold MakeTag WIRETYPE_LENGTH_DELIMITED
  rw [Nat.shiftLeft_eq, show k * 2 ^ 3 = 2 ^ 3 * k by ring,
    ← Nat.mul_add_lt_is_or (show 2 < 2 ^ 3 by norm_num) k]
  omega

theorem GetTagFieldNumber_lengthDelimited (k : Nat) : GetTagFieldNumber (8 * k + 2) = k := by
  unfold GetTagFieldNumber
  rw [Nat.shiftRight_eq_div_pow]
  omega

theorem ReadTag_encodeVarint (n : Nat) (hn : n < 2 ^ 32) (rest : List Nat) (pos limit : Nat)
    (l : Bool) (t d r : Nat) (hl : pos + (encodeVarint n).length ≤ limit) :
    ReadTag ⟨encodeVarint n ++ rest, pos, limit, l, t, d, r⟩ =
      (n, ⟨rest, pos + (encodeVarint n).length, limit, l, n, d, r⟩) := by
  have hpos := encodeVarint_length_pos n
  have hb : BufferSize ⟨encodeVarint n ++ rest, pos, limit, l, t, d, r⟩ ≠ 0 := by
    have := BufferSize_append (encodeVarint n) rest pos limit l t d r hl
    omega
  simp only [ReadTag, hb, if_false,
    ReadVarint64_encodeVarint n (by omega) rest pos limit l t d r hl, Nat.mod_eq_of_lt hn]

theorem readQString_payload (ext : Externals) (payload rest : List Nat) (pos limit : Nat)
    (l : Bool) (t d r : Nat) (out : QString)
    (hl : pos + (encodeVarint payload.length).length + payload.length ≤ limit)
    (hmax : limit ≤ INT_MAX) :
    readQString ext ⟨encodeVarint payload.length ++ payload ++ rest, pos, limit, l, t, d, r⟩ out =
      (true, ⟨rest, pos + (encodeVarint payload.length).length + payload.length, limit, l, t, d, r⟩,
        ext.fromUtf8 (payload.map (· % 256))) := by
  have hM : INT_MAX = 2 ^ 31 - 1 := rfl
  have hlen : payload.length < 2 ^ 31 := by omega
  simp only [readQString, WireFormatLite.ReadString, List.append_assoc,
    ReadVarint32_encodeVarint payload.length (by omega) (payload ++ rest) pos limit l t d r
      (by omega),
    toInt32_of_lt _ hlen,
    ReadString_append payload rest (pos + (encodeVarint payload.length).length) limit l t d r
      (by omega)]

theorem readStringTableFuel_entries (ext : Externals) (hk0 : 0 < ext.kSFieldNumber)
    (hk : ext.kSFieldNumber < 2 ^ 29) (payloads : List (List Nat)) :
    ∀ (fuel : Nat) (rest : List Nat) (pos limit : Nat) (l : Bool) (t d r : Nat)
      (out : QStringList),
      payloads.length < fuel →
      pos + (encodeStringTableEntries ext.kSFieldNumber payloads).length + 1 ≤ limit →
      limit ≤ INT_MAX →
      readStringTableFuel ext fuel
        ⟨encodeStringTableEntries ext.kSFieldNumber payloads ++ 0 :: rest, pos, limit, l, t, d, r⟩
        out =
      some (⟨rest, pos + (encodeStringTableEntries ext.kSFieldNumber payloads).length + 1, limit,
          l, 0, d, r⟩,
        out ++ payloads.map (fun p => ext.fromUtf8 (p.map (· % 256)))) := by
  induction payloads with
  | nil =>
    intro fuel rest pos limit l t d r out hf hl hmax
    obtain ⟨fuel, rfl⟩ : ∃ f, fuel = f + 1 := ⟨fuel - 1, by simp at hf; omega⟩
    have e0 : encodeVarint 0 = [0] := encodeVarint_lt 0 (by norm_num)
    have hr := ReadTag_encodeVarint 0 (by norm_num) rest pos limit l t d r
      (by rw [e0]; simp [encodeStringTableEntries] at hl ⊢; omega)
    rw [e0] at hr
    simp only [List.singleton_append, List.length_singleton] at hr
    simp only [encodeStringTableEntries, List.nil_append, readStringTableFuel, hr,
      GetTagFieldNumber, Nat.zero_shiftRight, if_true, reachedDataEnd, ConsumedEntireMessage,
      List.map_nil, List.append_nil, List.length_nil, Nat.add_zero]
    cases l <;> simp
  | cons p ps ih =>
    intro fuel rest pos limit l t d r out hf hl hmax
    obtain ⟨fuel, rfl⟩ : ∃ f, fuel = f + 1 := ⟨fuel - 1, by simp at hf; omega⟩
    have htag := MakeTag_lengthDelimited ext.kSFieldNumber hk
    simp only [encodeStringTableEntries, encodeLengthDelimited, htag, List.length_append] at hl ⊢
    have hfn := GetTagFieldNumber_lengthDelimited ext.kSFieldNumber
    have hne : ¬ (ext.kSFieldNumber = 0) := by omega
    have hr := ReadTag_encodeVarint (8 * ext.kSFieldNumber + 2) (by omega)
      (encodeVarint p.length ++ p ++
        (encodeStringTableEntries ext.kSFieldNumber ps ++ 0 :: rest)) pos limit l t d r
      (by omega)
    have hq := readQString_payload ext p
      (encodeStringTableEntries ext.kSFieldNumber ps ++ 0 :: rest)
      (pos + (encodeVarint (8 * ext.kSFieldNumber + 2)).length) limit l
      (8 * ext.kSFieldNumber + 2) d r [] (by omega) hmax
    have hi := ih fuel rest
      (pos + (encodeVarint (8 * ext.kSFieldNumber + 2)).length +
        (encodeVarint p.length).length + p.length) limit l (8 * ext.kSFieldNumber + 2) d r
      (out ++ [ext.fromUtf8 (p.map (· % 256))]) (by simp at hf; omega) (by omega) hmax
    simp only [List.append_assoc] at hr hq hi ⊢
    simp only [readStringTableFuel, hr, hfn, hne, if_false, if_true, hq, hi, List.map_cons,
      List.append_assoc, List.singleton_append]
    simp only [Nat.add_assoc]

theorem encodeStringTableEntries_length_ge (k : Nat) (payloads : List (List Nat)) :
    payloads.length ≤ (encodeStringTableEntries k payloads).length := by
  induction payloads with
  | nil => simp [encodeStringTableEntries]
  | cons p ps ih =>
    have := encodeVarint_length_pos (MakeTag k WIRETYPE_LENGTH_DELIMITED)
    simp only [encodeStringTableEntries, encodeLengthDelimited, List.length_append,
      List.length_cons]
    omega

theorem map_mod_256_of_bytes (bs : List Nat) (h : ∀ b ∈ bs, b < 256) :
    bs.map (· % 256) = bs := by
  induction bs with
  | nil => rfl
  | cons b bs ih =>
    simp only [List.map_cons]
    rw [Nat.mod_eq_of_lt (h b (by simp)), ih (fun x hx => h x (by simp [hx]))]

theorem decode_payloads (ext : Externals) (toUtf8 : QString → List Nat) (strings : List QString)
    (hbytes : ∀ s ∈ strings, ∀ b ∈ toUtf8 s, b < 256)
    (hutf : ∀ s ∈ strings, ext.fromUtf8 (toUtf8 s) = s) :
    (strings.map toUtf8).map (fun p => ext.fromUtf8 (p.map (· % 256))) = strings := by
  induction strings with
  | nil => rfl
  | cons s ss ih =>
    simp only [List.map_cons]
    rw [map_mod_256_of_bytes _ (hbytes s (by simp)), hutf s (by simp),
      ih (fun x hx => hbytes x (by simp [hx])) (fun x hx => hutf x (by simp [hx]))]

/-- C10: for every list of `N ≥ 0` strings, `readStringTable` started with an empty
output on a buffer holding their `N` entry fields (entry tag, varint length, UTF-8
bytes) followed by the zero sentinel returns exactly those strings, in order, and
stops right after the sentinel. -/
theorem C10_readStringTable_entries (ext : Externals) (toUtf8 : QString → List Nat)
    (strings : List QString) (cis : CodedInputStream) (rest : List Nat)
    (hk0 : 0 < ext.kSFieldNumber) (hk : ext.kSFieldNumber < 2 ^ 29)
    (hbytes : ∀ s ∈ strings, ∀ b ∈ toUtf8 s, b < 256)
    (hutf : ∀ s ∈ strings, ext.fromUtf8 (toUtf8 s) = s)
    (hin : cis.input =
      encodeStringTableEntries ext.kSFieldNumber (strings.map toUtf8) ++ 0 :: rest)
    (hl : cis.pos + (encodeStringTableEntries ext.kSFieldNumber (strings.map toUtf8)).length + 1
      ≤ cis.limit)
    (hmax : cis.limit ≤ INT_MAX) :
    readStringTable ext cis [] =
      some ({ cis with
          input := rest
          pos := cis.pos +
            (encodeStringTableEntries ext.kSFieldNumber (strings.map toUtf8)).length + 1
          lastTag := 0 },
        strings) ∧
    ∀ out, (readStringTable ext cis []).map (·.2) = some out → out.length = strings.length := by
  obtain ⟨input, pos, limit, l, t, d, r⟩ := cis
  simp only at hin hl hmax
  subst hin
  have hlen := encodeStringTableEntries_length_ge ext.kSFieldNumber (strings.map toUtf8)
  have h := readStringTableFuel_entries ext hk0 hk (strings.map toUtf8)
    ((encodeStringTableEntries ext.kSFieldNumber (strings.map toUtf8) ++ 0 :: rest).length + 1)
    rest pos limit l t d r []
    (by simp only [List.length_append, List.length_cons]; omega) hl hmax
  rw [decode_payloads ext toUtf8 strings hbytes hutf, List.nil_append] at h
  have h' : readStringTable ext
      ⟨encodeStringTableEntries ext.kSFieldNumber (strings.map toUtf8) ++ 0 :: rest, pos, limit,
        l, t, d, r⟩ [] = _ := h
  refine ⟨h', ?_⟩
  intro out hout
  rw [h'] at hout
  simp only [Option.map_some', Option.some.injEq] at hout
  rw [← hout]

theorem C10_readStringTable_entries_witness :
    readStringTable ⟨true, fun b => b, 1⟩ ⟨[10, 2, 97, 98, 10, 0, 10, 1, 99, 0, 5], 0, 10, false,
        0, 0, 64⟩ [] =
      some (⟨[5], 10, 10, false, 0, 0, 64⟩, [[97, 98], [], [99]]) := by
  have e : encodeStringTableEntries 1 [[97, 98], [], [99]] = [10, 2, 97, 98, 10, 0, 10, 1, 99] := by
    simp [encodeStringTableEntries, encodeLengthDelimited, encodeVarint, MakeTag,
      WIRETYPE_LENGTH_DELIMITED]
  have := (C10_readStringTable_entries ⟨true, fun b => b, 1⟩ (fun s => s) [[97, 98], [], [99]]
    ⟨[10, 2, 97, 98, 10, 0, 10, 1, 99, 0, 5], 0, 10, false, 0, 0, 64⟩ [5] (by decide)
    (by decide) (by decide) (by simp)
    (by simp only [List.map_id']; rw [e]; rfl)
    (by simp only [List.map_id']; rw [e]; decide) (by decide)).1
  simp only [List.map_id'] at this
  rw [e] at this
  exact this

/-! ## The stream never grows -/

theorem readByte_length (cis c1 : CodedInputStream) (b : Nat)
    (h : cis.readByte = some (b, c1)) : c1.input.length + 1 = cis.input.length := by
  unfold readByte at h
  split at h
  · split at h
    · cases h
    · rename_i b' rest hin
      cases h
      simp [hin]
  · cases h

theorem readVarint64Loop_length (fuel : Nat) : ∀ (count result : Nat) (cis : CodedInputStream),
    (readVarint64Loop fuel count result cis).2.input.length ≤ cis.input.length ∧
    ((readVarint64Loop fuel count result cis).1 ≠ none →
      (readVarint64Loop fuel count result cis).2.input.length < cis.input.length) := by
  induction fuel with
  | zero => intro count result cis; simp [readVarint64Loop]
  | succ fuel ih =>
    intro count result cis
    simp only [readVarint64Loop]
    cases hb : cis.readByte with
    | none => simp
    | some p =>
      obtain ⟨b, c1⟩ := p
      have h1 := readByte_length cis c1 b hb
      simp only
      split
      · have := ih (count + 1) (result ||| (((b &&& 0x7F) <<< (7 * count)) % 2 ^ 64)) c1
        exact ⟨by omega, fun _ => by omega⟩
      · exact ⟨by simp only; omega, fun _ => by simp only; omega⟩

theorem ReadVarint64_length (cis : CodedInputStream) :
    cis.ReadVarint64.2.input.length ≤ cis.input.length :=
  (readVarint64Loop_length kMaxVarintBytes 0 0 cis).1

theorem ReadVarint32_length (cis : CodedInputStream) :
    cis.ReadVarint32.2.input.length ≤ cis.input.length := by
  have h := ReadVarint64_length cis
  unfold ReadVarint32
  cases hr : cis.ReadVarint64 with
  | mk v c1 =>
    rw [hr] at h
    cases v <;> exact h

theorem Advance_length (cis : CodedInputStream) (n : Nat) :
    (cis.Advance n).input.length ≤ cis.input.length := by
  simp [Advance]

theorem ReadRaw_length (cis : CodedInputStream) (n : Nat) :
    (cis.ReadRaw n).2.input.length ≤ cis.input.length := by
  unfold ReadRaw
  split <;> exact Advance_length _ _

theorem Skip_length (cis : CodedInputStream) (count : Int) :
    (cis.Skip count).2.input.length ≤ cis.input.length := by
  unfold Skip
  split
  · exact Nat.le_refl _
  · split <;> exact Advance_length _ _

theorem CodedInputStream_ReadString_length (cis : CodedInputStream) (size : Int) :
    (cis.ReadString size).2.input.length ≤ cis.input.length := by
  unfold CodedInputStream.ReadString
  split
  · exact Nat.le_refl _
  · split <;> exact Advance_length _ _

theorem ReadLittleEndian32_length (cis : CodedInputStream) :
    cis.ReadLittleEndian32.2.input.length ≤ cis.input.length := by
  have h := ReadRaw_length cis 4
  unfold ReadLittleEndian32
  cases hr : cis.ReadRaw 4 with
  | mk v c1 =>
    rw [hr] at h
    cases v <;> exact h

theorem ReadLittleEndian64_length (cis : CodedInputStream) :
    cis.ReadLittleEndian64.2.input.length ≤ cis.input.length := by
  have h := ReadRaw_length cis 8
  unfold ReadLittleEndian64
  cases hr : cis.ReadRaw 8 with
  | mk v c1 =>
    rw [hr] at h
    cases v <;> exact h

theorem ReadTag_length (cis : CodedInputStream) :
    cis.ReadTag.2.input.length ≤ cis.input.length ∧
    (cis.ReadTag.1 ≠ 0 → cis.ReadTag.2.input.length < cis.input.length) := by
  unfold ReadTag
  split
  · simp
  · have h := readVarint64Loop_length kMaxVarintBytes 0 0 cis
    unfold ReadVarint64
    cases hr : readVarint64Loop kMaxVarintBytes 0 0 cis with
    | mk v c1 =>
      rw [hr] at h
      cases v with
      | none => exact ⟨h.1, fun hne => absurd rfl hne⟩
      | some v => exact ⟨h.1, fun _ => h.2 (by simp)⟩

theorem ReadTag_at_end (cis : CodedInputStream) (h : cis.input = []) :
    cis.ReadTag = (0, { cis with legitimateMessageEnd := true, lastTag := 0 }) := by
  simp [ReadTag, BufferSize, h]

theorem WireFormatLite_ReadString_length (cis : CodedInputStream) :
    (WireFormatLite.ReadString cis).2.input.length ≤ cis.input.length := by
  have h := ReadVarint32_length cis
  unfold WireFormatLite.ReadString
  cases hr : cis.ReadVarint32 with
  | mk v c1 =>
    rw [hr] at h
    cases v with
    | none => exact h
    | some v => exact Nat.le_trans (CodedInputStream_ReadString_length c1 _) h

theorem readQString_length (ext : Externals) (cis : CodedInputStream) (output : QString) :
    (readQString ext cis output).2.1.input.length ≤ cis.input.length := by
  have h := WireFormatLite_ReadString_length cis
  unfold readQString
  cases hr : WireFormatLite.ReadString cis with
  | mk v c1 =>
    rw [hr] at h
    cases v <;> exact h

theorem readBigEndianInt_length (ext : Externals) (cis : CodedInputStream) :
    (readBigEndianInt ext cis).2.input.length ≤ cis.input.length := by
  have h := ReadRaw_length cis 4
  unfold readBigEndianInt
  cases hr : cis.ReadRaw 4 with
  | mk v c1 =>
    rw [hr] at h
    cases v <;> exact h

/-! ## The bounds on nested calls and iterations are large enough -/

theorem skipFuel_total (fuel : Nat) :
    (∀ (cis : CodedInputStream) (tag : Nat), 2 * cis.input.length + 2 ≤ fuel →
      ∃ r, SkipFieldFuel fuel cis tag = some r ∧ r.2.input.length ≤ cis.input.length) ∧
    (∀ (cis : CodedInputStream), 2 * cis.input.length + 1 ≤ fuel →
      ∃ r, SkipMessageFuel fuel cis = some r ∧ r.2.input.length ≤ cis.input.length) := by
  induction fuel with
  | zero =>
    constructor
    · intro cis tag h; omega
    · intro cis h; omega
  | succ fuel ih =>
    obtain ⟨ihF, ihM⟩ := ih
    constructor
    · intro cis tag hf
      unfold SkipFieldFuel
      split
      · have h := ReadVarint64_length cis
        cases hr : cis.ReadVarint64 with
        | mk v c1 =>
          rw [hr] at h
          cases v <;> exact ⟨_, rfl, h⟩
      · have h := ReadLittleEndian64_length cis
        cases hr : cis.ReadLittleEndian64 with
        | mk v c1 =>
          rw [hr] at h
          cases v <;> exact ⟨_, rfl, h⟩
      · have h := ReadVarint32_length cis
        cases hr : cis.ReadVarint32 with
        | mk v c1 =>
          rw [hr] at h
          cases v with
          | none => exact ⟨_, rfl, h⟩
          | some v => exact ⟨_, rfl, Nat.le_trans (Skip_length c1 _) h⟩
      · cases hi : cis.IncrementRecursionDepth with
        | mk ok c1 =>
          have hc1 : c1.input.length = cis.input.length := by
            simp only [IncrementRecursionDepth, Prod.mk.injEq] at hi
            rw [← hi.2]
          cases ok
          · exact ⟨_, rfl, Nat.le_of_eq hc1⟩
          · simp only
            obtain ⟨r, hr, hlen⟩ := ihM c1 (by omega)
            obtain ⟨ok2, c2⟩ := r
            simp only at hlen
            rw [hr]
            cases ok2
            · exact ⟨_, rfl, by simp only; omega⟩
            · refine ⟨_, rfl, ?_⟩
              simp only [DecrementRecursionDepth]
              split
              · simp only; omega
              · omega
      · exact ⟨_, rfl, Nat.le_refl _⟩
      · have h := ReadLittleEndian32_length cis
        cases hr : cis.ReadLittleEndian32 with
        | mk v c1 =>
          rw [hr] at h
          cases v <;> exact ⟨_, rfl, h⟩
      · exact ⟨_, rfl, Nat.le_refl _⟩
    · intro cis hf
      unfold SkipMessageFuel
      have ht := ReadTag_length cis
      cases hr : cis.ReadTag with
      | mk tag c1 =>
        rw [hr] at ht
        simp only at ht ⊢
        by_cases h0 : tag = 0
        · simp only [h0, if_true]
          exact ⟨_, rfl, ht.1⟩
        · simp only [h0, if_false]
          split
          · exact ⟨_, rfl, ht.1⟩
          · have hlt := ht.2 h0
            obtain ⟨r, hr2, hlen⟩ := ihF c1 tag (by omega)
            obtain ⟨ok, c2⟩ := r
            simp only at hlen
            rw [hr2]
            cases ok
            · exact ⟨_, rfl, by simp only; omega⟩
            · simp only
              obtain ⟨r3, hr3, hlen3⟩ := ihM c2 (by omega)
              exact ⟨r3, hr3, by omega⟩

theorem SkipField_total (cis : CodedInputStream) (tag : Nat) :
    ∃ r, SkipField cis tag = some r ∧ r.2.input.length ≤ cis.input.length :=
  (skipFuel_total (2 * cis.input.length + 2)).1 cis tag (Nat.le_refl _)

theorem skipUnknownField_total (ext : Externals) (cis : CodedInputStream) (tag : Int) :
    ∃ c, skipUnknownField ext cis tag = some c ∧ c.input.length ≤ cis.input.length := by
  unfold skipUnknownField
  simp only
  split
  · have h := readBigEndianInt_length ext cis
    cases hr : readBigEndianInt ext cis with
    | mk v c1 =>
      rw [hr] at h
      cases v with
      | none => exact ⟨_, rfl, h⟩
      | some v => exact ⟨_, rfl, Nat.le_trans (Skip_length c1 _) h⟩
  · obtain ⟨r, hr, hlen⟩ := SkipField_total cis (toUInt32 tag)
    rw [hr]
    exact ⟨r.2, rfl, hlen⟩

theorem reachedDataEnd_snd (cis : CodedInputStream) : (reachedDataEnd cis).2 = cis := by
  unfold reachedDataEnd
  split <;> rfl

/-- One iteration of the loop of `readStringTable`, in closed form. -/
theorem readStringTableFuel_succ (ext : Externals) (fuel : Nat) (cis : CodedInputStream)
    (out : QStringList) :
    readStringTableFuel ext (fuel + 1) cis out =
      if GetTagFieldNumber cis.ReadTag.1 = 0 then some (cis.ReadTag.2, out)
      else if GetTagFieldNumber cis.ReadTag.1 = ext.kSFieldNumber then
        if (readQString ext cis.ReadTag.2 []).1 = true then
          readStringTableFuel ext fuel (readQString ext cis.ReadTag.2 []).2.1
            (out ++ [(readQString ext cis.ReadTag.2 []).2.2])
        else readStringTableFuel ext fuel (readQString ext cis.ReadTag.2 []).2.1 out
      else
        (skipUnknownField ext cis.ReadTag.2 (toInt32 cis.ReadTag.1)).bind
          (fun c2 => readStringTableFuel ext fuel c2 out) := by
  rw [readStringTableFuel]
  cases hr : cis.ReadTag with
  | mk tag c1 =>
    simp only [reachedDataEnd_snd]
    by_cases h0 : GetTagFieldNumber tag = 0
    · simp [h0]
    · simp only [h0, if_false]
      by_cases hk : GetTagFieldNumber tag = ext.kSFieldNumber
      · simp only [hk, if_true]
        cases hq : readQString ext c1 [] with
        | mk ok p =>
          obtain ⟨c2, v⟩ := p
          cases ok <;> simp
      · simp only [hk, if_false]
        cases hs : skipUnknownField ext c1 (toInt32 tag) <;> simp

theorem readStringTableFuel_total (ext : Externals) (fuel : Nat) :
    ∀ (cis : CodedInputStream) (out : QStringList), cis.input.length + 1 ≤ fuel →
      ∃ r, readStringTableFuel ext fuel cis out = some r := by
  induction fuel with
  | zero => intro cis out h; omega
  | succ fuel ih =>
    intro cis out hf
    rw [readStringTableFuel_succ]
    have ht := ReadTag_length cis
    by_cases h0 : GetTagFieldNumber cis.ReadTag.1 = 0
    · simp only [h0, if_true]
      exact ⟨_, rfl⟩
    · have hne : cis.ReadTag.1 ≠ 0 := by
        intro h
        apply h0
        rw [h]
        rfl
      have hlt := ht.2 hne
      simp only [h0, if_false]
      split
      · have hq := readQString_length ext cis.ReadTag.2 []
        split
        · exact ih _ _ (by omega)
        · exact ih _ _ (by omega)
      · obtain ⟨c2, hc2, hlen⟩ := skipUnknownField_total ext cis.ReadTag.2 (toInt32 cis.ReadTag.1)
        rw [hc2]
        exact ih _ _ (by omega)

theorem readStringTableFuel_mono (ext : Externals) (fuel : Nat) :
    ∀ (cis : CodedInputStream) (out : QStringList) (r : CodedInputStream × QStringList),
      readStringTableFuel ext fuel cis out = some r →
      readStringTableFuel ext (fuel + 1) cis out = some r := by
  induction fuel with
  | zero => intro cis out r h; simp [readStringTableFuel] at h
  | succ fuel ih =>
    intro cis out r h
    rw [readStringTableFuel_succ] at h ⊢
    by_cases h0 : GetTagFieldNumber cis.ReadTag.1 = 0
    · rw [if_pos h0] at h ⊢
      exact h
    · rw [if_neg h0] at h ⊢
      by_cases hk : GetTagFieldNumber cis.ReadTag.1 = ext.kSFieldNumber
      · rw [if_pos hk] at h ⊢
        by_cases hq : (readQString ext cis.ReadTag.2 []).1 = true
        · rw [if_pos hq] at h ⊢
          exact ih _ _ _ h
        · rw [if_neg hq] at h ⊢
          exact ih _ _ _ h
      · rw [if_neg hk] at h ⊢
        cases hs : skipUnknownField ext cis.ReadTag.2 (toInt32 cis.ReadTag.1) with
        | none => rw [hs] at h; simp at h
        | some c2 =>
          rw [hs] at h
          simp only [Option.some_bind] at h ⊢
          exact ih _ _ _ h

theorem readStringTableFuel_mono_le (ext : Externals) (cis : CodedInputStream)
    (out : QStringList) (r : CodedInputStream × QStringList) (f g : Nat) (hfg : f ≤ g)
    (h : readStringTableFuel ext f cis out = some r) :
    readStringTableFuel ext g cis out = some r := by
  induction g with
  | zero =>
    have : f = 0 := by omega
    subst this
    exact h
  | succ g ih =>
    by_cases hf : f = g + 1
    · subst hf; exact h
    · exact readStringTableFuel_mono ext g cis out r (ih (by omega))

/-- Any bound of at least one more than the remaining bytes gives the result of
`readStringTable`. -/
theorem readStringTableFuel_eq (ext : Externals) (cis : CodedInputStream) (out : QStringList)
    (fuel : Nat) (hf : cis.input.length + 1 ≤ fuel) :
    readStringTableFuel ext fuel cis out = readStringTable ext cis out := by
  obtain ⟨r, hr⟩ := readStringTableFuel_total ext (cis.input.length + 1) cis out (Nat.le_refl _)
  unfold readStringTable
  rw [hr]
  exact readStringTableFuel_mono_le ext cis out r _ _ hf hr

theorem readStringTable_total (ext : Externals) (cis : CodedInputStream) (out : QStringList) :
    ∃ r, readStringTable ext cis out = some r :=
  readStringTableFuel_total ext (cis.input.length + 1) cis out (Nat.le_refl _)

/-- One iteration of `readStringTable`, in closed form. -/
theorem readStringTable_step (ext : Externals) (cis : CodedInputStream) (out : QStringList) :
    readStringTable ext cis out =
      if GetTagFieldNumber cis.ReadTag.1 = 0 then some (cis.ReadTag.2, out)
      else if GetTagFieldNumber cis.ReadTag.1 = ext.kSFieldNumber then
        if (readQString ext cis.ReadTag.2 []).1 = true then
          readStringTable ext (readQString ext cis.ReadTag.2 []).2.1
            (out ++ [(readQString ext cis.ReadTag.2 []).2.2])
        else readStringTable ext (readQString ext cis.ReadTag.2 []).2.1 out
      else
        (skipUnknownField ext cis.ReadTag.2 (toInt32 cis.ReadTag.1)).bind
          (fun c2 => readStringTable ext c2 out) := by
  have hstep := readStringTableFuel_succ ext cis.input.length cis out
  have ht := ReadTag_length cis
  show readStringTableFuel ext (cis.input.length + 1) cis out = _
  rw [hstep]
  by_cases h0 : GetTagFieldNumber cis.ReadTag.1 = 0
  · simp only [h0, if_true]
  · have hne : cis.ReadTag.1 ≠ 0 := by
      intro h
      apply h0
      rw [h]
      rfl
    have hlt := ht.2 hne
    simp only [h0, if_false]
    have hq := readQString_length ext cis.ReadTag.2 []
    split
    · rw [readStringTableFuel_eq ext _ _ _ (by omega), readStringTableFuel_eq ext _ _ _ (by omega)]
    · obtain ⟨c2, hc2, hlen⟩ := skipUnknownField_total ext cis.ReadTag.2 (toInt32 cis.ReadTag.1)
      rw [hc2]
      simp only [Option.some_bind]
      exact readStringTableFuel_eq ext _ _ _ (by omega)

theorem readStringTableFuel_prefix (ext : Externals) (fuel : Nat) :
    ∀ (cis : CodedInputStream) (P out : QStringList),
      readStringTableFuel ext fuel cis (P ++ out) =
        (readStringTableFuel ext fuel cis out).map (fun r => (r.1, P ++ r.2)) := by
  induction fuel with
  | zero => intro cis P out; simp [readStringTableFuel]
  | succ fuel ih =>
    intro cis P out
    rw [readStringTableFuel_succ, readStringTableFuel_succ]
    split
    · simp
    · split
      · split
        · rw [List.append_assoc, ih]
        · rw [ih]
      · cases hs : skipUnknownField ext cis.ReadTag.2 (toInt32 cis.ReadTag.1) with
        | none => simp
        | some c2 => simp only [Option.some_bind]; rw [ih]

/-- C18: `readStringTable` returns on every input, whatever its bytes.  The bounds
of the model are never exhausted; an iteration that does not return has read a
tag with a non-zero field number and so consumed at least one byte, and nothing
after it in the iteration gives bytes back; a tag read with no byte left before
the limit or the end of the data is 0, and the loop returns there. -/
theorem C18_readStringTable_terminates (ext : Externals) (cis : CodedInputStream)
    (out : QStringList) :
    (∃ r, readStringTable ext cis out = some r) ∧
    (∀ fuel, cis.input.length + 1 ≤ fuel →
      readStringTableFuel ext fuel cis out = readStringTable ext cis out) ∧
    (GetTagFieldNumber cis.ReadTag.1 ≠ 0 → cis.ReadTag.2.input.length < cis.input.length) ∧
    (readQString ext cis.ReadTag.2 []).2.1.input.length ≤ cis.ReadTag.2.input.length ∧
    (∃ c2, skipUnknownField ext cis.ReadTag.2 (toInt32 cis.ReadTag.1) = some c2 ∧
      c2.input.length ≤ cis.ReadTag.2.input.length) ∧
    (cis.BufferSize = 0 →
      cis.ReadTag.1 = 0 ∧ readStringTable ext cis out = some (cis.ReadTag.2, out)) := by
  refine ⟨readStringTable_total ext cis out,
    fun fuel hf => readStringTableFuel_eq ext cis out fuel hf, ?_,
    readQString_length ext cis.ReadTag.2 [],
    skipUnknownField_total ext cis.ReadTag.2 (toInt32 cis.ReadTag.1), ?_⟩
  · intro h0
    apply (ReadTag_length cis).2
    intro h
    apply h0
    rw [h]
    rfl
  · intro hb
    have ht : cis.ReadTag.1 = 0 := by simp [ReadTag, hb]
    refine ⟨ht, ?_⟩
    rw [readStringTable_step, ht]
    rfl

theorem C18_readStringTable_terminates_witness :
    (ReadTag ⟨[255, 255, 3, 200], 0, 10, false, 0, 0, 64⟩).2.input.length <
        (⟨[255, 255, 3, 200], 0, 10, false, 0, 0, 64⟩ : CodedInputStream).input.length ∧
    readStringTable ⟨true, fun b => b, 1⟩ ⟨[255, 255, 3, 200], 4, 4, false, 0, 0, 64⟩ [[97]] =
      some ((ReadTag ⟨[255, 255, 3, 200], 4, 4, false, 0, 0, 64⟩).2, [[97]]) :=
  ⟨(C18_readStringTable_terminates ⟨true, fun b => b, 1⟩
      ⟨[255, 255, 3, 200], 0, 10, false, 0, 0, 64⟩ []).2.2.1 (by decide),
    ((C18_readStringTable_terminates ⟨true, fun b => b, 1⟩
      ⟨[255, 255, 3, 200], 4, 4, false, 0, 0, 64⟩ [[97]]).2.2.2.2.2 (by decide)).2⟩

/-- C19: `readStringTable` only appends to its output: for every initial content
`P` and every input, the list after the call is `P` followed by the strings the
same call produces from an empty list, and the stream ends in the same state; the
result has as many elements as were decoded only when `P` is empty. -/
theorem C19_readStringTable_appends (ext : Externals) (cis : CodedInputStream)
    (P : QStringList) :
    ∃ (c : CodedInputStream) (decoded : QStringList),
      readStringTable ext cis [] = some (c, decoded) ∧
      readStringTable ext cis P = some (c, P ++ decoded) ∧
      ((P ++ decoded).length = decoded.length ↔ P = []) := by
  obtain ⟨r, hr⟩ := readStringTable_total ext cis []
  obtain ⟨c, decoded⟩ := r
  refine ⟨c, decoded, hr, ?_, ?_⟩
  · have h := readStringTableFuel_prefix ext (cis.input.length + 1) cis P []
    rw [List.append_nil] at h
    have hr' : readStringTableFuel ext (cis.input.length + 1) cis [] = some (c, decoded) := hr
    rw [hr'] at h
    exact h
  · rw [List.length_append]
    constructor
    · intro h
      exact List.length_eq_zero.mp (by omega)
    · intro h
      subst h
      simp

/-- C12: when the tag `readStringTable` reads is the sentinel 0, it returns at once
with exactly the strings appended so far and the stream as `ReadTag` left it; the
outcome of `reachedDataEnd` does not enter the result. -/
theorem C12_readStringTable_sentinel (ext : Externals) (cis : CodedInputStream)
    (out : QStringList) (h0 : cis.ReadTag.1 = 0) :
    readStringTable ext cis out = some (cis.ReadTag.2, out) ∧
    ((reachedDataEnd cis.ReadTag.2).1 = true →
      readStringTable ext cis out = some (cis.ReadTag.2, out)) ∧
    ((reachedDataEnd cis.ReadTag.2).1 = false →
      readStringTable ext cis out = some (cis.ReadTag.2, out)) := by
  have h : readStringTable ext cis out = some (cis.ReadTag.2, out) := by
    rw [readStringTable_step, h0]
    rfl
  exact ⟨h, fun _ => h, fun _ => h⟩

theorem C12_readStringTable_sentinel_witness :
    ((reachedDataEnd (ReadTag ⟨[0, 7], 3, 5, false, 0, 0, 64⟩).2).1 = false ∧
      readStringTable ⟨true, fun b => b, 1⟩ ⟨[0, 7], 3, 5, false, 0, 0, 64⟩ [[97], [98]] =
        some ((ReadTag ⟨[0, 7], 3, 5, false, 0, 0, 64⟩).2, [[97], [98]])) ∧
    ((reachedDataEnd (ReadTag ⟨[7], 5, 5, false, 0, 0, 64⟩).2).1 = true ∧
      readStringTable ⟨true, fun b => b, 1⟩ ⟨[7], 5, 5, false, 0, 0, 64⟩ [[97], [98]] =
        some ((ReadTag ⟨[7], 5, 5, false, 0, 0, 64⟩).2, [[97], [98]])) :=
  ⟨⟨by decide, (C12_readStringTable_sentinel ⟨true, fun b => b, 1⟩
      ⟨[0, 7], 3, 5, false, 0, 0, 64⟩ [[97], [98]] (by decide)).1⟩,
    ⟨by decide, (C12_readStringTable_sentinel ⟨true, fun b => b, 1⟩
      ⟨[7], 5, 5, false, 0, 0, 64⟩ [[97], [98]] (by decide)).1⟩⟩

theorem GetTagFieldNumber_eq_zero_iff (tag : Nat) : GetTagFieldNumber tag = 0 ↔ tag < 8 := by
  unfold GetTagFieldNumber
  rw [Nat.shiftRight_eq_div_pow]
  omega

/-- C11 (as amended): `readStringTable` ends the table on every tag whose field
number is 0, that is on the tag values 0 to 7: it returns there with the strings
appended so far.  For every tag value of 8 or more it does not return: it reads
an entry when the field number is that of the entry (appending the string when the
read succeeds), skips the field otherwise, and goes on with the next tag. -/
theorem C11_readStringTable_sentinel_field_number (ext : Externals) (cis : CodedInputStream)
    (out : QStringList) :
    (GetTagFieldNumber cis.ReadTag.1 = 0 ↔ cis.ReadTag.1 < 8) ∧
    (cis.ReadTag.1 < 8 → readStringTable ext cis out = some (cis.ReadTag.2, out)) ∧
    (8 ≤ cis.ReadTag.1 → GetTagFieldNumber cis.ReadTag.1 = ext.kSFieldNumber →
      readStringTable ext cis out =
        readStringTable ext (readQString ext cis.ReadTag.2 []).2.1
          (if (readQString ext cis.ReadTag.2 []).1 = true then
            out ++ [(readQString ext cis.ReadTag.2 []).2.2] else out)) ∧
    (8 ≤ cis.ReadTag.1 → GetTagFieldNumber cis.ReadTag.1 ≠ ext.kSFieldNumber →
      ∃ c2, skipUnknownField ext cis.ReadTag.2 (toInt32 cis.ReadTag.1) = some c2 ∧
        readStringTable ext cis out = readStringTable ext c2 out) := by
  have hiff := GetTagFieldNumber_eq_zero_iff cis.ReadTag.1
  refine ⟨hiff, ?_, ?_, ?_⟩
  · intro h
    rw [readStringTable_step, if_pos (hiff.mpr h)]
  · intro h hk
    have h0 : ¬ GetTagFieldNumber cis.ReadTag.1 = 0 := fun h' => by
      have := hiff.mp h'
      omega
    rw [readStringTable_step, if_neg h0, if_pos hk]
    split <;> rfl
  · intro h hk
    have h0 : ¬ GetTagFieldNumber cis.ReadTag.1 = 0 := fun h' => by
      have := hiff.mp h'
      omega
    obtain ⟨c2, hc2, -⟩ := skipUnknownField_total ext cis.ReadTag.2 (toInt32 cis.ReadTag.1)
    refine ⟨c2, hc2, ?_⟩
    rw [readStringTable_step, if_neg h0, if_neg hk, hc2]
    rfl

theorem C11_readStringTable_sentinel_field_number_witness :
    readStringTable ⟨true, fun b => b, 1⟩ ⟨[7, 10, 1, 97, 0], 0, 5, false, 0, 0, 64⟩ [] =
        some ((ReadTag ⟨[7, 10, 1, 97, 0], 0, 5, false, 0, 0, 64⟩).2, []) ∧
    readStringTable ⟨true, fun b => b, 1⟩ ⟨[10, 1, 97, 0], 0, 4, false, 0, 0, 64⟩ [] =
        readStringTable ⟨true, fun b => b, 1⟩
          (readQString ⟨true, fun b => b, 1⟩
            (ReadTag ⟨[10, 1, 97, 0], 0, 4, false, 0, 0, 64⟩).2 []).2.1
          (if (readQString ⟨true, fun b => b, 1⟩
              (ReadTag ⟨[10, 1, 97, 0], 0, 4, false, 0, 0, 64⟩).2 []).1 = true then
            [] ++ [(readQString ⟨true, fun b => b, 1⟩
              (ReadTag ⟨[10, 1, 97, 0], 0, 4, false, 0, 0, 64⟩).2 []).2.2] else []) :=
  ⟨(C11_readStringTable_sentinel_field_number ⟨true, fun b => b, 1⟩
      ⟨[7, 10, 1, 97, 0], 0, 5, false, 0, 0, 64⟩ []).2.1 (by decide),
    (C11_readStringTable_sentinel_field_number ⟨true, fun b => b, 1⟩
      ⟨[10, 1, 97, 0], 0, 4, false, 0, 0, 64⟩ []).2.2.1 (by decide) (by decide)⟩

/-- C11 (as stated) fails: the non-zero tag value 2 (field number 0, wire type 2) is
read, and `readStringTable` returns right after it with an empty table, although
a field of length zero, a well-formed entry and the zero sentinel follow; had the
field been skipped, the entry would have been read. -/
theorem C11_readStringTable_sentinel_counterexample :
    (ReadTag ⟨[2, 0, 10, 1, 97, 0], 0, 6, false, 0, 0, 64⟩).1 = 2 ∧
    readStringTable ⟨true, fun b => b, 1⟩ ⟨[2, 0, 10, 1, 97, 0], 0, 6, false, 0, 0, 64⟩ [] =
      some (⟨[0, 10, 1, 97, 0], 1, 6, false, 2, 0, 64⟩, []) ∧
    readStringTable ⟨true, fun b => b, 1⟩ ⟨[10, 1, 97, 0], 2, 6, false, 0, 0, 64⟩ [] =
      some (⟨[], 6, 6, false, 0, 0, 64⟩, [[97]]) := by
  decide

theorem MakeTag_eq (fn wt : Nat) (hfn : fn < 2 ^ 29) (hwt : wt < 8) :
    MakeTag fn wt = 8 * fn + wt := by
  unfold MakeTag
  rw [Nat.shiftLeft_eq, show fn * 2 ^ 3 = 2 ^ 3 * fn by ring,
    ← Nat.mul_add_lt_is_or (show wt < 2 ^ 3 by omega) fn]
  omega

theorem GetTagWireType_eq (fn wt : Nat) (hwt : wt < 8) : GetTagWireType (8 * fn + wt) = wt := by
  unfold GetTagWireType
  rw [show (7 : Nat) = 2 ^ 3 - 1 by norm_num, Nat.and_pow_two_sub_one_eq_mod]
  omega

theorem GetTagFieldNumber_eq (fn wt : Nat) (hwt : wt < 8) :
    GetTagFieldNumber (8 * fn + wt) = fn := by
  unfold GetTagFieldNumber
  rw [Nat.shiftRight_eq_div_pow]
  omega

theorem FieldPayload_wireType_lt (f : FieldPayload) : f.wireType < 8 := by
  cases f <;> simp [FieldPayload.wireType, WIRETYPE_VARINT, WIRETYPE_FIXED64,
    WIRETYPE_LENGTH_DELIMITED, WIRETYPE_FIXED32, WIRETYPE_FIXED32_LENGTH_DELIMITED]

theorem FieldPayload_encode_length (f : FieldPayload) (h : f.wellFormed = true) :
    f.encode.length = f.size := by
  cases f with
  | varint value => rfl
  | fixed64 bytes => simpa [FieldPayload.wellFormed, FieldPayload.encode, FieldPayload.size] using h
  | lengthDelimited payload => simp [FieldPayload.encode, FieldPayload.size]
  | fixed32 bytes => simpa [FieldPayload.wellFormed, FieldPayload.encode, FieldPayload.size] using h
  | fixed32LengthDelimited payload =>
    simp [FieldPayload.encode, FieldPayload.size, encodeBigEndian32]
    omega

theorem entryPayloads_deleteUnknownFields (fields : List TableField) :
    entryPayloads (deleteUnknownFields fields) = entryPayloads fields := by
  induction fields with
  | nil => rfl
  | cons f fs ih =>
    cases f with
    | entry p =>
      simp only [deleteUnknownFields, List.filter, TableField.isEntry, entryPayloads] at ih ⊢
      rw [ih]
    | unknown fn p =>
      simp only [deleteUnknownFields, List.filter, TableField.isEntry, entryPayloads] at ih ⊢
      exact ih

theorem deleteUnknownFields_wellFormed (kS : Nat) (fields : List TableField) :
    ∀ f ∈ deleteUnknownFields fields, f.wellFormed kS = true := by
  intro f hf
  simp only [deleteUnknownFields, List.mem_filter] at hf
  cases f with
  | entry p => rfl
  | unknown fn p => simp [TableField.isEntry] at hf

theorem readStringTable_fields (ext : Externals) (hk0 : 0 < ext.kSFieldNumber)
    (hk : ext.kSFieldNumber < 2 ^ 29) (fields : List TableField) :
    ∀ (rest : List Nat) (pos limit : Nat) (l : Bool) (t d r : Nat) (out : QStringList),
      (∀ f ∈ fields, f.wellFormed ext.kSFieldNumber = true) →
      pos + (encodeTableFields ext.kSFieldNumber fields).length + 1 ≤ limit →
      limit ≤ INT_MAX →
      readStringTable ext
        ⟨encodeTableFields ext.kSFieldNumber fields ++ 0 :: rest, pos, limit, l, t, d, r⟩ out =
      some (⟨rest, pos + (encodeTableFields ext.kSFieldNumber fields).length + 1, limit,
          l, 0, d, r⟩,
        out ++ (entryPayloads fields).map (fun p => ext.fromUtf8 (p.map (· % 256)))) := by
  induction fields with
  | nil =>
    intro rest pos limit l t d r out _ hl hmax
    have e0 : encodeVarint 0 = [0] := encodeVarint_lt 0 (by norm_num)
    have hr := ReadTag_encodeVarint 0 (by norm_num) rest pos limit l t d r
      (by rw [e0]; simp [encodeTableFields] at hl ⊢; omega)
    rw [e0] at hr
    simp only [List.singleton_append, List.length_singleton] at hr
    rw [readStringTable_step]
    simp only [encodeTableFields, List.nil_append, hr, entryPayloads, List.map_nil,
      List.append_nil, List.length_nil, Nat.add_zero]
    rfl
  | cons f fs ih =>
    intro rest pos limit l t d r out hwf hl hmax
    have hwfs : ∀ g ∈ fs, g.wellFormed ext.kSFieldNumber = true :=
      fun g hg => hwf g (List.mem_cons_of_mem _ hg)
    have hne : ¬ (ext.kSFieldNumber = 0) := by omega
    cases f with
    | entry p =>
      have htag := MakeTag_lengthDelimited ext.kSFieldNumber hk
      simp only [encodeTableFields, TableField.encode, encodeLengthDelimited, htag,
        List.length_append] at hl ⊢
      have hfn := GetTagFieldNumber_lengthDelimited ext.kSFieldNumber
      have hr := ReadTag_encodeVarint (8 * ext.kSFieldNumber + 2) (by omega)
        (encodeVarint p.length ++ p ++
          (encodeTableFields ext.kSFieldNumber fs ++ 0 :: rest)) pos limit l t d r (by omega)
      have hq := readQString_payload ext p
        (encodeTableFields ext.kSFieldNumber fs ++ 0 :: rest)
        (pos + (encodeVarint (8 * ext.kSFieldNumber + 2)).length) limit l
        (8 * ext.kSFieldNumber + 2) d r [] (by omega) hmax
      have hi := ih rest
        (pos + (encodeVarint (8 * ext.kSFieldNumber + 2)).length +
          (encodeVarint p.length).length + p.length) limit l (8 * ext.kSFieldNumber + 2) d r
        (out ++ [ext.fromUtf8 (p.map (· % 256))]) hwfs (by omega) hmax
      simp only [List.append_assoc] at hr hq hi ⊢
      rw [readStringTable_step]
      simp only [hr, hfn, hne, if_false, if_true, hq, hi, entryPayloads, List.map_cons,
        List.append_assoc, List.singleton_append]
      simp only [Nat.add_assoc]
    | unknown fn p =>
      have hw := hwf (TableField.unknown fn p) (List.mem_cons_self _ _)
      simp only [TableField.wellFormed, Bool.and_eq_true, decide_eq_true_eq] at hw
      obtain ⟨⟨⟨hfn0, hfnk⟩, hfn29⟩, hp⟩ := hw
      have hwt := FieldPayload_wireType_lt p
      have htag := MakeTag_eq fn p.wireType hfn29 hwt
      have hlen := FieldPayload_encode_length p hp
      simp only [encodeTableFields, TableField.encode, htag, List.length_append, hlen] at hl ⊢
      have hr := ReadTag_encodeVarint (8 * fn + p.wireType) (by omega)
        (p.encode ++ (encodeTableFields ext.kSFieldNumber fs ++ 0 :: rest)) pos limit l t d r
        (by omega)
      have hs := skipUnknownField_payload ext (toInt32 (8 * fn + p.wireType)) p
        (encodeTableFields ext.kSFieldNumber fs ++ 0 :: rest)
        (pos + (encodeVarint (8 * fn + p.wireType)).length) limit l (8 * fn + p.wireType) d r hp
        (by rw [toUInt32_toInt32, Nat.mod_eq_of_lt (by omega), GetTagWireType_eq fn _ hwt])
        (by omega) hmax
      have hi := ih rest
        (pos + (encodeVarint (8 * fn + p.wireType)).length + p.size) limit l
        (8 * fn + p.wireType) d r out hwfs (by omega) hmax
      simp only [List.append_assoc] at hr hs hi ⊢
      rw [readStringTable_step]
      simp only [hr, GetTagFieldNumber_eq fn _ hwt, hfn0, hfnk, if_false, hs, Option.some_bind,
        hi, entryPayloads]
      simp only [Nat.add_assoc]

theorem readStringTable_entries (ext : Externals) (hk0 : 0 < ext.kSFieldNumber)
    (hk : ext.kSFieldNumber < 2 ^ 29) (payloads : List (List Nat)) (rest : List Nat)
    (cis : CodedInputStream) (out : QStringList)
    (hin : cis.input = encodeStringTableEntries ext.kSFieldNumber payloads ++ 0 :: rest)
    (hl : cis.pos + (encodeStringTableEntries ext.kSFieldNumber payloads).length + 1 ≤ cis.limit)
    (hmax : cis.limit ≤ INT_MAX) :
    readStringTable ext cis out =
      some ({ cis with
          input := rest
          pos := cis.pos + (encodeStringTableEntries ext.kSFieldNumber payloads).length + 1
          lastTag := 0 },
        out ++ payloads.map (fun p => ext.fromUtf8 (p.map (· % 256)))) := by
  obtain ⟨input, pos, limit, l, t, d, r⟩ := cis
  simp only at hin hl hmax
  subst hin
  rw [← readStringTableFuel_eq ext _ out
    ((encodeStringTableEntries ext.kSFieldNumber payloads ++ 0 :: rest).length + 1 +
      payloads.length) (by simp only; omega)]
  exact readStringTableFuel_entries ext hk0 hk payloads _ rest pos limit l t d r out
    (by omega) hl hmax

/-- C14: a string-table entry whose string read fails is dropped and the table
read goes on: nothing is appended for it, every string appended before is kept,
the call returns normally, and the well-formed entries that follow in the stream,
up to the sentinel, are appended. -/
theorem C14_failed_entry_dropped (ext : Externals) (cis : CodedInputStream)
    (out : QStringList) (hk0 : 0 < ext.kSFieldNumber)
    (hk : GetTagFieldNumber cis.ReadTag.1 = ext.kSFieldNumber)
    (hfail : (readQString ext cis.ReadTag.2 []).1 = false) :
    readStringTable ext cis out =
      readStringTable ext (readQString ext cis.ReadTag.2 []).2.1 out ∧
    (∃ (c : CodedInputStream) (decoded : QStringList),
      readStringTable ext (readQString ext cis.ReadTag.2 []).2.1 [] = some (c, decoded) ∧
      readStringTable ext cis out = some (c, out ++ decoded)) ∧
    (∀ (payloads : List (List Nat)) (rest : List Nat), ext.kSFieldNumber < 2 ^ 29 →
      (readQString ext cis.ReadTag.2 []).2.1.input =
        encodeStringTableEntries ext.kSFieldNumber payloads ++ 0 :: rest →
      (readQString ext cis.ReadTag.2 []).2.1.pos +
        (encodeStringTableEntries ext.kSFieldNumber payloads).length + 1 ≤
          (readQString ext cis.ReadTag.2 []).2.1.limit →
      (readQString ext cis.ReadTag.2 []).2.1.limit ≤ INT_MAX →
      (readStringTable ext cis out).map (·.2) =
        some (out ++ payloads.map (fun p => ext.fromUtf8 (p.map (· % 256))))) := by
  have h0 : ¬ GetTagFieldNumber cis.ReadTag.1 = 0 := by omega
  have hq : ¬ (readQString ext cis.ReadTag.2 []).1 = true := by simp [hfail]
  have hstep : readStringTable ext cis out =
      readStringTable ext (readQString ext cis.ReadTag.2 []).2.1 out := by
    rw [readStringTable_step ext cis out, if_neg h0, if_pos hk, if_neg hq]
  refine ⟨hstep, ?_, ?_⟩
  · obtain ⟨r, hr⟩ := readStringTable_total ext (readQString ext cis.ReadTag.2 []).2.1 []
    obtain ⟨c, decoded⟩ := r
    refine ⟨c, decoded, hr, ?_⟩
    rw [hstep]
    have h := readStringTableFuel_prefix ext
      ((readQString ext cis.ReadTag.2 []).2.1.input.length + 1)
      (readQString ext cis.ReadTag.2 []).2.1 out []
    rw [List.append_nil] at h
    have hr' : readStringTableFuel ext ((readQString ext cis.ReadTag.2 []).2.1.input.length + 1)
        (readQString ext cis.ReadTag.2 []).2.1 [] = some (c, decoded) := hr
    rw [hr'] at h
    exact h
  · intro payloads rest hk29 hin hl hmax
    rw [hstep, readStringTable_entries ext hk0 hk29 payloads rest _ out hin hl hmax]
    rfl

theorem C14_failed_entry_dropped_witness :
    readStringTable ⟨true, fun b => b, 1⟩
        ⟨[10, 128, 128, 128, 128, 8, 10, 1, 98, 0], 0, 10, false, 0, 0, 64⟩ [[97]] =
      some (⟨[], 10, 10, false, 0, 0, 64⟩, [[97], [98]]) := by
  have h := (C14_failed_entry_dropped ⟨true, fun b => b, 1⟩
    ⟨[10, 128, 128, 128, 128, 8, 10, 1, 98, 0], 0, 10, false, 0, 0, 64⟩ [[97]] (by decide)
    (by decide) (by decide)).1
  rw [h]
  decide

/-- C15: `readQString` reads a varint length `L` and `L` bytes.  When they are
available before the limit it returns true, sets the output to `fromUtf8` of
exactly those bytes (for `L = 0`, of no bytes: the empty string) and leaves the
cursor right after them; when the length-prefixed read fails it returns false and
the output is what it was before the call. -/
theorem C15_readQString (ext : Externals) (cis : CodedInputStream) (payload rest : List Nat)
    (output : QString) (hbytes : ∀ b ∈ payload, b < 256)
    (hin : cis.input = encodeVarint payload.length ++ payload ++ rest)
    (hl : cis.pos + (encodeVarint payload.length).length + payload.length ≤ cis.limit)
    (hmax : cis.limit ≤ INT_MAX) :
    readQString ext cis output =
      (true,
        { cis with
          input := rest
          pos := cis.pos + (encodeVarint payload.length).length + payload.length },
        ext.fromUtf8 payload) ∧
    (payload = [] → ext.fromUtf8 [] = [] → (readQString ext cis output).2.2 = []) ∧
    (∀ (c : CodedInputStream) (o : QString), (WireFormatLite.ReadString c).1 = none →
      (readQString ext c o).1 = false ∧ (readQString ext c o).2.2 = o) ∧
    (∀ (c : CodedInputStream) (o : QString), (readQString ext c o).1 = false →
      (readQString ext c o).2.2 = o) := by
  have hmain : readQString ext cis output =
      (true,
        { cis with
          input := rest
          pos := cis.pos + (encodeVarint payload.length).length + payload.length },
        ext.fromUtf8 payload) := by
    obtain ⟨input, pos, limit, l, t, d, r⟩ := cis
    simp only at hin hl hmax
    subst hin
    rw [readQString_payload ext payload rest pos limit l t d r output hl hmax,
      map_mod_256_of_bytes payload hbytes]
  refine ⟨hmain, ?_, ?_, ?_⟩
  · intro hp he
    rw [hmain, hp]
    exact he
  · intro c o hnone
    unfold readQString
    cases hr : WireFormatLite.ReadString c with
    | mk v c1 =>
      rw [hr] at hnone
      simp only at hnone
      subst hnone
      exact ⟨rfl, rfl⟩
  · intro c o hfalse
    unfold readQString at hfalse ⊢
    cases hr : WireFormatLite.ReadString c with
    | mk v c1 =>
      rw [hr] at hfalse
      cases v with
      | none => rfl
      | some v => simp at hfalse

theorem C15_readQString_witness :
    readQString ⟨true, fun b => b, 1⟩ ⟨[3, 226, 130, 172, 9], 2, 6, false, 0, 0, 64⟩ [120] =
      (true, ⟨[9], 6, 6, false, 0, 0, 64⟩, [226, 130, 172]) := by
  have e : encodeVarint 3 = [3] := encodeVarint_lt 3 (by norm_num)
  have h := (C15_readQString ⟨true, fun b => b, 1⟩ ⟨[3, 226, 130, 172, 9], 2, 6, false, 0, 0, 64⟩
    [226, 130, 172] [9] [120] (by decide) (by simp only [List.length_cons, List.length_nil]; rw [e]; rfl)
    (by simp only [List.length_cons, List.length_nil]; rw [e]; decide) (by decide)).1
  simp only [List.length_cons, List.length_nil] at h
  rw [e] at h
  exact h

/-- C20: for every token of exactly two 16-bit code units, decoding and encoding
again gives the token back, so with the round trip in the other direction the
codec is a bijection between unsigned 32-bit values and two-unit tokens; the value
decoded from a longer token is that of its first two units. -/
theorem C20_encode_decode_roundtrip (u0 u1 : Nat) (h0 : u0 < 65536) (h1 : u1 < 65536) :
    (∃ x, x < 2 ^ 32 ∧ decodeIntegerFromString [u0, u1] = some x ∧
      encodeIntegerToString x = some [u0, u1]) ∧
    (∀ x y, x < 2 ^ 32 → y < 2 ^ 32 → encodeIntegerToString x = encodeIntegerToString y →
      x = y) ∧
    (∀ rest : List Nat,
      decodeIntegerFromString (u0 :: u1 :: rest) = decodeIntegerFromString [u0, u1]) := by
  refine ⟨⟨u0 + 65536 * u1, by omega, decodeIntegerFromString_units u0 u1 [] h0 h1, ?_⟩, ?_, ?_⟩
  · rw [encodeIntegerToString_eq _ (by omega)]
    have e0 : (u0 + 65536 * u1) % 65536 = u0 := by omega
    have e1 : (u0 + 65536 * u1) / 65536 = u1 := by omega
    rw [e0, e1]
  · intro x y hx hy hxy
    rw [encodeIntegerToString_eq x hx, encodeIntegerToString_eq y hy] at hxy
    simp only [Option.some.injEq, List.cons.injEq, and_true] at hxy
    omega
  · intro rest
    rw [decodeIntegerFromString_units u0 u1 rest h0 h1,
      decodeIntegerFromString_units u0 u1 [] h0 h1]

theorem C20_encode_decode_roundtrip_witness :
    ∃ x, x < 2 ^ 32 ∧ decodeIntegerFromString [0, 65535] = some x ∧
      encodeIntegerToString x = some [0, 65535] :=
  (C20_encode_decode_roundtrip 0 65535 (by decide) (by decide)).1

theorem loadMapObjectsLoop_not_cancelled {Reader Area Zoom Foundation : Type}
    (sectionReader : Reader → Area → Zoom → SectionResult Foundation)
    (mergeFoundation : Foundation → Foundation → Foundation)
    (area : Area) (zoom : Zoom) (filterById : Option (Nat → Bool))
    (controller : Option (Nat → Bool)) (hc : ∀ poll, isCancelled controller poll = false)
    (obfReaders : List Reader) :
    ∀ (processed : Nat) (resultOut : List BinaryMapObject) (foundationOut : Foundation)
      (success : Bool),
      (loadMapObjectsLoop sectionReader mergeFoundation area zoom filterById controller
        processed obfReaders resultOut foundationOut success).1 =
        resultOut ++ (obfReaders.map
          (fun reader => acceptedObjects filterById (sectionReader reader area zoom))).flatten := by
  induction obfReaders with
  | nil => intro processed resultOut foundationOut success; simp [loadMapObjectsLoop]
  | cons reader readers ih =>
    intro processed resultOut foundationOut success
    simp only [loadMapObjectsLoop, hc processed, Bool.false_eq_true, if_false, ih,
      List.map_cons, List.flatten_cons, List.append_assoc]

theorem loadMapObjectsLoop_cancelled {Reader Area Zoom Foundation : Type}
    (sectionReader : Reader → Area → Zoom → SectionResult Foundation)
    (mergeFoundation : Foundation → Foundation → Foundation)
    (area : Area) (zoom : Zoom) (filterById : Option (Nat → Bool))
    (controller : Option (Nat → Bool)) (obfReaders : List Reader) :
    ∀ (k processed : Nat) (resultOut : List BinaryMapObject) (foundationOut : Foundation)
      (success : Bool), k < obfReaders.length →
      (∀ i, i < k → isCancelled controller (processed + i) = false) →
      isCancelled controller (processed + k) = true →
      (loadMapObjectsLoop sectionReader mergeFoundation area zoom filterById controller
        processed obfReaders resultOut foundationOut success).1 =
        resultOut ++ ((obfReaders.take k).map
          (fun reader => acceptedObjects filterById (sectionReader reader area zoom))).flatten ∧
      (loadMapObjectsLoop sectionReader mergeFoundation area zoom filterById controller
        processed obfReaders resultOut foundationOut success).2.2 = false := by
  induction obfReaders with
  | nil => intro k processed resultOut foundationOut success hk; simp at hk
  | cons reader readers ih =>
    intro k processed resultOut foundationOut success hk hbefore hat
    cases k with
    | zero =>
      simp only [Nat.add_zero] at hat
      simp [loadMapObjectsLoop, hat]
    | succ k =>
      have h0 : isCancelled controller processed = false := by
        have := hbefore 0 (by omega)
        simpa using this
      have hi := ih k (processed + 1)
        (resultOut ++ acceptedObjects filterById (sectionReader reader area zoom))
        (mergeFoundation foundationOut (sectionReader reader area zoom).foundation)
        (success && (sectionReader reader area zoom).readable)
        (by simp only [List.length_cons] at hk; omega)
        (fun i hi => by
          have := hbefore (i + 1) (by omega)
          rw [show processed + 1 + i = processed + (i + 1) by omega]
          exact this)
        (by rw [show processed + 1 + k = processed + (k + 1) by omega]; exact hat)
      simp only [loadMapObjectsLoop, h0, Bool.false_eq_true, if_false, List.take_succ_cons,
        List.map_cons, List.flatten_cons]
      rw [hi.1, hi.2, List.append_assoc]
      exact ⟨rfl, rfl⟩

/-- C16: with no identity filter and no cancellation, `loadMapObjects` returns the
concatenation, in archive-list order, of the objects the section reader yields for
each archive for the area and zoom: earlier archives first, the order within an
archive kept, an object yielded for two archives present twice. -/
theorem C16_loadMapObjects_concatenation {Reader Area Zoom Foundation : Type}
    (sectionReader : Reader → Area → Zoom → SectionResult Foundation)
    (mergeFoundation : Foundation → Foundation → Foundation) (initialFoundation : Foundation)
    (obfReaders : List Reader) (area : Area) (zoom : Zoom) (controller : Option (Nat → Bool))
    (hc : ∀ poll, isCancelled controller poll = false) :
    (loadMapObjects sectionReader mergeFoundation initialFoundation obfReaders area zoom
      none controller).1 =
      (obfReaders.map (fun reader => (sectionReader reader area zoom).objects)).flatten ∧
    (loadMapObjects sectionReader mergeFoundation initialFoundation obfReaders area zoom
      none none).1 =
      (obfReaders.map (fun reader => (sectionReader reader area zoom).objects)).flatten := by
  have hnone : ∀ poll, isCancelled none poll = false := fun _ => rfl
  constructor
  · have h := loadMapObjectsLoop_not_cancelled sectionReader mergeFoundation area zoom none
      controller hc obfReaders 0 [] initialFoundation true
    simpa [loadMapObjects, acceptedObjects] using h
  · have h := loadMapObjectsLoop_not_cancelled sectionReader mergeFoundation area zoom none
      none hnone obfReaders 0 [] initialFoundation true
    simpa [loadMapObjects, acceptedObjects] using h

theorem C16_loadMapObjects_concatenation_witness :
    (loadMapObjects
      (fun (reader : Nat) (_ : Unit) (_ : Unit) =>
        (⟨if reader = 0 then [⟨7, [1]⟩, ⟨3, []⟩] else [⟨3, []⟩, ⟨5, [2]⟩], reader, true⟩ :
          SectionResult Nat))
      (fun a b => max a b) 0 [0, 1] () () none (some (fun _ => false))).1 =
      [⟨7, [1]⟩, ⟨3, []⟩, ⟨3, []⟩, ⟨5, [2]⟩] :=
  (C16_loadMapObjects_concatenation
    (fun (reader : Nat) (_ : Unit) (_ : Unit) =>
      (⟨if reader = 0 then [⟨7, [1]⟩, ⟨3, []⟩] else [⟨3, []⟩, ⟨5, [2]⟩], reader, true⟩ :
        SectionResult Nat))
    (fun a b => max a b) 0 [0, 1] () () (some (fun _ => false)) (fun _ => rfl)).1

/-- C17: if the controller reports cancellation when it is polled before archive
`k + 1` (and not at the `k` polls before), `loadMapObjects` returns
`success = false` and exactly the accepted objects of the first `k` archives, in
order, nothing from a later archive; with three archives and cancellation before
the second, the objects of the first archive only. -/
theorem C17_loadMapObjects_cancelled {Reader Area Zoom Foundation : Type}
    (sectionReader : Reader → Area → Zoom → SectionResult Foundation)
    (mergeFoundation : Foundation → Foundation → Foundation) (initialFoundation : Foundation)
    (obfReaders : List Reader) (area : Area) (zoom : Zoom) (filterById : Option (Nat → Bool))
    (answers : Nat → Bool) (k : Nat) (hk : k < obfReaders.length)
    (hbefore : ∀ i, i < k → answers i = false) (hat : answers k = true) :
    (loadMapObjects sectionReader mergeFoundation initialFoundation obfReaders area zoom
      filterById (some answers)).1 =
      ((obfReaders.take k).map
        (fun reader => acceptedObjects filterById (sectionReader reader area zoom))).flatten ∧
    (loadMapObjects sectionReader mergeFoundation initialFoundation obfReaders area zoom
      filterById (some answers)).2.2 = false := by
  have h := loadMapObjectsLoop_cancelled sectionReader mergeFoundation area zoom filterById
    (some answers) obfReaders k 0 [] initialFoundation true hk
    (fun i hi => by simpa [isCancelled] using hbefore i hi)
    (by simpa [isCancelled] using hat)
  simpa [loadMapObjects] using h

theorem C17_loadMapObjects_cancelled_witness :
    (loadMapObjects
      (fun (reader : Nat) (_ : Unit) (_ : Unit) =>
        (⟨[⟨reader, [reader]⟩, ⟨100 + reader, []⟩], reader, true⟩ : SectionResult Nat))
      (fun a b => max a b) 0 [10, 20, 30] () () none (some (fun poll => decide (1 ≤ poll)))).1 =
      [⟨10, [10]⟩, ⟨110, []⟩] ∧
    (loadMapObjects
      (fun (reader : Nat) (_ : Unit) (_ : Unit) =>
        (⟨[⟨reader, [reader]⟩, ⟨100 + reader, []⟩], reader, true⟩ : SectionResult Nat))
      (fun a b => max a b) 0 [10, 20, 30] () () none
      (some (fun poll => decide (1 ≤ poll)))).2.2 = false :=
  C17_loadMapObjects_cancelled
    (fun (reader : Nat) (_ : Unit) (_ : Unit) =>
      (⟨[⟨reader, [reader]⟩, ⟨100 + reader, []⟩], reader, true⟩ : SectionResult Nat))
    (fun a b => max a b) 0 [10, 20, 30] () () none (fun poll => decide (1 ≤ poll)) 1
    (by decide) (by decide) (by decide)

theorem applyChangesToSymbol_location (position : PointI) (symbol : MapSymbol)
    (location : PointI) (content : Nat)
    (h : MapMarker_P.applyChangesToSymbol position symbol =
      MapSymbol.boundToPoint location content) :
    location = position := by
  cases symbol with
  | boundToPoint l c =>
    simp only [MapMarker_P.applyChangesToSymbol, MapSymbol.boundToPoint.injEq] at h
    exact h.1.symm
  | other c => simp [MapMarker_P.applyChangesToSymbol] at h

/-- C21: in `MapMarker_P`, after each of the six setters `hasUnappliedChanges()` is
true, the matching getter returns the value just set, and every other property
and the symbols are unchanged; after `applyChanges()` `hasUnappliedChanges()` is
false and no property has changed, and when the flag was set every bound-to-point
symbol of the owner's group has its location equal to the marker position: the
symbols are the same in number and order, each bound-to-point symbol keeps its
content and has `location31` set to the position, and every other symbol is as
it was (when the flag was not set the symbols are untouched). -/
theorem C21_mapMarker_unapplied_changes (s : MapMarker_P) (b : Bool) (n : Nat) (p : PointI) :
    ((s.setIsHidden b).hasUnappliedChanges = true ∧ (s.setIsHidden b).isHidden = b ∧
      (s.setIsHidden b).isPrecisionCircleEnabled = s.isPrecisionCircleEnabled ∧
      (s.setIsHidden b).getPrecisionCircleRadius = s.getPrecisionCircleRadius ∧
      (s.setIsHidden b).getPrecisionCircleBaseColor = s.getPrecisionCircleBaseColor ∧
      (s.setIsHidden b).getPosition = s.getPosition ∧
      (s.setIsHidden b).getDirection = s.getDirection ∧
      (s.setIsHidden b).symbols = s.symbols) ∧
    ((s.setIsPrecisionCircleEnabled b).hasUnappliedChanges = true ∧
      (s.setIsPrecisionCircleEnabled b).isPrecisionCircleEnabled = b ∧
      (s.setIsPrecisionCircleEnabled b).isHidden = s.isHidden ∧
      (s.setIsPrecisionCircleEnabled b).getPrecisionCircleRadius = s.getPrecisionCircleRadius ∧
      (s.setIsPrecisionCircleEnabled b).getPrecisionCircleBaseColor =
        s.getPrecisionCircleBaseColor ∧
      (s.setIsPrecisionCircleEnabled b).getPosition = s.getPosition ∧
      (s.setIsPrecisionCircleEnabled b).getDirection = s.getDirection ∧
      (s.setIsPrecisionCircleEnabled b).symbols = s.symbols) ∧
    ((s.setPrecisionCircleRadius n).hasUnappliedChanges = true ∧
      (s.setPrecisionCircleRadius n).getPrecisionCircleRadius = n ∧
      (s.setPrecisionCircleRadius n).isHidden = s.isHidden ∧
      (s.setPrecisionCircleRadius n).isPrecisionCircleEnabled = s.isPrecisionCircleEnabled ∧
      (s.setPrecisionCircleRadius n).getPrecisionCircleBaseColor =
        s.getPrecisionCircleBaseColor ∧
      (s.setPrecisionCircleRadius n).getPosition = s.getPosition ∧
      (s.setPrecisionCircleRadius n).getDirection = s.getDirection ∧
      (s.setPrecisionCircleRadius n).symbols = s.symbols) ∧
    ((s.setPrecisionCircleBaseColor n).hasUnappliedChanges = true ∧
      (s.setPrecisionCircleBaseColor n).getPrecisionCircleBaseColor = n ∧
      (s.setPrecisionCircleBaseColor n).isHidden = s.isHidden ∧
      (s.setPrecisionCircleBaseColor n).isPrecisionCircleEnabled = s.isPrecisionCircleEnabled ∧
      (s.setPrecisionCircleBaseColor n).getPrecisionCircleRadius = s.getPrecisionCircleRadius ∧
      (s.setPrecisionCircleBaseColor n).getPosition = s.getPosition ∧
      (s.setPrecisionCircleBaseColor n).getDirection = s.getDirection ∧
      (s.setPrecisionCircleBaseColor n).symbols = s.symbols) ∧
    ((s.setPosition p).hasUnappliedChanges = true ∧ (s.setPosition p).getPosition = p ∧
      (s.setPosition p).isHidden = s.isHidden ∧
      (s.setPosition p).isPrecisionCircleEnabled = s.isPrecisionCircleEnabled ∧
      (s.setPosition p).getPrecisionCircleRadius = s.getPrecisionCircleRadius ∧
      (s.setPosition p).getPrecisionCircleBaseColor = s.getPrecisionCircleBaseColor ∧
      (s.setPosition p).getDirection = s.getDirection ∧
      (s.setPosition p).symbols = s.symbols) ∧
    ((s.setDirection n).hasUnappliedChanges = true ∧ (s.setDirection n).getDirection = n ∧
      (s.setDirection n).isHidden = s.isHidden ∧
      (s.setDirection n).isPrecisionCircleEnabled = s.isPrecisionCircleEnabled ∧
      (s.setDirection n).getPrecisionCircleRadius = s.getPrecisionCircleRadius ∧
      (s.setDirection n).getPrecisionCircleBaseColor = s.getPrecisionCircleBaseColor ∧
      (s.setDirection n).getPosition = s.getPosition ∧
      (s.setDirection n).symbols = s.symbols) ∧
    (s.applyChanges.hasUnappliedChanges = false ∧
      s.applyChanges.isHidden = s.isHidden ∧
      s.applyChanges.isPrecisionCircleEnabled = s.isPrecisionCircleEnabled ∧
      s.applyChanges.getPrecisionCircleRadius = s.getPrecisionCircleRadius ∧
      s.applyChanges.getPrecisionCircleBaseColor = s.getPrecisionCircleBaseColor ∧
      s.applyChanges.getPosition = s.getPosition ∧
      s.applyChanges.getDirection = s.getDirection ∧
      s.applyChanges.symbols.length = s.symbols.length ∧
      (s.hasUnappliedChanges = true →
        ∀ symbol ∈ s.applyChanges.symbols, ∀ (location : PointI) (content : Nat),
          symbol = MapSymbol.boundToPoint location content → location = s.getPosition) ∧
      (s.hasUnappliedChanges = false → s.applyChanges.symbols = s.symbols) ∧
      (s.hasUnappliedChanges = true →
        ∀ (i : Nat) (location : PointI) (content : Nat),
          s.symbols[i]? = some (MapSymbol.boundToPoint location content) →
          s.applyChanges.symbols[i]? = some (MapSymbol.boundToPoint s.getPosition content)) ∧
      (∀ (i : Nat) (content : Nat), s.symbols[i]? = some (MapSymbol.other content) →
        s.applyChanges.symbols[i]? = some (MapSymbol.other content))) := by
  refine ⟨⟨rfl, rfl, rfl, rfl, rfl, rfl, rfl, rfl⟩, ⟨rfl, rfl, rfl, rfl, rfl, rfl, rfl, rfl⟩,
    ⟨rfl, rfl, rfl, rfl, rfl, rfl, rfl, rfl⟩, ⟨rfl, rfl, rfl, rfl, rfl, rfl, rfl, rfl⟩,
    ⟨rfl, rfl, rfl, rfl, rfl, rfl, rfl, rfl⟩, ⟨rfl, rfl, rfl, rfl, rfl, rfl, rfl, rfl⟩, ?_⟩
  cases hflag : s._hasUnappliedChanges with
  | false =>
    have e : s.applyChanges = s := by simp [MapMarker_P.applyChanges, hflag]
    rw [e]
    refine ⟨hflag, rfl, rfl, rfl, rfl, rfl, rfl, rfl, ?_, fun _ => rfl, ?_,
      fun i content h => h⟩
    · intro h
      simp [MapMarker_P.hasUnappliedChanges, hflag] at h
    · intro h
      simp [MapMarker_P.hasUnappliedChanges, hflag] at h
  | true =>
    have e : s.applyChanges =
        { s with
          symbols := s.symbols.map (MapMarker_P.applyChangesToSymbol s._position)
          _hasUnappliedChanges := false } := by
      simp [MapMarker_P.applyChanges, hflag]
    rw [e]
    refine ⟨rfl, rfl, rfl, rfl, rfl, rfl, rfl, by simp, ?_, ?_, ?_, ?_⟩
    · intro _ symbol hmem location content hsym
      simp only [List.mem_map] at hmem
      obtain ⟨old, -, hold⟩ := hmem
      rw [hsym] at hold
      exact applyChangesToSymbol_location s._position old location content hold
    · intro h
      simp [MapMarker_P.hasUnappliedChanges, hflag] at h
    · intro _ i location content hi
      simp only [List.getElem?_map, hi, Option.map_some']
      rfl
    · intro i content hi
      simp only [List.getElem?_map, hi, Option.map_some']
      rfl

theorem C21_mapMarker_unapplied_changes_witness :
    (MapMarker_P.applyChanges
        (MapMarker_P.setPosition
          ⟨false, false, 0, 0, ⟨0, 0⟩, 0, false,
            [MapSymbol.boundToPoint ⟨1, 1⟩ 7, MapSymbol.other 8, MapSymbol.boundToPoint ⟨2, 2⟩ 9]⟩
          ⟨5, -3⟩)).symbols[2]? = some (MapSymbol.boundToPoint ⟨5, -3⟩ 9) ∧
    (MapMarker_P.applyChanges
        (MapMarker_P.setPosition
          ⟨false, false, 0, 0, ⟨0, 0⟩, 0, false,
            [MapSymbol.boundToPoint ⟨1, 1⟩ 7, MapSymbol.other 8, MapSymbol.boundToPoint ⟨2, 2⟩ 9]⟩
          ⟨5, -3⟩)).symbols[1]? = some (MapSymbol.other 8) ∧
    ∀ symbol ∈ (MapMarker_P.applyChanges
        (MapMarker_P.setPosition
          ⟨false, false, 0, 0, ⟨0, 0⟩, 0, false,
            [MapSymbol.boundToPoint ⟨1, 1⟩ 7, MapSymbol.other 8, MapSymbol.boundToPoint ⟨2, 2⟩ 9]⟩
          ⟨5, -3⟩)).symbols,
      ∀ (location : PointI) (content : Nat),
        symbol = MapSymbol.boundToPoint location content → location = ⟨5, -3⟩ :=
  ⟨(C21_mapMarker_unapplied_changes
      (MapMarker_P.setPosition
        ⟨false, false, 0, 0, ⟨0, 0⟩, 0, false,
          [MapSymbol.boundToPoint ⟨1, 1⟩ 7, MapSymbol.other 8, MapSymbol.boundToPoint ⟨2, 2⟩ 9]⟩
        ⟨5, -3⟩) false 0 ⟨0, 0⟩).2.2.2.2.2.2.2.2.2.2.2.2.2.2.2.2.1 rfl 2 ⟨2, 2⟩ 9 rfl,
    (C21_mapMarker_unapplied_changes
      (MapMarker_P.setPosition
        ⟨false, false, 0, 0, ⟨0, 0⟩, 0, false,
          [MapSymbol.boundToPoint ⟨1, 1⟩ 7, MapSymbol.other 8, MapSymbol.boundToPoint ⟨2, 2⟩ 9]⟩
        ⟨5, -3⟩) false 0 ⟨0, 0⟩).2.2.2.2.2.2.2.2.2.2.2.2.2.2.2.2.2 1 8 rfl,
    (C21_mapMarker_unapplied_changes
      (MapMarker_P.setPosition
        ⟨false, false, 0, 0, ⟨0, 0⟩, 0, false,
          [MapSymbol.boundToPoint ⟨1, 1⟩ 7, MapSymbol.other 8, MapSymbol.boundToPoint ⟨2, 2⟩ 9]⟩
        ⟨5, -3⟩) false 0 ⟨0, 0⟩).2.2.2.2.2.2.2.2.2.2.2.2.2.2.1 rfl⟩

/-- C22: a paused `MapAnimator_P` is inert: while `isAnimationPaused()` is true,
`update(t)` leaves the whole state as it is for every `t` and whatever `process`
would do, and `isAnimationRunning()` is false.  The animator is paused at
construction and after `cancelAnimation()`, which also empties the collection, and
`isAnimationRunning()` is true exactly when the animator is not paused and the
collection is not empty. -/
theorem C22_mapAnimator_paused_inert {Animation Renderer Time : Type}
    (process : Animation → Time → Option Renderer → Bool × Animation × Option Renderer)
    (s : MapAnimator_P Animation Renderer) (t : Time) :
    (s.isAnimationPaused = true →
      MapAnimator_P.update process s t = s ∧ s.isAnimationRunning = false) ∧
    (MapAnimator_P.construct : MapAnimator_P Animation Renderer).isAnimationPaused = true ∧
    (MapAnimator_P.construct : MapAnimator_P Animation Renderer)._animations = [] ∧
    s.cancelAnimation.isAnimationPaused = true ∧
    s.cancelAnimation._animations = [] ∧
    s.cancelAnimation.isAnimationRunning = false ∧
    (s.isAnimationRunning = true ↔ (s.isAnimationPaused = false ∧ s._animations ≠ [])) := by
  refine ⟨?_, rfl, rfl, rfl, rfl, rfl, ?_⟩
  · intro hp
    simp only [MapAnimator_P.isAnimationPaused] at hp
    constructor
    · simp [MapAnimator_P.update, hp]
    · simp [MapAnimator_P.isAnimationRunning, hp]
  · simp only [MapAnimator_P.isAnimationRunning, MapAnimator_P.isAnimationPaused]
    cases s._isAnimationPaused <;> cases s._animations <;> simp

theorem C22_mapAnimator_paused_inert_witness :
    MapAnimator_P.update (fun (a : Nat) (t : Nat) (r : Option Nat) => (decide (a ≤ t), a + t, r))
        (⟨true, [1, 5, 9], some 3⟩ : MapAnimator_P Nat Nat) 4 = ⟨true, [1, 5, 9], some 3⟩ ∧
      (⟨true, [1, 5, 9], some 3⟩ : MapAnimator_P Nat Nat).isAnimationRunning = false :=
  (C22_mapAnimator_paused_inert
    (fun (a : Nat) (t : Nat) (r : Option Nat) => (decide (a ≤ t), a + t, r))
    (⟨true, [1, 5, 9], some 3⟩ : MapAnimator_P Nat Nat) 4).1 rfl

section FavoriteLocations

open FavoriteLocationsPresenter_P

variable {Location Marker Collection Bitmap : Type} [DecidableEq Location]

theorem removeObsoleteMarkers_eq (ext : PresenterExternals Location Marker Collection Bitmap)
    (favoriteLocations : List Location) (map : List (Location × Marker)) :
    ∀ collection : Collection,
      removeObsoleteMarkers ext favoriteLocations map collection =
        (map.filter (fun entry => decide (entry.1 ∈ favoriteLocations)),
          (map.filter (fun entry => !decide (entry.1 ∈ favoriteLocations))).foldl
            (fun c entry => ext.removeMarker c entry.2) collection) := by
  induction map with
  | nil => intro collection; rfl
  | cons entry entries ih =>
    intro collection
    by_cases h : entry.1 ∈ favoriteLocations
    · simp [removeObsoleteMarkers, h, ih]
    · simp [removeObsoleteMarkers, h, ih]

theorem createNewMarkers_spec (ext : PresenterExternals Location Marker Collection Bitmap)
    (favoriteLocations : List Location) :
    ∀ (markerBuilder : MapMarkerBuilder Bitmap) (map : List (Location × Marker))
      (collection : Collection),
      ∃ added : List (Location × Marker),
        (createNewMarkers ext favoriteLocations markerBuilder map collection).1 = map ++ added ∧
        (∀ entry ∈ added, entry.1 ∈ favoriteLocations ∧ entry.1 ∉ map.map Prod.fst ∧
          ∃ (builder : MapMarkerBuilder Bitmap) (c : Collection),
            entry.2 = (ext.buildAndAddToCollection builder c).1 ∧
            builder.position = some (ext.getPosition31 entry.1) ∧
            builder.pinIconModulationColor = some (ext.getColor entry.1) ∧
            builder.isHidden = some (ext.isHidden entry.1) ∧
            builder.baseOrder = markerBuilder.baseOrder ∧
            builder.isAccuracyCircleSupported = markerBuilder.isAccuracyCircleSupported ∧
            builder.pinIcon = markerBuilder.pinIcon) ∧
        (added.map Prod.fst).Nodup ∧
        (∀ k ∈ favoriteLocations, k ∈ map.map Prod.fst ∨ k ∈ added.map Prod.fst) ∧
        (added = [] →
          createNewMarkers ext favoriteLocations markerBuilder map collection =
            (map, collection)) := by
  induction favoriteLocations with
  | nil =>
    intro markerBuilder map collection
    exact ⟨[], by simp [createNewMarkers], by simp, by simp, by simp, fun _ => rfl⟩
  | cons loc locs ih =>
    intro markerBuilder map collection
    by_cases h : loc ∈ map.map Prod.fst
    · obtain ⟨added, h1, h2, h3, h4, h5⟩ := ih markerBuilder map collection
      have e : createNewMarkers ext (loc :: locs) markerBuilder map collection =
          createNewMarkers ext locs markerBuilder map collection := by
        simp only [createNewMarkers, h, if_true]
      rw [e]
      refine ⟨added, h1, ?_, h3, ?_, h5⟩
      · intro entry he
        obtain ⟨a, b, c⟩ := h2 entry he
        exact ⟨List.mem_cons_of_mem _ a, b, c⟩
      · intro k hk
        rcases List.mem_cons.mp hk with rfl | hk
        · exact Or.inl h
        · exact h4 k hk
    · obtain ⟨added, h1, h2, h3, h4, -⟩ := ih
        { markerBuilder with
          position := some (ext.getPosition31 loc)
          pinIconModulationColor := some (ext.getColor loc)
          isHidden := some (ext.isHidden loc) }
        (map ++ [(loc, (ext.buildAndAddToCollection
          { markerBuilder with
            position := some (ext.getPosition31 loc)
            pinIconModulationColor := some (ext.getColor loc)
            isHidden := some (ext.isHidden loc) } collection).1)])
        (ext.buildAndAddToCollection
          { markerBuilder with
            position := some (ext.getPosition31 loc)
            pinIconModulationColor := some (ext.getColor loc)
            isHidden := some (ext.isHidden loc) } collection).2
      have e : createNewMarkers ext (loc :: locs) markerBuilder map collection =
          createNewMarkers ext locs
            { markerBuilder with
              position := some (ext.getPosition31 loc)
              pinIconModulationColor := some (ext.getColor loc)
              isHidden := some (ext.isHidden loc) }
            (map ++ [(loc, (ext.buildAndAddToCollection
              { markerBuilder with
                position := some (ext.getPosition31 loc)
                pinIconModulationColor := some (ext.getColor loc)
                isHidden := some (ext.isHidden loc) } collection).1)])
            (ext.buildAndAddToCollection
              { markerBuilder with
                position := some (ext.getPosition31 loc)
                pinIconModulationColor := some (ext.getColor loc)
                isHidden := some (ext.isHidden loc) } collection).2 := by
        simp only [createNewMarkers, h, if_false]
      rw [e]
      refine ⟨(loc, (ext.buildAndAddToCollection
          { markerBuilder with
            position := some (ext.getPosition31 loc)
            pinIconModulationColor := some (ext.getColor loc)
            isHidden := some (ext.isHidden loc) } collection).1) :: added, ?_, ?_, ?_, ?_, ?_⟩
      · rw [h1]; simp
      · intro entry he
        rcases List.mem_cons.mp he with rfl | he
        · exact ⟨List.mem_cons_self _ _, h, _, collection, rfl, rfl, rfl, rfl, rfl, rfl, rfl⟩
        · obtain ⟨a, b, builder, c, hc⟩ := h2 entry he
          refine ⟨List.mem_cons_of_mem _ a, ?_, builder, c, hc⟩
          intro hmem
          apply b
          simp only [List.map_append, List.mem_append]
          exact Or.inl hmem
      · simp only [List.map_cons, List.nodup_cons]
        refine ⟨?_, h3⟩
        intro hmem
        obtain ⟨entry, he, hfst⟩ := List.mem_map.mp hmem
        have := (h2 entry he).2.1
        apply this
        rw [hfst]
        simp
      · intro k hk
        rcases List.mem_cons.mp hk with rfl | hk
        · right; simp
        · rcases h4 k hk with h' | h'
          · simp only [List.map_append, List.mem_append, List.map_cons, List.map_nil,
              List.mem_singleton] at h'
            rcases h' with h' | h'
            · exact Or.inl h'
            · right; rw [h']; simp
          · right
            simp only [List.map_cons, List.mem_cons]
            exact Or.inr h'
      · intro hnil
        simp at hnil

end FavoriteLocations

section FavoriteLocationsClaim

open FavoriteLocationsPresenter_P

variable {Location Marker Collection Bitmap : Type} [DecidableEq Location]

theorem syncFavoriteLocationMarkers_spec
    (ext : PresenterExternals Location Marker Collection Bitmap)
    (favoriteLocations : List Location)
    (self : FavoriteLocationsPresenter_P Location Marker Collection) :
    ∃ added : List (Location × Marker),
      (syncFavoriteLocationMarkers ext favoriteLocations self)._favoriteLocationToMarkerMap =
        self._favoriteLocationToMarkerMap.filter
          (fun entry => decide (entry.1 ∈ favoriteLocations)) ++ added ∧
      (∀ entry ∈ added, entry.1 ∈ favoriteLocations ∧
        entry.1 ∉ self._favoriteLocationToMarkerMap.map Prod.fst ∧
        ∃ (builder : MapMarkerBuilder Bitmap) (c : Collection),
          entry.2 = (ext.buildAndAddToCollection builder c).1 ∧
          builder.position = some (ext.getPosition31 entry.1) ∧
          builder.pinIconModulationColor = some (ext.getColor entry.1) ∧
          builder.isHidden = some (ext.isHidden entry.1)) ∧
      (added.map Prod.fst).Nodup ∧
      (∀ k ∈ favoriteLocations,
        k ∈ self._favoriteLocationToMarkerMap.map Prod.fst ∨ k ∈ added.map Prod.fst) ∧
      (added = [] →
        (syncFavoriteLocationMarkers ext favoriteLocations self)._markersCollection =
          (self._favoriteLocationToMarkerMap.filter
            (fun entry => !decide (entry.1 ∈ favoriteLocations))).foldl
              (fun c entry => ext.removeMarker c entry.2) self._markersCollection) := by
  obtain ⟨added, h1, h2, h3, h4, h5⟩ := createNewMarkers_spec ext favoriteLocations
    (initialMarkerBuilder ext)
    (self._favoriteLocationToMarkerMap.filter
      (fun (entry : Location × Marker) => decide (entry.1 ∈ favoriteLocations)))
    ((self._favoriteLocationToMarkerMap.filter
      (fun (entry : Location × Marker) => !decide (entry.1 ∈ favoriteLocations))).foldl
        (fun (c : Collection) (entry : Location × Marker) => ext.removeMarker c entry.2)
        self._markersCollection)
  have hs : syncFavoriteLocationMarkers ext favoriteLocations self =
      { _favoriteLocationToMarkerMap := (createNewMarkers ext favoriteLocations
          (initialMarkerBuilder ext)
          (self._favoriteLocationToMarkerMap.filter
            (fun (entry : Location × Marker) => decide (entry.1 ∈ favoriteLocations)))
          ((self._favoriteLocationToMarkerMap.filter
            (fun (entry : Location × Marker) => !decide (entry.1 ∈ favoriteLocations))).foldl
              (fun (c : Collection) (entry : Location × Marker) => ext.removeMarker c entry.2)
              self._markersCollection)).1
        _markersCollection := (createNewMarkers ext favoriteLocations
          (initialMarkerBuilder ext)
          (self._favoriteLocationToMarkerMap.filter
            (fun (entry : Location × Marker) => decide (entry.1 ∈ favoriteLocations)))
          ((self._favoriteLocationToMarkerMap.filter
            (fun (entry : Location × Marker) => !decide (entry.1 ∈ favoriteLocations))).foldl
              (fun (c : Collection) (entry : Location × Marker) => ext.removeMarker c entry.2)
              self._markersCollection)).2 } := by
    simp only [syncFavoriteLocationMarkers, removeObsoleteMarkers_eq]
  refine ⟨added, by rw [hs]; exact h1, ?_, h3, ?_, ?_⟩
  · intro entry he
    obtain ⟨a, b, builder, c, e1, e2, e3, e4, -⟩ := h2 entry he
    refine ⟨a, ?_, builder, c, e1, e2, e3, e4⟩
    intro hmem
    apply b
    obtain ⟨old, hold, hfst⟩ := List.mem_map.mp hmem
    refine List.mem_map.mpr ⟨old, ?_, hfst⟩
    simp only [List.mem_filter, decide_eq_true_eq]
    exact ⟨hold, by rw [hfst]; exact a⟩
  · intro k hk
    rcases h4 k hk with h | h
    · left
      obtain ⟨old, hold, hfst⟩ := List.mem_map.mp h
      exact List.mem_map.mpr ⟨old, (List.mem_filter.mp hold).1, hfst⟩
    · exact Or.inr h
  · intro hnil
    rw [hs, h5 hnil]

theorem syncFavoriteLocationMarkers_entries
    (ext : PresenterExternals Location Marker Collection Bitmap)
    (favoriteLocations : List Location)
    (self : FavoriteLocationsPresenter_P Location Marker Collection) :
    (∀ k, k ∈ (syncFavoriteLocationMarkers ext favoriteLocations
        self)._favoriteLocationToMarkerMap.map Prod.fst ↔ k ∈ favoriteLocations) ∧
    ((self._favoriteLocationToMarkerMap.map Prod.fst).Nodup →
      ((syncFavoriteLocationMarkers ext favoriteLocations
        self)._favoriteLocationToMarkerMap.map Prod.fst).Nodup) ∧
    (∀ k m, (k, m) ∈ self._favoriteLocationToMarkerMap → k ∉ favoriteLocations →
      k ∉ (syncFavoriteLocationMarkers ext favoriteLocations
        self)._favoriteLocationToMarkerMap.map Prod.fst) ∧
    removeObsoleteMarkers ext favoriteLocations self._favoriteLocationToMarkerMap
        self._markersCollection =
      (self._favoriteLocationToMarkerMap.filter
          (fun entry => decide (entry.1 ∈ favoriteLocations)),
        (self._favoriteLocationToMarkerMap.filter
          (fun entry => !decide (entry.1 ∈ favoriteLocations))).foldl
            (fun c entry => ext.removeMarker c entry.2) self._markersCollection) ∧
    (∀ k m, (k, m) ∈ self._favoriteLocationToMarkerMap → k ∈ favoriteLocations →
      (k, m) ∈ (syncFavoriteLocationMarkers ext favoriteLocations
        self)._favoriteLocationToMarkerMap) ∧
    (∀ k m, (k, m) ∈ (syncFavoriteLocationMarkers ext favoriteLocations
        self)._favoriteLocationToMarkerMap →
      k ∈ self._favoriteLocationToMarkerMap.map Prod.fst →
      (k, m) ∈ self._favoriteLocationToMarkerMap) ∧
    (∀ k, k ∈ favoriteLocations → k ∉ self._favoriteLocationToMarkerMap.map Prod.fst →
      ∃ m, (k, m) ∈ (syncFavoriteLocationMarkers ext favoriteLocations
          self)._favoriteLocationToMarkerMap ∧
        ∃ (builder : MapMarkerBuilder Bitmap) (c : Collection),
          m = (ext.buildAndAddToCollection builder c).1 ∧
          builder.position = some (ext.getPosition31 k) ∧
          builder.pinIconModulationColor = some (ext.getColor k) ∧
          builder.isHidden = some (ext.isHidden k)) ∧
    syncFavoriteLocationMarkers ext favoriteLocations
        (syncFavoriteLocationMarkers ext favoriteLocations self) =
      syncFavoriteLocationMarkers ext favoriteLocations self := by
  obtain ⟨added, h1, h2, h3, h4, -⟩ := syncFavoriteLocationMarkers_spec ext favoriteLocations self
  have hkeys : ∀ k, k ∈ (syncFavoriteLocationMarkers ext favoriteLocations
      self)._favoriteLocationToMarkerMap.map Prod.fst ↔ k ∈ favoriteLocations := by
    intro k
    rw [h1]
    simp only [List.map_append, List.mem_append]
    constructor
    · rintro (h | h)
      · obtain ⟨old, hold, hfst⟩ := List.mem_map.mp h
        have := (List.mem_filter.mp hold).2
        simp only [decide_eq_true_eq] at this
        rw [← hfst]
        exact this
      · obtain ⟨entry, he, hfst⟩ := List.mem_map.mp h
        rw [← hfst]
        exact (h2 entry he).1
    · intro hk
      rcases h4 k hk with h | h
      · left
        obtain ⟨old, hold, hfst⟩ := List.mem_map.mp h
        refine List.mem_map.mpr ⟨old, ?_, hfst⟩
        simp only [List.mem_filter, decide_eq_true_eq]
        exact ⟨hold, by rw [hfst]; exact hk⟩
      · exact Or.inr h
  refine ⟨hkeys, ?_, ?_, removeObsoleteMarkers_eq ext favoriteLocations _ _, ?_, ?_, ?_, ?_⟩
  · intro hnd
    rw [h1, List.map_append]
    refine List.Nodup.append ((List.Nodup.sublist
      (List.Sublist.map Prod.fst (List.filter_sublist _)) hnd)) h3 ?_
    intro k hk1 hk2
    obtain ⟨entry, he, hfst⟩ := List.mem_map.mp hk2
    apply (h2 entry he).2.1
    rw [hfst]
    obtain ⟨old, hold, hfst'⟩ := List.mem_map.mp hk1
    exact List.mem_map.mpr ⟨old, (List.mem_filter.mp hold).1, hfst'⟩
  · intro k m _ hk hmem
    exact hk ((hkeys k).mp hmem)
  · intro k m hmem hk
    rw [h1]
    apply List.mem_append_left
    simp only [List.mem_filter, decide_eq_true_eq]
    exact ⟨hmem, hk⟩
  · intro k m hmem hk
    rw [h1] at hmem
    rcases List.mem_append.mp hmem with h | h
    · exact (List.mem_filter.mp h).1
    · exact absurd hk (h2 (k, m) h).2.1
  · intro k hk hnew
    rcases h4 k hk with h | h
    · exact absurd h hnew
    · obtain ⟨entry, he, hfst⟩ := List.mem_map.mp h
      obtain ⟨k', m⟩ := entry
      simp only at hfst
      subst hfst
      refine ⟨m, ?_, (h2 (k', m) he).2.2⟩
      rw [h1]
      exact List.mem_append_right _ he
  · obtain ⟨added2, g1, g2, -, -, g5⟩ := syncFavoriteLocationMarkers_spec ext favoriteLocations
      (syncFavoriteLocationMarkers ext favoriteLocations self)
    have hall : ∀ entry ∈ (syncFavoriteLocationMarkers ext favoriteLocations
        self)._favoriteLocationToMarkerMap, entry.1 ∈ favoriteLocations := by
      intro entry he
      exact (hkeys entry.1).mp (List.mem_map.mpr ⟨entry, he, rfl⟩)
    have hadded : added2 = [] := by
      cases added2 with
      | nil => rfl
      | cons entry rest =>
        have := g2 entry (List.mem_cons_self _ _)
        exact absurd ((hkeys entry.1).mpr this.1) this.2.1
    have hfilter : (syncFavoriteLocationMarkers ext favoriteLocations
        self)._favoriteLocationToMarkerMap.filter
          (fun entry => decide (entry.1 ∈ favoriteLocations)) =
        (syncFavoriteLocationMarkers ext favoriteLocations
          self)._favoriteLocationToMarkerMap := by
      apply List.filter_eq_self.mpr
      intro entry he
      simpa using hall entry he
    have hfilter2 : (syncFavoriteLocationMarkers ext favoriteLocations
        self)._favoriteLocationToMarkerMap.filter
          (fun entry => !decide (entry.1 ∈ favoriteLocations)) = [] := by
      apply List.filter_eq_nil_iff.mpr
      intro entry he
      simpa using hall entry he
    have gmap := g1
    rw [hadded, List.append_nil, hfilter] at gmap
    have gcoll := g5 hadded
    rw [hfilter2] at gcoll
    simp only [List.foldl_nil] at gcoll
    cases hss : syncFavoriteLocationMarkers ext favoriteLocations
        (syncFavoriteLocationMarkers ext favoriteLocations self) with
    | mk map2 coll2 =>
      rw [hss] at gmap gcoll
      simp only at gmap gcoll
      subst gmap
      subst gcoll
      rfl

end FavoriteLocationsClaim

theorem readStringTable_fields_prefix (ext : Externals) (hk0 : 0 < ext.kSFieldNumber)
    (hk : ext.kSFieldNumber < 2 ^ 29) (fields : List TableField) :
    ∀ (tail : List Nat) (pos limit : Nat) (l : Bool) (t d r : Nat) (out : QStringList),
      (∀ f ∈ fields, f.wellFormed ext.kSFieldNumber = true) →
      pos + (encodeTableFields ext.kSFieldNumber fields).length ≤ limit →
      limit ≤ INT_MAX →
      ∃ t1, readStringTable ext
          ⟨encodeTableFields ext.kSFieldNumber fields ++ tail, pos, limit, l, t, d, r⟩ out =
        readStringTable ext
          ⟨tail, pos + (encodeTableFields ext.kSFieldNumber fields).length, limit, l, t1, d, r⟩
          (out ++ (entryPayloads fields).map (fun p => ext.fromUtf8 (p.map (· % 256)))) := by
  induction fields with
  | nil =>
    intro tail pos limit l t d r out _ _ _
    exact ⟨t, by simp [encodeTableFields, entryPayloads]⟩
  | cons f fs ih =>
    intro tail pos limit l t d r out hwf hl hmax
    have hwfs : ∀ g ∈ fs, g.wellFormed ext.kSFieldNumber = true :=
      fun g hg => hwf g (List.mem_cons_of_mem _ hg)
    have hne : ¬ (ext.kSFieldNumber = 0) := by omega
    cases f with
    | entry p =>
      have htag := MakeTag_lengthDelimited ext.kSFieldNumber hk
      simp only [encodeTableFields, TableField.encode, encodeLengthDelimited, htag,
        List.length_append] at hl ⊢
      have hfn := GetTagFieldNumber_lengthDelimited ext.kSFieldNumber
      have hr := ReadTag_encodeVarint (8 * ext.kSFieldNumber + 2) (by omega)
        (encodeVarint p.length ++ p ++
          (encodeTableFields ext.kSFieldNumber fs ++ tail)) pos limit l t d r (by omega)
      have hq := readQString_payload ext p
        (encodeTableFields ext.kSFieldNumber fs ++ tail)
        (pos + (encodeVarint (8 * ext.kSFieldNumber + 2)).length) limit l
        (8 * ext.kSFieldNumber + 2) d r [] (by omega) hmax
      obtain ⟨t1, hi⟩ := ih tail
        (pos + (encodeVarint (8 * ext.kSFieldNumber + 2)).length +
          (encodeVarint p.length).length + p.length) limit l (8 * ext.kSFieldNumber + 2) d r
        (out ++ [ext.fromUtf8 (p.map (· % 256))]) hwfs (by omega) hmax
      refine ⟨t1, ?_⟩
      simp only [List.append_assoc] at hr hq hi ⊢
      rw [readStringTable_step]
      simp only [hr, hfn, hne, if_false, if_true, hq, hi, entryPayloads, List.map_cons,
        List.append_assoc, List.singleton_append]
      simp only [Nat.add_assoc]
    | unknown fn p =>
      have hw := hwf (TableField.unknown fn p) (List.mem_cons_self _ _)
      simp only [TableField.wellFormed, Bool.and_eq_true, decide_eq_true_eq] at hw
      obtain ⟨⟨⟨hfn0, hfnk⟩, hfn29⟩, hp⟩ := hw
      have hwt := FieldPayload_wireType_lt p
      have htag := MakeTag_eq fn p.wireType hfn29 hwt
      have hlen := FieldPayload_encode_length p hp
      simp only [encodeTableFields, TableField.encode, htag, List.length_append, hlen] at hl ⊢
      have hr := ReadTag_encodeVarint (8 * fn + p.wireType) (by omega)
        (p.encode ++ (encodeTableFields ext.kSFieldNumber fs ++ tail)) pos limit l t d r
        (by omega)
      have hs := skipUnknownField_payload ext (toInt32 (8 * fn + p.wireType)) p
        (encodeTableFields ext.kSFieldNumber fs ++ tail)
        (pos + (encodeVarint (8 * fn + p.wireType)).length) limit l (8 * fn + p.wireType) d r hp
        (by rw [toUInt32_toInt32, Nat.mod_eq_of_lt (by omega), GetTagWireType_eq fn _ hwt])
        (by omega) hmax
      obtain ⟨t1, hi⟩ := ih tail
        (pos + (encodeVarint (8 * fn + p.wireType)).length + p.size) limit l
        (8 * fn + p.wireType) d r out hwfs (by omega) hmax
      refine ⟨t1, ?_⟩
      simp only [List.append_assoc] at hr hs hi ⊢
      rw [readStringTable_step]
      simp only [hr, GetTagFieldNumber_eq fn _ hwt, hfn0, hfnk, if_false, hs, Option.some_bind,
        hi, entryPayloads]
      simp only [Nat.add_assoc]

theorem readStringTable_at_end (ext : Externals) (tail : List Nat) (pos limit : Nat) (l : Bool)
    (t d r : Nat) (out : QStringList)
    (hend : (∃ rest, tail = 0 :: rest ∧ pos + 1 ≤ limit) ∨ pos = limit) :
    (readStringTable ext ⟨tail, pos, limit, l, t, d, r⟩ out).map (·.2) = some out := by
  have h0 : (ReadTag ⟨tail, pos, limit, l, t, d, r⟩).1 = 0 := by
    rcases hend with ⟨rest, rfl, hl⟩ | hlim
    · have e0 : encodeVarint 0 = [0] := encodeVarint_lt 0 (by norm_num)
      have hr := ReadTag_encodeVarint 0 (by norm_num) rest pos limit l t d r
        (by rw [e0]; simpa using hl)
      rw [e0] at hr
      simp only [List.singleton_append] at hr
      rw [hr]
    · subst hlim
      simp [ReadTag, BufferSize]
  rw [readStringTable_step, h0]
  rfl

theorem readStringTable_fields_terminated (ext : Externals) (hk0 : 0 < ext.kSFieldNumber)
    (hk : ext.kSFieldNumber < 2 ^ 29) (fields : List TableField) (tail : List Nat)
    (cis : CodedInputStream) (out : QStringList)
    (hwf : ∀ f ∈ fields, f.wellFormed ext.kSFieldNumber = true)
    (hin : cis.input = encodeTableFields ext.kSFieldNumber fields ++ tail)
    (hend : (∃ rest, tail = 0 :: rest ∧
        cis.pos + (encodeTableFields ext.kSFieldNumber fields).length + 1 ≤ cis.limit) ∨
      cis.pos + (encodeTableFields ext.kSFieldNumber fields).length = cis.limit)
    (hmax : cis.limit ≤ INT_MAX) :
    (readStringTable ext cis out).map (·.2) =
      some (out ++ (entryPayloads fields).map (fun p => ext.fromUtf8 (p.map (· % 256)))) := by
  obtain ⟨input, pos, limit, l, t, d, r⟩ := cis
  simp only at hin hend hmax
  subst hin
  have hl : pos + (encodeTableFields ext.kSFieldNumber fields).length ≤ limit := by
    rcases hend with ⟨rest, -, h⟩ | h <;> omega
  obtain ⟨t1, h⟩ := readStringTable_fields_prefix ext hk0 hk fields tail pos limit l t d r out
    hwf hl hmax
  rw [h]
  exact readStringTable_at_end ext tail _ limit l t1 d r _ hend

/-- C13 (as amended): fields whose field number is neither 0 nor that of the entry
do not affect the decoded table.  On a buffer of well-formed fields (entries, and
fields with such a number and a varint, 64-bit, length-delimited, 32-bit or
fixed32-length-delimited payload), ended by the zero sentinel or by the limit,
`readStringTable` yields the same list as on the buffer from which every field
that is not an entry (tag and payload) has been deleted, whichever way that
buffer ends: the strings of the entries in order, appended to the initial
content. -/
theorem C13_other_fields_ignored (ext : Externals) (fields : List TableField)
    (tail tail' : List Nat) (cis cis' : CodedInputStream) (out : QStringList)
    (hk0 : 0 < ext.kSFieldNumber) (hk : ext.kSFieldNumber < 2 ^ 29)
    (hwf : ∀ f ∈ fields, f.wellFormed ext.kSFieldNumber = true)
    (hin : cis.input = encodeTableFields ext.kSFieldNumber fields ++ tail)
    (hin' : cis'.input =
      encodeTableFields ext.kSFieldNumber (deleteUnknownFields fields) ++ tail')
    (hend : (∃ rest, tail = 0 :: rest ∧
        cis.pos + (encodeTableFields ext.kSFieldNumber fields).length + 1 ≤ cis.limit) ∨
      cis.pos + (encodeTableFields ext.kSFieldNumber fields).length = cis.limit)
    (hend' : (∃ rest, tail' = 0 :: rest ∧
        cis'.pos + (encodeTableFields ext.kSFieldNumber (deleteUnknownFields fields)).length + 1
          ≤ cis'.limit) ∨
      cis'.pos + (encodeTableFields ext.kSFieldNumber (deleteUnknownFields fields)).length =
        cis'.limit)
    (hmax : cis.limit ≤ INT_MAX) (hmax' : cis'.limit ≤ INT_MAX) :
    (readStringTable ext cis out).map (·.2) = (readStringTable ext cis' out).map (·.2) ∧
    (readStringTable ext cis out).map (·.2) =
      some (out ++ (entryPayloads fields).map (fun p => ext.fromUtf8 (p.map (· % 256)))) := by
  have h1 := readStringTable_fields_terminated ext hk0 hk fields tail cis out hwf hin hend hmax
  have h2 := readStringTable_fields_terminated ext hk0 hk (deleteUnknownFields fields) tail' cis'
    out (deleteUnknownFields_wellFormed ext.kSFieldNumber fields) hin' hend' hmax'
  rw [entryPayloads_deleteUnknownFields] at h2
  rw [h1, h2]
  exact ⟨rfl, rfl⟩

theorem C13_other_fields_ignored_witness :
    ((readStringTable ⟨true, fun b => b, 1⟩
        ⟨[16, 172, 2, 10, 1, 97, 30, 0, 0, 0, 2, 1, 2, 10, 1, 98, 0], 0, 17, false, 0, 0, 64⟩
        []).map (·.2) =
      (readStringTable ⟨true, fun b => b, 1⟩
        ⟨[10, 1, 97, 10, 1, 98, 0], 0, 7, false, 0, 0, 64⟩ []).map (·.2)) ∧
    ((readStringTable ⟨true, fun b => b, 1⟩
        ⟨[16, 172, 2, 10, 1, 97, 30, 0, 0, 0, 2, 1, 2, 10, 1, 98, 77], 0, 16, false, 0, 0, 64⟩
        []).map (·.2) = some [[97], [98]]) := by
  have e : encodeTableFields 1 [TableField.unknown 2 (FieldPayload.varint 300),
      TableField.entry [97],
      TableField.unknown 3 (FieldPayload.fixed32LengthDelimited [1, 2]),
      TableField.entry [98]] = [16, 172, 2, 10, 1, 97, 30, 0, 0, 0, 2, 1, 2, 10, 1, 98] := by
    simp [encodeTableFields, TableField.encode, encodeLengthDelimited, FieldPayload.encode,
      FieldPayload.wireType, encodeBigEndian32, encodeVarint, MakeTag, WIRETYPE_VARINT,
      WIRETYPE_LENGTH_DELIMITED, WIRETYPE_FIXED32_LENGTH_DELIMITED]
  have e' : encodeTableFields 1 (deleteUnknownFields
      [TableField.unknown 2 (FieldPayload.varint 300), TableField.entry [97],
      TableField.unknown 3 (FieldPayload.fixed32LengthDelimited [1, 2]),
      TableField.entry [98]]) = [10, 1, 97, 10, 1, 98] := by
    simp [deleteUnknownFields, TableField.isEntry, encodeTableFields, TableField.encode,
      encodeLengthDelimited, encodeVarint, MakeTag, WIRETYPE_LENGTH_DELIMITED]
  constructor
  · exact (C13_other_fields_ignored ⟨true, fun b => b, 1⟩
      [TableField.unknown 2 (FieldPayload.varint 300), TableField.entry [97],
        TableField.unknown 3 (FieldPayload.fixed32LengthDelimited [1, 2]),
        TableField.entry [98]] [0] [0]
      ⟨[16, 172, 2, 10, 1, 97, 30, 0, 0, 0, 2, 1, 2, 10, 1, 98, 0], 0, 17, false, 0, 0, 64⟩
      ⟨[10, 1, 97, 10, 1, 98, 0], 0, 7, false, 0, 0, 64⟩ [] (by decide) (by decide) (by decide)
      (by rw [e]; rfl) (by rw [e']; rfl)
      (Or.inl ⟨[], rfl, by rw [e]; decide⟩) (Or.inl ⟨[], rfl, by rw [e']; decide⟩) (by decide)
      (by decide)).1
  · exact (C13_other_fields_ignored ⟨true, fun b => b, 1⟩
      [TableField.unknown 2 (FieldPayload.varint 300), TableField.entry [97],
        TableField.unknown 3 (FieldPayload.fixed32LengthDelimited [1, 2]),
        TableField.entry [98]] [77] [0]
      ⟨[16, 172, 2, 10, 1, 97, 30, 0, 0, 0, 2, 1, 2, 10, 1, 98, 77], 0, 16, false, 0, 0, 64⟩
      ⟨[10, 1, 97, 10, 1, 98, 0], 0, 7, false, 0, 0, 64⟩ [] (by decide) (by decide) (by decide)
      (by rw [e]; rfl) (by rw [e']; rfl)
      (Or.inr (by rw [e]; decide)) (Or.inl ⟨[], rfl, by rw [e']; decide⟩) (by decide)
      (by decide)).2

/-- C13 (as stated) fails.  The tag 8 (field number 1, that of the entry, with wire
type 0) is neither the sentinel nor the entry tag 10, yet the field it starts is
read as an entry: the buffer `[8, 1, 10, 1, 98, 0]` gives the table `["\n"]`, the
buffer without that field, `[10, 1, 98, 0]`, gives `["b"]`.  The tag 5 (field
number 0, wire type 5) ends the table: `[5, 1, 2, 3, 4, 10, 1, 98, 0]` gives the
empty table.  The first and the last buffer are the encodings of a field with
number 1, respectively 0, followed by the entry `"b"` and the sentinel; the second
is what remains of either when the field that is not an entry is deleted. -/
theorem C13_unknown_fields_counterexample :
    (readStringTable ⟨true, fun b => b, 1⟩ ⟨[8, 1, 10, 1, 98, 0], 0, 6, false, 0, 0, 64⟩
      []).map (·.2) = some [[10]] ∧
    (readStringTable ⟨true, fun b => b, 1⟩ ⟨[10, 1, 98, 0], 0, 4, false, 0, 0, 64⟩
      []).map (·.2) = some [[98]] ∧
    (readStringTable ⟨true, fun b => b, 1⟩
      ⟨[5, 1, 2, 3, 4, 10, 1, 98, 0], 0, 9, false, 0, 0, 64⟩ []).map (·.2) = some [] ∧
    encodeTableFields 1 [TableField.unknown 1 (FieldPayload.varint 1), TableField.entry [98]]
      ++ [0] = [8, 1, 10, 1, 98, 0] ∧
    encodeTableFields 1 (deleteUnknownFields
      [TableField.unknown 1 (FieldPayload.varint 1), TableField.entry [98]]) ++ [0] =
        [10, 1, 98, 0] ∧
    encodeTableFields 1
      [TableField.unknown 0 (FieldPayload.fixed32 [1, 2, 3, 4]), TableField.entry [98]]
      ++ [0] = [5, 1, 2, 3, 4, 10, 1, 98, 0] := by
  refine ⟨by decide, by decide, by decide, ?_, ?_, ?_⟩
  · simp [encodeTableFields, TableField.encode, encodeLengthDelimited, FieldPayload.encode,
      FieldPayload.wireType, encodeVarint, MakeTag, WIRETYPE_VARINT, WIRETYPE_LENGTH_DELIMITED]
  · simp [deleteUnknownFields, TableField.isEntry, encodeTableFields, TableField.encode,
      encodeLengthDelimited, encodeVarint, MakeTag, WIRETYPE_LENGTH_DELIMITED]
  · simp [encodeTableFields, TableField.encode, encodeLengthDelimited, FieldPayload.encode,
      FieldPayload.wireType, encodeVarint, MakeTag, WIRETYPE_FIXED32, WIRETYPE_LENGTH_DELIMITED]

section FavoriteLocationsClosedForm

open FavoriteLocationsPresenter_P

variable {Location Marker Collection Bitmap : Type} [DecidableEq Location]

theorem newFavoriteLocations_spec (favoriteLocations : List Location) :
    ∀ known : List Location,
      (∀ k, k ∈ newFavoriteLocations favoriteLocations known ↔
        (k ∈ favoriteLocations ∧ k ∉ known)) ∧
      (newFavoriteLocations favoriteLocations known).Nodup := by
  induction favoriteLocations with
  | nil => intro known; simp [newFavoriteLocations]
  | cons loc locs ih =>
    intro known
    by_cases h : loc ∈ known
    · obtain ⟨h1, h2⟩ := ih known
      simp only [newFavoriteLocations, h, if_true]
      refine ⟨?_, h2⟩
      intro k
      rw [h1 k]
      constructor
      · rintro ⟨a, b⟩
        exact ⟨List.mem_cons_of_mem _ a, b⟩
      · rintro ⟨a, b⟩
        rcases List.mem_cons.mp a with rfl | a
        · exact absurd h b
        · exact ⟨a, b⟩
    · obtain ⟨h1, h2⟩ := ih (known ++ [loc])
      simp only [newFavoriteLocations, h, if_false]
      constructor
      · intro k
        simp only [List.mem_cons, h1 k, List.mem_append, List.not_mem_nil, or_false, not_or]
        constructor
        · rintro (rfl | ⟨a, b, _⟩)
          · exact ⟨Or.inl rfl, h⟩
          · exact ⟨Or.inr a, b⟩
        · rintro ⟨a | a, b⟩
          · exact Or.inl a
          · by_cases hk : k = loc
            · exact Or.inl hk
            · exact Or.inr ⟨a, b, hk⟩
      · rw [List.nodup_cons]
        refine ⟨?_, h2⟩
        intro hmem
        have := ((h1 loc).mp hmem).2
        simp at this

theorem createNewMarkers_eq (ext : PresenterExternals Location Marker Collection Bitmap)
    (favoriteLocations : List Location) :
    ∀ (markerBuilder : MapMarkerBuilder Bitmap) (map : List (Location × Marker))
      (collection : Collection),
      markerBuilder.baseOrder = (initialMarkerBuilder ext).baseOrder →
      markerBuilder.isAccuracyCircleSupported =
        (initialMarkerBuilder ext).isAccuracyCircleSupported →
      markerBuilder.pinIcon = (initialMarkerBuilder ext).pinIcon →
      createNewMarkers ext favoriteLocations markerBuilder map collection =
        (map ++ (buildMarkers ext
            (newFavoriteLocations favoriteLocations (map.map Prod.fst)) collection).1,
          (buildMarkers ext
            (newFavoriteLocations favoriteLocations (map.map Prod.fst)) collection).2) := by
  induction favoriteLocations with
  | nil =>
    intro markerBuilder map collection _ _ _
    simp [createNewMarkers, newFavoriteLocations, buildMarkers]
  | cons loc locs ih =>
    intro markerBuilder map collection hb1 hb2 hb3
    by_cases h : loc ∈ map.map Prod.fst
    · simp only [createNewMarkers, newFavoriteLocations, h, if_true]
      exact ih markerBuilder map collection hb1 hb2 hb3
    · have hbuilder : ({ markerBuilder with
          position := some (ext.getPosition31 loc)
          pinIconModulationColor := some (ext.getColor loc)
          isHidden := some (ext.isHidden loc) } : MapMarkerBuilder Bitmap) =
          markerBuilderFor ext loc := by
        cases markerBuilder
        simp only [markerBuilderFor] at *
        simp only [hb1, hb2, hb3]
      simp only [createNewMarkers, newFavoriteLocations, h, if_false, hbuilder, buildMarkers]
      rw [ih (markerBuilderFor ext loc) _ _ rfl rfl rfl]
      simp [List.map_append]

theorem syncFavoriteLocationMarkers_eq
    (ext : PresenterExternals Location Marker Collection Bitmap)
    (favoriteLocations : List Location)
    (self : FavoriteLocationsPresenter_P Location Marker Collection) :
    syncFavoriteLocationMarkers ext favoriteLocations self =
      { _favoriteLocationToMarkerMap :=
          self._favoriteLocationToMarkerMap.filter
              (fun (entry : Location × Marker) => decide (entry.1 ∈ favoriteLocations)) ++
            (buildMarkers ext
              (newFavoriteLocations favoriteLocations
                ((self._favoriteLocationToMarkerMap.filter
                  (fun (entry : Location × Marker) =>
                    decide (entry.1 ∈ favoriteLocations))).map Prod.fst))
              ((self._favoriteLocationToMarkerMap.filter
                (fun (entry : Location × Marker) =>
                  !decide (entry.1 ∈ favoriteLocations))).foldl
                (fun (c : Collection) (entry : Location × Marker) => ext.removeMarker c entry.2)
                self._markersCollection)).1
        _markersCollection :=
          (buildMarkers ext
            (newFavoriteLocations favoriteLocations
              ((self._favoriteLocationToMarkerMap.filter
                (fun (entry : Location × Marker) =>
                  decide (entry.1 ∈ favoriteLocations))).map Prod.fst))
            ((self._favoriteLocationToMarkerMap.filter
              (fun (entry : Location × Marker) =>
                !decide (entry.1 ∈ favoriteLocations))).foldl
              (fun (c : Collection) (entry : Location × Marker) => ext.removeMarker c entry.2)
              self._markersCollection)).2 } := by
  simp only [syncFavoriteLocationMarkers, removeObsoleteMarkers_eq]
  rw [createNewMarkers_eq ext favoriteLocations (initialMarkerBuilder ext) _ _ rfl rfl rfl]

end FavoriteLocationsClosedForm

section FavoriteLocationsLaws

open FavoriteLocationsPresenter_P

variable {Location Marker Collection Bitmap : Type}

theorem foldl_removeMarker_laws (ext : PresenterExternals Location Marker Collection Bitmap)
    (holds : Collection → Marker → Prop) (Inv : Collection → Prop)
    (hR1 : ∀ c m, ¬ holds (ext.removeMarker c m) m)
    (hR2 : ∀ c m m', holds (ext.removeMarker c m) m' → holds c m')
    (hRI : ∀ c m, Inv c → Inv (ext.removeMarker c m))
    (entries : List (Location × Marker)) :
    ∀ c : Collection,
      (Inv c → Inv (entries.foldl
        (fun (c : Collection) (entry : Location × Marker) => ext.removeMarker c entry.2) c)) ∧
      (∀ m, ¬ holds c m → ¬ holds (entries.foldl
        (fun (c : Collection) (entry : Location × Marker) => ext.removeMarker c entry.2) c) m) ∧
      (∀ e ∈ entries, ¬ holds (entries.foldl
        (fun (c : Collection) (entry : Location × Marker) => ext.removeMarker c entry.2) c)
          e.2) := by
  induction entries with
  | nil =>
    intro c
    exact ⟨fun h => h, fun m h => h, fun e he => absurd he (List.not_mem_nil e)⟩
  | cons entry entries ih =>
    intro c
    obtain ⟨i1, i2, i3⟩ := ih (ext.removeMarker c entry.2)
    simp only [List.foldl_cons]
    refine ⟨fun h => i1 (hRI c entry.2 h), fun m h => i2 m (fun h' => h (hR2 c entry.2 m h')), ?_⟩
    intro e he
    rcases List.mem_cons.mp he with rfl | he
    · exact i2 e.2 (hR1 c e.2)
    · exact i3 e he

theorem buildMarkers_laws (ext : PresenterExternals Location Marker Collection Bitmap)
    (holds : Collection → Marker → Prop) (Inv : Collection → Prop)
    (oldMap : List (Location × Marker))
    (hB : ∀ b c m', holds (ext.buildAndAddToCollection b c).2 m' ↔
      (holds c m' ∨ m' = (ext.buildAndAddToCollection b c).1))
    (hBI : ∀ b c, Inv c → Inv (ext.buildAndAddToCollection b c).2)
    (hfresh : ∀ b c, Inv c → ∀ e ∈ oldMap, (ext.buildAndAddToCollection b c).1 ≠ e.2)
    (locations : List Location) :
    ∀ c : Collection, Inv c →
      Inv (buildMarkers ext locations c).2 ∧
      (∀ m', holds (buildMarkers ext locations c).2 m' ↔
        (holds c m' ∨ m' ∈ (buildMarkers ext locations c).1.map Prod.snd)) ∧
      (∀ e ∈ (buildMarkers ext locations c).1, ∀ old ∈ oldMap, e.2 ≠ old.2) := by
  induction locations with
  | nil =>
    intro c hc
    exact ⟨hc, fun m' => by simp [buildMarkers], fun e he => by simp [buildMarkers] at he⟩
  | cons loc locs ih =>
    intro c hc
    obtain ⟨i1, i2, i3⟩ := ih (ext.buildAndAddToCollection (markerBuilderFor ext loc) c).2
      (hBI _ c hc)
    simp only [buildMarkers]
    refine ⟨i1, ?_, ?_⟩
    · intro m'
      rw [i2 m', hB]
      simp only [List.map_cons, List.mem_cons]
      tauto
    · intro e he old hold
      rcases List.mem_cons.mp he with rfl | he
      · exact hfresh _ c hc old hold
      · exact i3 e he old hold

theorem buildMarkers_keys (ext : PresenterExternals Location Marker Collection Bitmap)
    (locations : List Location) :
    ∀ c : Collection, (buildMarkers ext locations c).1.map Prod.fst = locations := by
  induction locations with
  | nil => intro c; rfl
  | cons loc locs ih =>
    intro c
    simp only [buildMarkers, List.map_cons, ih]

theorem foldl_removeMarker_keeps (ext : PresenterExternals Location Marker Collection Bitmap)
    (holds : Collection → Marker → Prop)
    (hR3 : ∀ c m m', holds c m' → m' ≠ m → holds (ext.removeMarker c m) m')
    (entries : List (Location × Marker)) :
    ∀ (c : Collection) (m : Marker), holds c m → (∀ e ∈ entries, m ≠ e.2) →
      holds (entries.foldl
        (fun (c : Collection) (entry : Location × Marker) => ext.removeMarker c entry.2) c) m := by
  induction entries with
  | nil =>
    intro c m h _
    exact h
  | cons entry entries ih =>
    intro c m h hne
    simp only [List.foldl_cons]
    exact ih (ext.removeMarker c entry.2) m
      (hR3 c entry.2 m h (hne entry (List.mem_cons_self _ _)))
      (fun e he => hne e (List.mem_cons_of_mem _ he))

end FavoriteLocationsLaws

section FavoriteLocationsMarkers

open FavoriteLocationsPresenter_P

variable {Location Marker Collection Bitmap : Type} [DecidableEq Location]

theorem syncFavoriteLocationMarkers_closed
    (ext : PresenterExternals Location Marker Collection Bitmap)
    (favoriteLocations : List Location)
    (self : FavoriteLocationsPresenter_P Location Marker Collection) :
    syncFavoriteLocationMarkers ext favoriteLocations self =
      { _favoriteLocationToMarkerMap :=
          keptEntries favoriteLocations self._favoriteLocationToMarkerMap ++
            (buildMarkers ext
              (newFavoriteLocations favoriteLocations
                ((keptEntries favoriteLocations self._favoriteLocationToMarkerMap).map Prod.fst))
              (removeMarkers ext
                (obsoleteEntries favoriteLocations self._favoriteLocationToMarkerMap)
                self._markersCollection)).1
        _markersCollection :=
          (buildMarkers ext
            (newFavoriteLocations favoriteLocations
              ((keptEntries favoriteLocations self._favoriteLocationToMarkerMap).map Prod.fst))
            (removeMarkers ext
              (obsoleteEntries favoriteLocations self._favoriteLocationToMarkerMap)
              self._markersCollection)).2 } := by
  simp only [keptEntries, obsoleteEntries, removeMarkers]
  exact syncFavoriteLocationMarkers_eq ext favoriteLocations self

theorem newFavoriteLocations_kept (favoriteLocations : List Location)
    (map : List (Location × Marker)) :
    (∀ k, k ∈ newFavoriteLocations favoriteLocations
        ((keptEntries favoriteLocations map).map Prod.fst) ↔
      (k ∈ favoriteLocations ∧ k ∉ map.map Prod.fst)) ∧
    (newFavoriteLocations favoriteLocations
      ((keptEntries favoriteLocations map).map Prod.fst)).Nodup := by
  obtain ⟨h1, h2⟩ := newFavoriteLocations_spec favoriteLocations
    ((keptEntries favoriteLocations map).map Prod.fst)
  refine ⟨?_, h2⟩
  intro k
  rw [h1 k]
  constructor
  · rintro ⟨a, b⟩
    refine ⟨a, ?_⟩
    intro hmem
    apply b
    obtain ⟨old, hold, hfst⟩ := List.mem_map.mp hmem
    refine List.mem_map.mpr ⟨old, ?_, hfst⟩
    simp only [keptEntries, List.mem_filter, decide_eq_true_eq]
    exact ⟨hold, by rw [hfst]; exact a⟩
  · rintro ⟨a, b⟩
    refine ⟨a, ?_⟩
    intro hmem
    apply b
    obtain ⟨old, hold, hfst⟩ := List.mem_map.mp hmem
    simp only [keptEntries, List.mem_filter] at hold
    exact List.mem_map.mpr ⟨old, hold.1, hfst⟩

theorem syncFavoriteLocationMarkers_collection
    (ext : PresenterExternals Location Marker Collection Bitmap)
    (favoriteLocations : List Location)
    (self : FavoriteLocationsPresenter_P Location Marker Collection)
    (holds : Collection → Marker → Prop) (Inv : Collection → Prop)
    (hR1 : ∀ c m, ¬ holds (ext.removeMarker c m) m)
    (hR2 : ∀ c m m', holds (ext.removeMarker c m) m' → holds c m')
    (hR3 : ∀ c m m', holds c m' → m' ≠ m → holds (ext.removeMarker c m) m')
    (hRI : ∀ c m, Inv c → Inv (ext.removeMarker c m))
    (hB : ∀ b c m', holds (ext.buildAndAddToCollection b c).2 m' ↔
      (holds c m' ∨ m' = (ext.buildAndAddToCollection b c).1))
    (hBI : ∀ b c, Inv c → Inv (ext.buildAndAddToCollection b c).2)
    (hfresh : ∀ b c, Inv c → ∀ e ∈ self._favoriteLocationToMarkerMap,
      (ext.buildAndAddToCollection b c).1 ≠ e.2)
    (hInv : Inv self._markersCollection) :
    (∀ k m, (k, m) ∈ self._favoriteLocationToMarkerMap → k ∉ favoriteLocations →
      ¬ holds (syncFavoriteLocationMarkers ext favoriteLocations self)._markersCollection m) ∧
    (∀ k m, (k, m) ∈ self._favoriteLocationToMarkerMap → k ∈ favoriteLocations →
      holds self._markersCollection m →
      (∀ e ∈ self._favoriteLocationToMarkerMap, e.1 ∉ favoriteLocations → m ≠ e.2) →
      holds (syncFavoriteLocationMarkers ext favoriteLocations self)._markersCollection m) ∧
    (∀ k m, (k, m) ∈ (syncFavoriteLocationMarkers ext favoriteLocations
        self)._favoriteLocationToMarkerMap →
      k ∉ self._favoriteLocationToMarkerMap.map Prod.fst →
      holds (syncFavoriteLocationMarkers ext favoriteLocations self)._markersCollection m ∧
      ∀ e ∈ self._favoriteLocationToMarkerMap, m ≠ e.2) ∧
    (∀ m, holds (syncFavoriteLocationMarkers ext favoriteLocations self)._markersCollection m →
      holds self._markersCollection m ∨
      ∃ k, (k, m) ∈ (syncFavoriteLocationMarkers ext favoriteLocations
          self)._favoriteLocationToMarkerMap ∧
        k ∉ self._favoriteLocationToMarkerMap.map Prod.fst) := by
  obtain ⟨f1, f2, f3⟩ := foldl_removeMarker_laws ext holds Inv hR1 hR2 hRI
    (obsoleteEntries favoriteLocations self._favoriteLocationToMarkerMap)
    self._markersCollection
  have f4 := foldl_removeMarker_keeps ext holds hR3
    (obsoleteEntries favoriteLocations self._favoriteLocationToMarkerMap)
    self._markersCollection
  obtain ⟨b1, b2, b3⟩ := buildMarkers_laws ext holds Inv self._favoriteLocationToMarkerMap
    hB hBI hfresh
    (newFavoriteLocations favoriteLocations
      ((keptEntries favoriteLocations self._favoriteLocationToMarkerMap).map Prod.fst))
    (removeMarkers ext (obsoleteEntries favoriteLocations self._favoriteLocationToMarkerMap)
      self._markersCollection) (f1 hInv)
  have hkeys := buildMarkers_keys ext
    (newFavoriteLocations favoriteLocations
      ((keptEntries favoriteLocations self._favoriteLocationToMarkerMap).map Prod.fst))
    (removeMarkers ext (obsoleteEntries favoriteLocations self._favoriteLocationToMarkerMap)
      self._markersCollection)
  obtain ⟨n1, -⟩ := newFavoriteLocations_kept favoriteLocations
    self._favoriteLocationToMarkerMap
  rw [syncFavoriteLocationMarkers_closed ext favoriteLocations self]
  simp only
  refine ⟨?_, ?_, ?_, ?_⟩
  · intro k m hmem hk hholds
    rcases (b2 m).mp hholds with h | h
    · refine f3 (k, m) ?_ h
      simp only [obsoleteEntries, List.mem_filter, Bool.not_eq_true', decide_eq_false_iff_not]
      exact ⟨hmem, hk⟩
    · obtain ⟨e, he, hsnd⟩ := List.mem_map.mp h
      exact b3 e he (k, m) hmem hsnd
  · intro k m _ _ hholds hne
    refine (b2 m).mpr (Or.inl (f4 m hholds ?_))
    intro e he
    simp only [obsoleteEntries, List.mem_filter, Bool.not_eq_true',
      decide_eq_false_iff_not] at he
    exact hne e he.1 he.2
  · intro k m hmem hk
    rcases List.mem_append.mp hmem with h | h
    · exfalso
      apply hk
      simp only [keptEntries, List.mem_filter] at h
      exact List.mem_map.mpr ⟨(k, m), h.1, rfl⟩
    · exact ⟨(b2 m).mpr (Or.inr (List.mem_map.mpr ⟨(k, m), h, rfl⟩)),
        fun e he => b3 (k, m) h e he⟩
  · intro m hholds
    rcases (b2 m).mp hholds with h | h
    · left
      by_contra hn
      exact f2 m hn h
    · right
      obtain ⟨e, he, hsnd⟩ := List.mem_map.mp h
      refine ⟨e.1, ?_, ?_⟩
      · rw [← hsnd]
        exact List.mem_append_right _ he
      · have hin : e.1 ∈ (buildMarkers ext
            (newFavoriteLocations favoriteLocations
              ((keptEntries favoriteLocations
                self._favoriteLocationToMarkerMap).map Prod.fst))
            (removeMarkers ext
              (obsoleteEntries favoriteLocations self._favoriteLocationToMarkerMap)
              self._markersCollection)).1.map Prod.fst := List.mem_map.mpr ⟨e, he, rfl⟩
        rw [hkeys] at hin
        exact ((n1 e.1).mp hin).2

end FavoriteLocationsMarkers

section FavoriteLocationsSync

open FavoriteLocationsPresenter_P

variable {Location Marker Collection Bitmap : Type} [DecidableEq Location]

/-- C23: after `syncFavoriteLocationMarkers` the keys of the
favorite-location-to-marker map are exactly the collection's current favorite
locations.  Every entry whose location is no longer in the collection is removed,
and `removeMarker` is applied to its marker; every location that already had a
marker keeps that marker; every new location gets one entry, whose marker is the
one returned by a `buildAndAddToCollection` call made with that location's
position, colour and hidden flag; distinct keys stay distinct.  A second sync
against the same collection leaves the map and the markers collection as they
are.

The resulting map and `_markersCollection` are given in full: the map is the kept
entries followed by one entry per new location, and the collection is the old one
after one `removeMarker` call per obsolete entry, in map order, followed by one
`buildAndAddToCollection` call per new location, in the order of the favorite
locations; the new locations are the favorite locations that were not keys, each
once.

Whenever `removeMarker` takes exactly its argument out of what a collection holds
and `buildAndAddToCollection` adds exactly the marker it returns, a marker no
entry of the old map has, then after the call: the collection holds no marker of
an obsolete entry; it still holds the marker of a kept entry that it held before
and that no obsolete entry shares; it holds the marker of every new entry, which
differs from every old marker; and it holds nothing else that it did not hold
before. -/
theorem C23_syncFavoriteLocationMarkers
    (ext : PresenterExternals Location Marker Collection Bitmap)
    (favoriteLocations : List Location)
    (self : FavoriteLocationsPresenter_P Location Marker Collection) :
    (∀ k, k ∈ (syncFavoriteLocationMarkers ext favoriteLocations
        self)._favoriteLocationToMarkerMap.map Prod.fst ↔ k ∈ favoriteLocations) ∧
    ((self._favoriteLocationToMarkerMap.map Prod.fst).Nodup →
      ((syncFavoriteLocationMarkers ext favoriteLocations
        self)._favoriteLocationToMarkerMap.map Prod.fst).Nodup) ∧
    (∀ k m, (k, m) ∈ self._favoriteLocationToMarkerMap → k ∉ favoriteLocations →
      k ∉ (syncFavoriteLocationMarkers ext favoriteLocations
        self)._favoriteLocationToMarkerMap.map Prod.fst) ∧
    removeObsoleteMarkers ext favoriteLocations self._favoriteLocationToMarkerMap
        self._markersCollection =
      (self._favoriteLocationToMarkerMap.filter
          (fun entry => decide (entry.1 ∈ favoriteLocations)),
        (self._favoriteLocationToMarkerMap.filter
          (fun entry => !decide (entry.1 ∈ favoriteLocations))).foldl
            (fun c entry => ext.removeMarker c entry.2) self._markersCollection) ∧
    (∀ k m, (k, m) ∈ self._favoriteLocationToMarkerMap → k ∈ favoriteLocations →
      (k, m) ∈ (syncFavoriteLocationMarkers ext favoriteLocations
        self)._favoriteLocationToMarkerMap) ∧
    (∀ k m, (k, m) ∈ (syncFavoriteLocationMarkers ext favoriteLocations
        self)._favoriteLocationToMarkerMap →
      k ∈ self._favoriteLocationToMarkerMap.map Prod.fst →
      (k, m) ∈ self._favoriteLocationToMarkerMap) ∧
    (∀ k, k ∈ favoriteLocations → k ∉ self._favoriteLocationToMarkerMap.map Prod.fst →
      ∃ m, (k, m) ∈ (syncFavoriteLocationMarkers ext favoriteLocations
          self)._favoriteLocationToMarkerMap ∧
        ∃ (builder : MapMarkerBuilder Bitmap) (c : Collection),
          m = (ext.buildAndAddToCollection builder c).1 ∧
          builder.position = some (ext.getPosition31 k) ∧
          builder.pinIconModulationColor = some (ext.getColor k) ∧
          builder.isHidden = some (ext.isHidden k)) ∧
    syncFavoriteLocationMarkers ext favoriteLocations
        (syncFavoriteLocationMarkers ext favoriteLocations self) =
      syncFavoriteLocationMarkers ext favoriteLocations self ∧
    syncFavoriteLocationMarkers ext favoriteLocations self =
      { _favoriteLocationToMarkerMap :=
          keptEntries favoriteLocations self._favoriteLocationToMarkerMap ++
            (buildMarkers ext
              (newFavoriteLocations favoriteLocations
                ((keptEntries favoriteLocations self._favoriteLocationToMarkerMap).map Prod.fst))
              (removeMarkers ext
                (obsoleteEntries favoriteLocations self._favoriteLocationToMarkerMap)
                self._markersCollection)).1
        _markersCollection :=
          (buildMarkers ext
            (newFavoriteLocations favoriteLocations
              ((keptEntries favoriteLocations self._favoriteLocationToMarkerMap).map Prod.fst))
            (removeMarkers ext
              (obsoleteEntries favoriteLocations self._favoriteLocationToMarkerMap)
              self._markersCollection)).2 } ∧
    (∀ k, k ∈ newFavoriteLocations favoriteLocations
        ((keptEntries favoriteLocations self._favoriteLocationToMarkerMap).map Prod.fst) ↔
      (k ∈ favoriteLocations ∧ k ∉ self._favoriteLocationToMarkerMap.map Prod.fst)) ∧
    (newFavoriteLocations favoriteLocations
      ((keptEntries favoriteLocations self._favoriteLocationToMarkerMap).map Prod.fst)).Nodup ∧
    (∀ (holds : Collection → Marker → Prop) (Inv : Collection → Prop),
      (∀ c m, ¬ holds (ext.removeMarker c m) m) →
      (∀ c m m', holds (ext.removeMarker c m) m' → holds c m') →
      (∀ c m m', holds c m' → m' ≠ m → holds (ext.removeMarker c m) m') →
      (∀ c m, Inv c → Inv (ext.removeMarker c m)) →
      (∀ b c m', holds (ext.buildAndAddToCollection b c).2 m' ↔
        (holds c m' ∨ m' = (ext.buildAndAddToCollection b c).1)) →
      (∀ b c, Inv c → Inv (ext.buildAndAddToCollection b c).2) →
      (∀ b c, Inv c → ∀ e ∈ self._favoriteLocationToMarkerMap,
        (ext.buildAndAddToCollection b c).1 ≠ e.2) →
      Inv self._markersCollection →
      (∀ k m, (k, m) ∈ self._favoriteLocationToMarkerMap → k ∉ favoriteLocations →
        ¬ holds (syncFavoriteLocationMarkers ext favoriteLocations self)._markersCollection m) ∧
      (∀ k m, (k, m) ∈ self._favoriteLocationToMarkerMap → k ∈ favoriteLocations →
        holds self._markersCollection m →
        (∀ e ∈ self._favoriteLocationToMarkerMap, e.1 ∉ favoriteLocations → m ≠ e.2) →
        holds (syncFavoriteLocationMarkers ext favoriteLocations self)._markersCollection m) ∧
      (∀ k m, (k, m) ∈ (syncFavoriteLocationMarkers ext favoriteLocations
          self)._favoriteLocationToMarkerMap →
        k ∉ self._favoriteLocationToMarkerMap.map Prod.fst →
        holds (syncFavoriteLocationMarkers ext favoriteLocations self)._markersCollection m ∧
        ∀ e ∈ self._favoriteLocationToMarkerMap, m ≠ e.2) ∧
      (∀ m, holds (syncFavoriteLocationMarkers ext favoriteLocations self)._markersCollection m →
        holds self._markersCollection m ∨
        ∃ k, (k, m) ∈ (syncFavoriteLocationMarkers ext favoriteLocations
            self)._favoriteLocationToMarkerMap ∧
          k ∉ self._favoriteLocationToMarkerMap.map Prod.fst)) := by
  obtain ⟨e1, e2, e3, e4, e5, e6, e7, e8⟩ :=
    syncFavoriteLocationMarkers_entries ext favoriteLocations self
  obtain ⟨n1, n2⟩ := newFavoriteLocations_kept favoriteLocations
    self._favoriteLocationToMarkerMap
  exact ⟨e1, e2, e3, e4, e5, e6, e7, e8,
    syncFavoriteLocationMarkers_closed ext favoriteLocations self, n1, n2,
    fun holds Inv hR1 hR2 hR3 hRI hB hBI hfresh hInv =>
      syncFavoriteLocationMarkers_collection ext favoriteLocations self holds Inv
        hR1 hR2 hR3 hRI hB hBI hfresh hInv⟩

theorem C23_syncFavoriteLocationMarkers_witness :
    ((syncFavoriteLocationMarkers listPresenterExternals [3, 4, 1, 4]
        ⟨[(1, 10), (2, 11), (3, 12)], ([10, 11, 12], 13)⟩)._favoriteLocationToMarkerMap.map
          Prod.fst).Nodup ∧
    (syncFavoriteLocationMarkers listPresenterExternals [3, 4, 1, 4]
        ⟨[(1, 10), (2, 11), (3, 12)], ([10, 11, 12], 13)⟩)._favoriteLocationToMarkerMap =
      [(1, 10), (3, 12), (4, 13)] ∧
    (syncFavoriteLocationMarkers listPresenterExternals [3, 4, 1, 4]
        ⟨[(1, 10), (2, 11), (3, 12)], ([10, 11, 12], 13)⟩)._markersCollection =
      ([10, 12, 13], 14) ∧
    (11 ∉ (syncFavoriteLocationMarkers listPresenterExternals [3, 4, 1, 4]
        ⟨[(1, 10), (2, 11), (3, 12)], ([10, 11, 12], 13)⟩)._markersCollection.1 ∧
      13 ∈ (syncFavoriteLocationMarkers listPresenterExternals [3, 4, 1, 4]
        ⟨[(1, 10), (2, 11), (3, 12)], ([10, 11, 12], 13)⟩)._markersCollection.1) :=
  ⟨(C23_syncFavoriteLocationMarkers listPresenterExternals [3, 4, 1, 4]
      ⟨[(1, 10), (2, 11), (3, 12)], ([10, 11, 12], 13)⟩).2.1 (by decide),
    by decide, by decide,
    (fun h => ⟨h.1 2 11 (by decide) (by decide), (h.2.2.1 4 13 (by decide) (by decide)).1⟩)
      ((C23_syncFavoriteLocationMarkers listPresenterExternals [3, 4, 1, 4]
        ⟨[(1, 10), (2, 11), (3, 12)], ([10, 11, 12], 13)⟩).2.2.2.2.2.2.2.2.2.2.2
        (fun (c : List Nat × Nat) (m : Nat) => m ∈ c.1)
        (fun (c : List Nat × Nat) => 13 ≤ c.2)
        (fun c m => by simp [listPresenterExternals])
        (fun c m m' h => by
          simp only [listPresenterExternals, List.mem_filter] at h
          exact h.1)
        (fun c m m' h hne => by
          simp only [listPresenterExternals, List.mem_filter, decide_eq_true_eq]
          exact ⟨h, hne⟩)
        (fun c m h => h)
        (fun b c m' => by simp [listPresenterExternals])
        (fun b c h => Nat.le_succ_of_le h)
        (fun b c h e he => by
          simp only [List.mem_cons, List.mem_singleton, List.not_mem_nil, or_false] at he
          have h13 : 13 ≤ c.2 := h
          show c.2 ≠ e.2
          rcases he with rfl | rfl | rfl <;> simp <;> omega)
        (Nat.le_refl 13))⟩

end FavoriteLocationsSync

end OsmAnd
